import Mathlib

/-!
# Verification development for the XPLAY video driver (`gfx/drivers/xplay_gfx.c`)

Shallow embedding of the driver's scaling, upload and per-frame composition code.

Conventions of the embedding:
* C `int` values are `Int`, C `unsigned` values are `Nat` (arguments are meant
  below `2 ^ 32`); every `unsigned` product of the source is reduced modulo
  `2 ^ 32`, and conversions between `int` and `unsigned` wrap.
* An operation whose behaviour is undefined in C (integer division by zero, an
  out-of-bounds array index, a copy outside an allocated buffer) makes the
  embedded function return `none`.
* C `float` values are idealised as exact rationals (`Rat`).
* Bytes are `Nat` values; the code only copies them.
-/

namespace XPlay

/-! ## Constants -/

/-- Output width: `#define SCREEN_WIDTH 854`. -/
def SCREEN_WIDTH : Int := 854

/-- Output height: `#define SCREEN_HEIGHT 480`. -/
def SCREEN_HEIGHT : Int := 480

/-- Slots per layer: `#define XPLAY_FRAMEBUF_COUNT 2`. -/
def XPLAY_FRAMEBUF_COUNT : Int := 2

/-- Smallest value of a 32-bit C `int`. -/
def INT_MIN : Int := -2147483648

/-- Largest value of a 32-bit C `int`. -/
def INT_MAX : Int := 2147483647

/-- Number of values of a 32-bit C `unsigned`. -/
def UINT_RANGE : Nat := 4294967296

/-! ## Machine arithmetic -/

/-- C division of two `int`s: truncation toward zero. The result is undefined
(`none`) when the divisor is zero and for `INT_MIN / -1`. -/
def int_div (a b : Int) : Option Int :=
  if b = 0 then none
  else if a = INT_MIN ∧ b = -1 then none
  else some (Int.tdiv a b)

/-- Conversion of an `unsigned` to `int` (two's complement reinterpretation). -/
def to_int (n : Nat) : Int :=
  if n % UINT_RANGE < 2147483648 then ((n % UINT_RANGE : Nat) : Int)
  else ((n % UINT_RANGE : Nat) : Int) - 4294967296

/-- Conversion of an `int` to `unsigned` (reduction modulo `2 ^ 32`). -/
def to_unsigned (i : Int) : Nat := (i % 4294967296).toNat

/-- Multiplication of two `unsigned` values. -/
def umul (a b : Nat) : Nat := (a * b) % UINT_RANGE

/-- The value is one a 32-bit C `int` can hold. -/
def int_range (i : Int) : Prop := -2147483648 ≤ i ∧ i < 2147483648

instance (i : Int) : Decidable (int_range i) :=
  inferInstanceAs (Decidable (-2147483648 ≤ i ∧ i < 2147483648))

/-- Addition of two `int`s; signed overflow is undefined behaviour (`none`). -/
def int_add (a b : Int) : Option Int := if int_range (a + b) then some (a + b) else none

/-- Subtraction of two `int`s; signed overflow is undefined behaviour (`none`). -/
def int_sub (a b : Int) : Option Int := if int_range (a - b) then some (a - b) else none

/-- Multiplication of two `int`s; signed overflow is undefined behaviour
(`none`). -/
def int_mul (a b : Int) : Option Int := if int_range (a * b) then some (a * b) else none

/-! ## Binary32 arithmetic

The `float` operations of the text renderer follow IEEE 754 binary32 with
rounding to nearest, ties to even, each operation rounded once. A finite float
is the rational it denotes (the two zeros are one value); an operation whose
result is an infinity or a NaN has no value in this model (`none`). -/

/-- The power `2 ^ e` for an integer exponent. -/
def pow2 (e : Int) : Rat :=
  if 0 ≤ e then ((2 ^ e.toNat : Nat) : Rat) else 1 / ((2 ^ (-e).toNat : Nat) : Rat)

/-- The natural number nearest to the quotient `n / d`, the even one of the two
when the quotient lies halfway. -/
def round_half_even (n d : Nat) : Nat :=
  if 2 * (n % d) < d then n / d
  else if d < 2 * (n % d) then n / d + 1
  else if (n / d) % 2 = 0 then n / d
  else n / d + 1

/-- The binary logarithm of `n` rounded down, by halving at most `fuel` times. -/
def floor_log2_fuel : Nat → Nat → Nat
  | 0, _ => 0
  | fuel + 1, n => if n < 2 then 0 else floor_log2_fuel fuel (n / 2) + 1

/-- The binary logarithm of `n` rounded down (0 for `n = 0`). -/
def floor_log2 (n : Nat) : Nat := floor_log2_fuel n n

/-- Exponent of the unit in the last place of the binary32 format at the
positive quotient `n / d`: 23 below the binary exponent of the quotient, which
is taken at least -126 (the subnormal range). -/
def binary32_exponent (n d : Nat) : Int :=
  let e0 : Int := (floor_log2 n : Int) - (floor_log2 d : Int)
  let e : Int := if pow2 e0 * (d : Rat) ≤ (n : Rat) then e0 else e0 - 1
  max e (-126) - 23

/-- The multiple of the unit in the last place nearest to the positive quotient
`n / d`, ties to even. -/
def binary32_of_pos (n d : Nat) : Rat :=
  let s : Int := binary32_exponent n d
  let r : Nat :=
    if 0 ≤ s then round_half_even n (d * 2 ^ s.toNat)
    else round_half_even (n * 2 ^ (-s).toNat) d
  (r : Rat) * pow2 s

/-- The bound `2 ^ 128 - 2 ^ 103`: a value of this magnitude or more rounds to
an infinity. -/
def BINARY32_LIMIT : Rat := 340282356779733661637539395458142568448

/-- Rounding of an exact result to binary32; `none` when the rounded result is
an infinity. -/
def float_round (q : Rat) : Option Rat :=
  if BINARY32_LIMIT ≤ q ∨ q ≤ -BINARY32_LIMIT then none
  else if q = 0 then some 0
  else if 0 < q then some (binary32_of_pos q.num.natAbs q.den)
  else some (-(binary32_of_pos q.num.natAbs q.den))

/-- The sum `a + b` of two floats. -/
def float_add (a b : Rat) : Option Rat := float_round (a + b)

/-- The product `a * b` of two floats. -/
def float_mul (a b : Rat) : Option Rat := float_round (a * b)

/-- The quotient `a / b` of two floats; a zero divisor gives an infinity or a
NaN (`none`). -/
def float_div (a b : Rat) : Option Rat := if b = 0 then none else float_round (a / b)

/-- Conversion of a `float` to `int`: truncation toward zero, undefined (`none`)
when the truncated value is no `int`. -/
def float_to_int (q : Rat) : Option Int :=
  if int_range (Int.tdiv q.num (q.den : Int)) then some (Int.tdiv q.num (q.den : Int)) else none

/-! ## ScaleLayoutEngine: `xplay_get_scale_factor` -/

/-- Embedding of `xplay_get_scale_factor(width, height, &sx, &sy)`; the result is
the pair `(sx, sy)`.

```c
int x = SCREEN_WIDTH / width;
int y = SCREEN_HEIGHT / height;
*sx = *sy = MIN(x, y);
if (width / height >= 2 && height * (*sy + 1) <= 480) *sy += 1;
```

For a source of positive size the sum `*sy + 1` and the product
`height * (*sy + 1)` stay inside the `int` range
(`scale_factor_product_in_range`); they are taken in `Int` directly. -/
def xplay_get_scale_factor (width height : Int) : Option (Int × Int) :=
  match int_div SCREEN_WIDTH width with
  | none => none
  | some x =>
    match int_div SCREEN_HEIGHT height with
    | none => none
    | some y =>
      let s := min x y
      match int_div width height with
      | none => none
      | some r =>
        if r ≥ 2 ∧ height * (s + 1) ≤ 480 then some (s, s + 1) else some (s, s)

/-! ## Data model -/

/-- The enum `xplay_framebuf_format`. -/
inductive xplay_framebuf_format where
  | PF_NONE
  | PF_RGBA16_4444
  | PF_RGB16_565
  | PF_RGBA32
  | PF_RGB32
  deriving DecidableEq, Repr

/-- Pixel transfer formats passed to `glTexImage2D` / `glTexSubImage2D`. -/
inductive gl_format where
  | GL_RGBA
  | GL_RGB
  | GL_ALPHA
  deriving DecidableEq, Repr

/-- Pixel transfer types passed to `glTexImage2D` / `glTexSubImage2D`. -/
inductive gl_type where
  | GL_UNSIGNED_SHORT_4_4_4_4
  | GL_UNSIGNED_SHORT_5_6_5
  | GL_UNSIGNED_BYTE
  deriving DecidableEq, Repr

/-- The struct `xplay_framebuf_texture`. `tempbuf` is `none` for a `NULL` pointer and
otherwise holds the bytes of the allocated scratch block (its length is the
allocation size). `verts` is the array `float verts[8]`. -/
structure xplay_framebuf_texture where
  handle : Nat
  width : Int
  height : Int
  fmt : xplay_framebuf_format
  tempbuf : Option (List Nat)
  verts : List Rat
  deriving DecidableEq

/-- The struct `xplay_framebuf_program`. -/
structure xplay_framebuf_program where
  handle : Nat
  pos_loc : Int
  tex_loc : Int
  sampler_loc : Int
  alpha_loc : Int
  deriving DecidableEq

/-- The struct `xplay_video` without the context-driver pointers; `has_swap_buffers`
records whether `ctx_driver->swap_buffers` is non-null, `font` whether the font
pointer is non-null. The two texture arrays are lists indexed by the C index;
`text_verts` holds the floats of the allocated vertex block. -/
structure xplay_video where
  has_swap_buffers : Bool
  rgba_program : xplay_framebuf_program
  bgra_program : xplay_framebuf_program
  rgba_program_grid2x : xplay_framebuf_program
  bgra_program_grid2x : xplay_framebuf_program
  rgba_program_grid3x : xplay_framebuf_program
  bgra_program_grid3x : xplay_framebuf_program
  menu_alpha : Rat
  menu_rgb32 : Bool
  frame_rgb32 : Bool
  menu_tex : List xplay_framebuf_texture
  menu_tex_index : Int
  frame_tex : List xplay_framebuf_texture
  frame_tex_index : Int
  font_atlas_tex : Nat
  font_atlas_width : Int
  font_atlas_height : Int
  font_program : Nat
  font_pos_loc : Int
  font_tex_loc : Int
  font_sampler_loc : Int
  font_color_loc : Int
  font_px_loc : Int
  font_r : Rat
  font_g : Rat
  font_b : Rat
  font : Bool
  text_verts : List Rat
  text_verts_size : Int
  text_verts_capacity : Int
  deriving DecidableEq

/-- Texture parameter names set by `xplay_init_texture`. -/
inductive gl_pname where
  | GL_TEXTURE_WRAP_T
  | GL_TEXTURE_WRAP_S
  | GL_TEXTURE_MIN_FILTER
  | GL_TEXTURE_MAG_FILTER
  deriving DecidableEq, Repr

/-- Texture parameter values set by `xplay_init_texture`. -/
inductive gl_param where
  | GL_CLAMP_TO_EDGE
  | GL_NEAREST
  deriving DecidableEq, Repr

/-- The OpenGL and context calls the driver issues, with the arguments that
matter to the driver's contracts. Pointer arguments are recorded as the data
they point to at the time of the call. -/
inductive gl_call where
  | glClear
  | glBindTexture (handle : Nat)
  | glGenTextures (handle : Nat)
  | glTexParameteri (pname : gl_pname) (param : gl_param)
  | glTexImage2D (format : gl_format) (width height : Int) (type : gl_type)
  | glTexSubImage2D (width height : Int) (format : gl_format) (type : gl_type)
      (pixels : List Nat)
  | glEnable_BLEND
  | glDisable_BLEND
  | glUseProgram (handle : Nat)
  | glVertexAttribPointer (loc : Int) (size stride : Nat) (data : List Rat)
  | glEnableVertexAttribArray (loc : Int)
  | glUniform1i (loc : Int) (v : Int)
  | glUniform1f (loc : Int) (v : Rat)
  | glUniform2f (loc : Int) (v0 v1 : Rat)
  | glUniform3f (loc : Int) (v0 v1 v2 : Rat)
  | glDrawElements (count : Nat) (indices : List Nat)
  | glDrawArrays (first count : Int)
  | swap_buffers
  deriving DecidableEq

/-- Element `xs[i]` of a C array indexed by an `int`; `none` outside the array. -/
def slot_get {α : Type} (xs : List α) (i : Int) : Option α :=
  if 0 ≤ i then xs.get? i.toNat else none

/-- Assignment `xs[i] = v` for an index inside the array. -/
def slot_set {α : Type} (xs : List α) (i : Int) (v : α) : List α :=
  xs.set i.toNat v

/-! ## PixelBlitter: `xplay_blit_framebuf` -/

/-- The `switch (fmt)` of `xplay_blit_framebuf`: `(pixel_size, format, type)`,
or `none` for the `default: return;` branch. -/
def blit_params : xplay_framebuf_format → Option (Nat × gl_format × gl_type)
  | .PF_NONE => none
  | .PF_RGBA16_4444 => some (2, .GL_RGBA, .GL_UNSIGNED_SHORT_4_4_4_4)
  | .PF_RGB16_565 => some (2, .GL_RGB, .GL_UNSIGNED_SHORT_5_6_5)
  | .PF_RGBA32 => some (4, .GL_RGBA, .GL_UNSIGNED_BYTE)
  | .PF_RGB32 => some (4, .GL_RGBA, .GL_UNSIGNED_BYTE)

/-- Bytes `mem[off], ..., mem[off + n - 1]` of the memory starting at a pointer;
the memory is a function from byte offset to byte. -/
def read_bytes (mem : Nat → Nat) (off n : Nat) : List Nat :=
  (List.range n).map (fun i => mem (off + i))

/-- The call `memcpy(dst + off, src, n)` with `src` given as its `n` bytes: undefined
(`none`) when the destination range leaves the allocated block. -/
def memcpy_at (dst : List Nat) (off : Nat) (src : List Nat) : Option (List Nat) :=
  if off + src.length ≤ dst.length then
    some (dst.take off ++ src ++ dst.drop (off + src.length))
  else none

/-- The first `rows` iterations (`y = 0, ..., rows - 1`) of the repack loop
```c
for (unsigned y = 0; y < height; ++y)
   memcpy(tex->tempbuf + y*expected_pitch, (const uint8_t *)frame + y*pitch, expected_pitch);
```
Both offset products are `unsigned` products. -/
def repack_rows (frame : Nat → Nat) (expected_pitch pitch : Nat) :
    Nat → List Nat → Option (List Nat)
  | 0, buf => some buf
  | y + 1, buf =>
    match repack_rows frame expected_pitch pitch y buf with
    | none => none
    | some b =>
      memcpy_at b (umul y expected_pitch) (read_bytes frame (umul y pitch) expected_pitch)

/-- The `n` bytes OpenGL reads at the pointer `source` when `source` is a scratch
block: undefined (`none`) when the block is shorter than `n`. -/
def read_block (buf : List Nat) (n : Nat) : Option (List Nat) :=
  if n ≤ buf.length then some (buf.take n) else none

/-- The test `tex->width != width || tex->height != height || tex->fmt != fmt`
of `xplay_blit_framebuf`; the `int` fields are compared as `unsigned`. -/
def stored_differs (tex : xplay_framebuf_texture) (width height : Nat)
    (fmt : xplay_framebuf_format) : Prop :=
  to_unsigned tex.width ≠ width ∨ to_unsigned tex.height ≠ height ∨ tex.fmt ≠ fmt

instance (tex : xplay_framebuf_texture) (width height : Nat) (fmt : xplay_framebuf_format) :
    Decidable (stored_differs tex width height fmt) :=
  inferInstanceAs
    (Decidable (to_unsigned tex.width ≠ width ∨ to_unsigned tex.height ≠ height ∨ tex.fmt ≠ fmt))

/-- The reallocation block of `xplay_blit_framebuf`:
```c
if (tex->width != width || tex->height != height || tex->fmt != fmt) {
   tex->width = width; tex->height = height; tex->fmt = fmt;
   free(tex->tempbuf); tex->tempbuf = NULL;
   glTexImage2D(GL_TEXTURE_2D, 0, format, width, height, 0, format, type, NULL);
}
``` -/
def blit_realloc (tex : xplay_framebuf_texture) (width height : Nat)
    (fmt : xplay_framebuf_format) (format : gl_format) (type : gl_type) :
    xplay_framebuf_texture × List gl_call :=
  if stored_differs tex width height fmt then
    ({ tex with width := to_int width, height := to_int height, fmt := fmt, tempbuf := none },
      [gl_call.glTexImage2D format (to_int width) (to_int height) type])
  else (tex, [])

/-- The choice of `source` in `xplay_blit_framebuf`: the frame itself when the
pitch is the expected one, otherwise the scratch block (allocated with
`malloc(expected_pitch * height)` if absent, the product being `unsigned`)
filled by the repack loop. Returns the texture record and the `nbytes` bytes
that `glTexSubImage2D` reads at `source`. `malloc` is taken to succeed; the
fresh block is modelled zero-filled. -/
def blit_source (tex : xplay_framebuf_texture) (frame : Nat → Nat)
    (expected_pitch pitch height nbytes : Nat) :
    Option (xplay_framebuf_texture × List Nat) :=
  if pitch ≠ expected_pitch then
    let buf0 : List Nat :=
      match tex.tempbuf with
      | some b => b
      | none => List.replicate (umul expected_pitch height) 0
    match repack_rows frame expected_pitch pitch height buf0 with
    | none => none
    | some buf =>
      match read_block buf nbytes with
      | none => none
      | some pixels => some ({ tex with tempbuf := some buf }, pixels)
  else some (tex, read_bytes frame 0 nbytes)

/-- Embedding of `xplay_blit_framebuf(tex, frame, width, height, pitch, fmt)`.
Returns the updated texture record and the GL calls issued, in order.
`frame` is the memory starting at the `frame` pointer; `glTexSubImage2D` is
recorded with the `pixel_size * width * height` bytes it reads at `source`. -/
def xplay_blit_framebuf (tex : xplay_framebuf_texture) (frame : Nat → Nat)
    (width height pitch : Nat) (fmt : xplay_framebuf_format) :
    Option (xplay_framebuf_texture × List gl_call) :=
  match blit_params fmt with
  | none => some (tex, [])
  | some (pixel_size, format, type) =>
    let expected_pitch := umul pixel_size width
    match blit_realloc tex width height fmt format type with
    | (tex1, alloc) =>
      match blit_source tex1 frame expected_pitch pitch height (pixel_size * width * height) with
      | none => none
      | some (tex2, pixels) =>
        some (tex2,
          [gl_call.glBindTexture tex.handle] ++ alloc ++
            [gl_call.glTexSubImage2D (to_int width) (to_int height) format type pixels])

/-! ## Program selection and quad geometry -/

/-- Embedding of `xplay_get_framebuf_program(vid, rgba32, width, height, allow_grid)`.
The scale factor is computed before any test, as in the source, so the
function is undefined wherever `xplay_get_scale_factor` is. -/
def xplay_get_framebuf_program (vid : xplay_video) (rgba32 : Bool) (width height : Int)
    (allow_grid : Bool) : Option xplay_framebuf_program :=
  match xplay_get_scale_factor width height with
  | none => none
  | some (sx, sy) =>
    if !allow_grid || decide (sx ≠ sy) then
      some (if rgba32 then vid.bgra_program else vid.rgba_program)
    else if sx = 2 then
      some (if rgba32 then vid.bgra_program_grid2x else vid.rgba_program_grid2x)
    else if sx = 3 then
      some (if rgba32 then vid.bgra_program_grid3x else vid.rgba_program_grid3x)
    else
      some (if rgba32 then vid.bgra_program else vid.rgba_program)

/-- The static array `tex_coords` of `xplay_draw_framebuf`. -/
def tex_coords : List Rat := [0, 0, 0, 1, 1, 0, 1, 1]

/-- The static array `indices` of `xplay_draw_framebuf`. -/
def indices : List Nat := [0, 1, 2, 1, 2, 3]

/-- Half-extents `(dx, dy)` computed by `xplay_draw_framebuf`:
```c
float dx = 1; float dy = 1;
if (integer_scale) {
   xplay_get_scale_factor(tex->width, tex->height, &sx, &sy);
   int w = sx * tex->width; int h = sy * tex->height;
   dx = (w / 2.f) / (SCREEN_WIDTH / 2.f);
   dy = (h / 2.f) / (SCREEN_HEIGHT / 2.f);
}
``` -/
def half_extents (tex : xplay_framebuf_texture) (integer_scale : Bool) : Option (Rat × Rat) :=
  if integer_scale then
    match xplay_get_scale_factor tex.width tex.height with
    | none => none
    | some (sx, sy) =>
      let w : Int := sx * tex.width
      let h : Int := sy * tex.height
      some (((w : Rat) / 2) / ((SCREEN_WIDTH : Rat) / 2), ((h : Rat) / 2) / ((SCREEN_HEIGHT : Rat) / 2))
  else some (1, 1)

/-- Embedding of `xplay_draw_framebuf(prog, tex, integer_scale, alpha, bgr)`: the
texture record with its vertex cache rewritten, and the GL calls issued. A
texture with `width < 1` or `height < 1` is left alone and nothing is issued.
The parameter `bgr` is unused in the source. -/
def xplay_draw_framebuf (prog : xplay_framebuf_program) (tex : xplay_framebuf_texture)
    (integer_scale : Bool) (alpha : Rat) : Option (xplay_framebuf_texture × List gl_call) :=
  if tex.width < 1 ∨ tex.height < 1 then some (tex, [])
  else
    match half_extents tex integer_scale with
    | none => none
    | some (dx, dy) =>
      let v : List Rat := [-dx, dy, -dx, -dy, dx, dy, dx, -dy]
      some ({ tex with verts := v },
        [gl_call.glUseProgram prog.handle,
         gl_call.glVertexAttribPointer prog.pos_loc 2 2 v,
         gl_call.glVertexAttribPointer prog.tex_loc 2 2 tex_coords,
         gl_call.glEnableVertexAttribArray prog.pos_loc,
         gl_call.glEnableVertexAttribArray prog.tex_loc,
         gl_call.glBindTexture tex.handle,
         gl_call.glUniform1i prog.sampler_loc 0,
         gl_call.glUniform1f prog.alpha_loc alpha,
         gl_call.glDrawElements 6 indices])

/-! ## GlyphTextRenderer: font atlas and `xplay_render_msg` -/

/-- Glyph metrics returned by the font provider (`struct font_glyph`): the
sizes and atlas offsets are `unsigned`, the draw offsets and advances `int`. -/
structure font_glyph where
  width : Nat
  height : Nat
  atlas_offset_x : Nat
  atlas_offset_y : Nat
  draw_offset_x : Int
  draw_offset_y : Int
  advance_x : Int
  advance_y : Int
  deriving DecidableEq

/-- The font provider's atlas (`struct font_atlas`); `buffer` is the memory at
the atlas pointer. -/
structure font_atlas where
  buffer : Nat → Nat
  width : Nat
  height : Nat
  dirty : Bool

/-- The external font provider reached through `vid->font_driver` and
`vid->font`: its glyph lookup (`none` for a `NULL` glyph) and its atlas. -/
structure font_renderer where
  get_glyph : Nat → Option font_glyph
  atlas : font_atlas

/-- Embedding of `xplay_init_texture(handle)` on the path where `glGetError`
reports no error: the GL calls issued. -/
def xplay_init_texture (handle : Nat) : List gl_call :=
  if handle = 0 then []
  else
    [gl_call.glBindTexture handle,
     gl_call.glTexParameteri .GL_TEXTURE_WRAP_T .GL_CLAMP_TO_EDGE,
     gl_call.glTexParameteri .GL_TEXTURE_WRAP_S .GL_CLAMP_TO_EDGE,
     gl_call.glTexParameteri .GL_TEXTURE_MIN_FILTER .GL_NEAREST,
     gl_call.glTexParameteri .GL_TEXTURE_MAG_FILTER .GL_NEAREST]

/-- Embedding of `xplay_maybe_init_font_texture(vid)`. `gen` is the texture name
`glGenTextures` hands out (0 when it fails). Returns the driver state, the
provider with its dirty flag cleared, and the GL calls. -/
def xplay_maybe_init_font_texture (vid : xplay_video) (font : font_renderer) (gen : Nat) :
    xplay_video × font_renderer × List gl_call :=
  if !vid.font then (vid, font, [])
  else if font.atlas.dirty then
    let vid1 : xplay_video :=
      if vid.font_atlas_tex = 0 then { vid with font_atlas_tex := gen } else vid
    let c1 : List gl_call :=
      if vid.font_atlas_tex = 0 then gl_call.glGenTextures gen :: xplay_init_texture gen else []
    let resized : Bool :=
      decide (to_unsigned vid1.font_atlas_width ≠ font.atlas.width)
        || decide (to_unsigned vid1.font_atlas_height ≠ font.atlas.height)
    let vid2 : xplay_video :=
      if resized then
        { vid1 with font_atlas_width := to_int font.atlas.width,
                    font_atlas_height := to_int font.atlas.height }
      else vid1
    let c3 : List gl_call :=
      if resized then
        [gl_call.glTexImage2D .GL_ALPHA (to_int font.atlas.width) (to_int font.atlas.height)
          .GL_UNSIGNED_BYTE]
      else []
    (vid2, { font with atlas := { font.atlas with dirty := false } },
      c1 ++ [gl_call.glBindTexture vid1.font_atlas_tex] ++ c3 ++
        [gl_call.glTexSubImage2D (to_int font.atlas.width) (to_int font.atlas.height)
          .GL_ALPHA .GL_UNSIGNED_BYTE
          (read_bytes font.atlas.buffer 0 (font.atlas.width * font.atlas.height))])
  else (vid, font, [])

/-- The call `realloc(buf, sizeof(float) * n)` on a block of floats, taken to
succeed and its byte count taken not to wrap: the old contents are kept up to
the new size, new floats are modelled as zero. -/
def realloc_floats (buf : List Rat) (n : Int) : List Rat :=
  buf.take n.toNat ++ List.replicate (n.toNat - buf.length) 0

/-- Store of the 24 floats `q` at `text_verts + size`: undefined (`none`) when
the range leaves the allocated block. -/
def write_floats (buf : List Rat) (size : Int) (q : List Rat) : Option (List Rat) :=
  if 0 ≤ size ∧ size.toNat + q.length ≤ buf.length then
    some (buf.take size.toNat ++ q ++ buf.drop (size.toNat + q.length))
  else none

/-- The initialisation `int msg_base = msg_pos * dim;` of `xplay_render_msg`:
`dim` is converted to `float`, the product is rounded to `float` and then
truncated to `int`. -/
def msg_origin (msg_pos : Rat) (dim : Nat) : Option Int :=
  match float_round (dim : Rat) with
  | none => none
  | some fd =>
    match float_mul msg_pos fd with
    | none => none
    | some p => float_to_int p

/-- The expression `-1.0f + 2.0f * (p / (float)dim)` of the loop body, with
`p` an `int` and `dim` an `unsigned`. -/
def quad_position (p : Int) (dim : Nat) : Option Rat :=
  match float_round (p : Rat), float_round (dim : Rat) with
  | some fp, some fd =>
    match float_div fp fd with
    | none => none
    | some t =>
      match float_mul 2 t with
      | none => none
      | some u => float_add (-1) u
  | _, _ => none

/-- The expression `t / (float)atlas` of the loop body, with `t` an `unsigned`
and `atlas` the `int` atlas dimension stored in the driver state. -/
def quad_texture (t : Nat) (atlas : Int) : Option Rat :=
  match float_round (t : Rat), float_round (atlas : Rat) with
  | some ft, some fa => float_div ft fa
  | _, _ => none

/-- The 24 floats of one glyph quad, as computed by the loop body of
`xplay_render_msg` from `int glyph_width = glyph->width + 1;` on, for the glyph
origin `(base_x, base_y)`. -/
def glyph_quad (vid : xplay_video) (glyph : font_glyph) (width height : Nat)
    (base_x base_y : Int) : Option (List Rat) :=
  let glyph_width : Int := to_int (glyph.width + 1)
  let glyph_height : Int := to_int (glyph.height + 1)
  match int_add base_x glyph_width, int_sub base_y glyph_height with
  | some right, some top =>
    match quad_position base_x width, quad_position base_y height,
        quad_position right width, quad_position top height with
    | some x0, some y0, some x1, some y1 =>
      match quad_texture glyph.atlas_offset_x vid.font_atlas_width,
          quad_texture glyph.atlas_offset_y vid.font_atlas_height,
          quad_texture ((glyph.atlas_offset_x + to_unsigned glyph_width) % UINT_RANGE)
            vid.font_atlas_width,
          quad_texture ((glyph.atlas_offset_y + to_unsigned glyph_height) % UINT_RANGE)
            vid.font_atlas_height with
      | some tx0, some ty0, some tx1, some ty1 =>
        some [x0, y0, tx0, ty0,  x0, y1, tx0, ty1,  x1, y0, tx1, ty0,
              x0, y1, tx0, ty1,  x1, y1, tx1, ty1,  x1, y0, tx1, ty0]
      | _, _, _, _ => none
    | _, _, _, _ => none
  | _, _ => none

/-- The growth block of the glyph loop:
```c
if (vid->text_verts_size + 24 > vid->text_verts_capacity) {
   vid->text_verts_capacity = vid->text_verts_capacity ? vid->text_verts_capacity * 2 : 4096;
   vid->text_verts = realloc(vid->text_verts, sizeof(float) * vid->text_verts_capacity);
}
```
The sum and the product are `int` operations. -/
def grow_text_verts (vid : xplay_video) : Option xplay_video :=
  match int_add vid.text_verts_size 24 with
  | none => none
  | some needed =>
    if needed > vid.text_verts_capacity then
      match (if vid.text_verts_capacity ≠ 0 then int_mul vid.text_verts_capacity 2
              else some 4096) with
      | none => none
      | some capacity =>
        some { vid with
          text_verts_capacity := capacity,
          text_verts := realloc_floats vid.text_verts capacity }
    else some vid

/-- The stores `v[0] = x0; ...; v[23] = ty0;` at `v = text_verts + text_verts_size`
followed by `vid->text_verts_size += 24`, an `int` sum. -/
def store_quad (vid : xplay_video) (q : List Rat) : Option xplay_video :=
  match write_floats vid.text_verts vid.text_verts_size q, int_add vid.text_verts_size 24 with
  | some buf, some size => some { vid with text_verts := buf, text_verts_size := size }
  | _, _ => none

/-- The glyph loop of `xplay_render_msg` over the bytes of the message (the loop
stops at the first zero byte). For a known glyph the body computes the glyph
origin, advances the pen, computes the quad, grows the block and stores the
quad; all pen arithmetic is on `int`s. -/
def layout_glyphs (font : font_renderer) (width height : Nat) :
    List Nat → Int → Int → xplay_video → Option xplay_video
  | [], _, _, vid => some vid
  | ch :: rest, msg_base_x, msg_base_y, vid =>
    if ch = 0 then some vid
    else
      match font.get_glyph (ch % 256) with
      | none => layout_glyphs font width height rest msg_base_x msg_base_y vid
      | some glyph =>
        match int_add msg_base_x glyph.draw_offset_x, int_sub msg_base_y glyph.draw_offset_y,
            int_add msg_base_x glyph.advance_x, int_add msg_base_y glyph.advance_y with
        | some base_x, some base_y, some next_x, some next_y =>
          match glyph_quad vid glyph width height base_x base_y with
          | none => none
          | some q =>
            match grow_text_verts vid with
            | none => none
            | some vid1 =>
              match store_quad vid1 q with
              | none => none
              | some vid2 => layout_glyphs font width height rest next_x next_y vid2
        | _, _, _, _ => none

/-- The arguments `1.0f / vid->font_atlas_width, 1.0f / vid->font_atlas_height` of
the `glUniform2f` call of `xplay_render_msg`. -/
def atlas_texel (vid : xplay_video) : Option (Rat × Rat) :=
  match float_round (vid.font_atlas_width : Rat), float_round (vid.font_atlas_height : Rat) with
  | some fw, some fh =>
    match float_div 1 fw, float_div 1 fh with
    | some pw, some ph => some (pw, ph)
    | _, _ => none
  | _, _ => none

/-- Embedding of `xplay_render_msg(vid, msg, width, height, msg_pos_x, msg_pos_y)`.
Returns the driver state, the font provider and the GL calls issued. -/
def xplay_render_msg (vid : xplay_video) (font : font_renderer) (gen : Nat) (msg : List Nat)
    (width height : Nat) (msg_pos_x msg_pos_y : Rat) :
    Option (xplay_video × font_renderer × List gl_call) :=
  if !vid.font then some (vid, font, [])
  else
    match xplay_maybe_init_font_texture vid font gen with
    | (vid1, font1, c1) =>
      if vid1.font_atlas_tex = 0 then some (vid1, font1, c1)
      else
        match msg_origin msg_pos_x width, msg_origin msg_pos_y height with
        | some msg_base_x, some msg_base_y =>
          match layout_glyphs font1 width height msg msg_base_x msg_base_y
              { vid1 with text_verts_size := 0 } with
          | none => none
          | some vid2 =>
            match atlas_texel vid2 with
            | none => none
            | some (pw, ph) =>
              some (vid2, font1,
                c1 ++
                [gl_call.glUseProgram vid2.font_program,
                 gl_call.glVertexAttribPointer vid2.font_pos_loc 2 4 vid2.text_verts,
                 gl_call.glVertexAttribPointer vid2.font_tex_loc 2 4 (vid2.text_verts.drop 2),
                 gl_call.glEnableVertexAttribArray vid2.font_pos_loc,
                 gl_call.glEnableVertexAttribArray vid2.font_tex_loc,
                 gl_call.glBindTexture vid2.font_atlas_tex,
                 gl_call.glUniform1i vid2.font_sampler_loc 0,
                 gl_call.glUniform3f vid2.font_color_loc vid2.font_r vid2.font_g vid2.font_b,
                 gl_call.glUniform2f vid2.font_px_loc pw ph,
                 gl_call.glDrawArrays 0 (Int.tdiv vid2.text_verts_size 4)])
        | _, _ => none

/-! ## FrameCompositor: `xplay_set_texture_frame` and `xplay_gfx_frame` -/

/-- Arguments of one `xplay_set_texture_frame` call made by the menu subsystem;
`frame` is the memory at the overlay pixel pointer. -/
structure texture_frame where
  frame : Nat → Nat
  rgb32 : Bool
  width : Nat
  height : Nat
  alpha : Rat

/-- Embedding of `xplay_set_texture_frame(data, frame, rgb32, width, height, alpha)`.
`supports_rgba` is the result of the external `video_driver_supports_rgba()`. -/
def xplay_set_texture_frame (vid : xplay_video) (supports_rgba : Bool) (a : texture_frame) :
    Option (xplay_video × List gl_call) :=
  let vid1 : xplay_video := { vid with menu_alpha := a.alpha, menu_rgb32 := a.rgb32 }
  let fmt : xplay_framebuf_format :=
    if a.rgb32 then (if supports_rgba then .PF_RGBA32 else .PF_RGB32) else .PF_RGBA16_4444
  let pixel_size : Int := if a.rgb32 then 4 else 2
  let idx : Int := Int.tmod (vid1.menu_tex_index + 1) XPLAY_FRAMEBUF_COUNT
  let vid2 : xplay_video := { vid1 with menu_tex_index := idx }
  match slot_get vid2.menu_tex idx with
  | none => none
  | some tex =>
    match xplay_blit_framebuf tex a.frame a.width a.height
        (umul a.width (to_unsigned pixel_size)) fmt with
    | none => none
    | some (tex1, calls) =>
      some ({ vid2 with menu_tex := slot_set vid2.menu_tex idx tex1 }, calls)

/-- The overlay uploads of a list of `xplay_set_texture_frame` calls, in order. -/
def run_texture_frames (supports_rgba : Bool) :
    List texture_frame → xplay_video → Option (xplay_video × List gl_call)
  | [], vid => some (vid, [])
  | a :: rest, vid =>
    match xplay_set_texture_frame vid supports_rgba a with
    | none => none
    | some (vid1, c1) =>
      match run_texture_frames supports_rgba rest vid1 with
      | none => none
      | some (vid2, c2) => some (vid2, c1 ++ c2)

/-- The fields of `video_frame_info_t` read by `xplay_gfx_frame`. -/
structure video_frame_info where
  use_rgba : Bool
  menu_is_alive : Bool
  font_msg_pos_x : Rat
  font_msg_pos_y : Rat

/-- The settings read by `xplay_gfx_frame` through `config_get_ptr()`. -/
structure settings_t where
  video_scale_integer : Bool
  video_notch_write_over_enable : Bool

/-- The collaborators of one `xplay_gfx_frame` call that live outside the
driver: the overlay uploads the menu subsystem makes from inside
`menu_driver_frame` (possibly none), the answer of
`video_driver_supports_rgba()` to those uploads, the font provider, and the
texture name `glGenTextures` would hand out. -/
structure frame_env where
  menu_uploads : List texture_frame
  supports_rgba : Bool
  font : font_renderer
  gen_texture : Nat

/-- Result of a completed `xplay_gfx_frame` call: the returned `bool`, the driver
state, the font provider, and the GL calls issued in order. -/
structure frame_result where
  ret : Bool
  vid : xplay_video
  font : font_renderer
  calls : List gl_call

/-- The menu section of `xplay_gfx_frame` (compiled under `HAVE_MENU`):
`menu_driver_frame`, then the blended overlay draw when the menu is alive. -/
def draw_menu (vid : xplay_video) (integer_scale : Bool) (menu_is_alive : Bool)
    (env : frame_env) : Option (xplay_video × List gl_call) :=
  match run_texture_frames env.supports_rgba env.menu_uploads vid with
  | none => none
  | some (vid1, c1) =>
    if menu_is_alive then
      match slot_get vid1.menu_tex vid1.menu_tex_index with
      | none => none
      | some menu_tex =>
        match xplay_get_framebuf_program vid1 vid1.menu_rgb32 menu_tex.width menu_tex.height
            false with
        | none => none
        | some menu_prog =>
          match xplay_draw_framebuf menu_prog menu_tex integer_scale vid1.menu_alpha with
          | none => none
          | some (menu_tex1, c2) =>
            some ({ vid1 with menu_tex := slot_set vid1.menu_tex vid1.menu_tex_index menu_tex1 },
              c1 ++ [gl_call.glEnable_BLEND] ++ c2 ++ [gl_call.glDisable_BLEND])
    else some (vid1, c1)

/-- The frame format chosen by `xplay_gfx_frame`:
```c
vid->frame_rgb32 ? (video_info->use_rgba ? PF_RGBA32 : PF_RGB32) :
video_info->use_rgba ? PF_RGBA16_4444 : PF_RGB16_565
``` -/
def frame_format (frame_rgb32 use_rgba : Bool) : xplay_framebuf_format :=
  if frame_rgb32 then (if use_rgba then .PF_RGBA32 else .PF_RGB32)
  else if use_rgba then .PF_RGBA16_4444 else .PF_RGB16_565

/-- Embedding of `xplay_gfx_frame(data, frame, width, height, frame_count, pitch,
msg, video_info)`. `frame` is `none` for a `NULL` buffer and otherwise the memory
at the pointer; `msg` is `none` for `NULL` and otherwise the bytes of the string.
`frame_count` is not read by the source. -/
def xplay_gfx_frame (vid : xplay_video) (frame : Option (Nat → Nat)) (width height pitch : Nat)
    (msg : Option (List Nat)) (video_info : video_frame_info) (settings : settings_t)
    (env : frame_env) : Option frame_result :=
  match frame with
  | none => some { ret := true, vid := vid, font := env.font, calls := [] }
  | some mem =>
    let integer_scale := settings.video_scale_integer
    let want_grid := settings.video_notch_write_over_enable
    let fmt : xplay_framebuf_format := frame_format vid.frame_rgb32 video_info.use_rgba
    let prev_frame_tex := vid.frame_tex_index
    let next_frame_tex := Int.tmod (prev_frame_tex + 1) XPLAY_FRAMEBUF_COUNT
    let vid1 : xplay_video := { vid with frame_tex_index := next_frame_tex }
    match slot_get vid1.frame_tex next_frame_tex with
    | none => none
    | some tex =>
      match xplay_blit_framebuf tex mem width height pitch fmt with
      | none => none
      | some (tex1, c_blit) =>
        let vid2 : xplay_video :=
          { vid1 with frame_tex := slot_set vid1.frame_tex next_frame_tex tex1 }
        match xplay_get_framebuf_program vid2 vid2.frame_rgb32 (to_int width) (to_int height)
            (integer_scale && want_grid) with
        | none => none
        | some frame_prog =>
          match xplay_draw_framebuf frame_prog tex1 integer_scale 1 with
          | none => none
          | some (tex2, c_draw) =>
            let vid3 : xplay_video :=
              { vid2 with frame_tex := slot_set vid2.frame_tex next_frame_tex tex2 }
            match draw_menu vid3 integer_scale video_info.menu_is_alive env with
            | none => none
            | some (vid4, c_menu) =>
              let text : Option (xplay_video × font_renderer × List gl_call) :=
                match msg with
                | none => some (vid4, env.font, [])
                | some m =>
                  match xplay_render_msg vid4 env.font env.gen_texture m
                      SCREEN_WIDTH.toNat SCREEN_HEIGHT.toNat
                      video_info.font_msg_pos_x video_info.font_msg_pos_y with
                  | none => none
                  | some (v, f, c) =>
                    some (v, f, [gl_call.glEnable_BLEND] ++ c ++ [gl_call.glDisable_BLEND])
              match text with
              | none => none
              | some (vid5, font1, c_text) =>
                some { ret := true, vid := vid5, font := font1,
                       calls := [gl_call.glClear] ++ c_blit ++ c_draw ++ c_menu ++ c_text ++
                         (if vid5.has_swap_buffers then [gl_call.swap_buffers] else []) }

/-! ## Observations on uploads -/

/-- Texel size in bytes of a format, as chosen by the `switch` of
`xplay_blit_framebuf` (0 for `PF_NONE`, which uploads nothing). -/
def texel_size (fmt : xplay_framebuf_format) : Nat :=
  match blit_params fmt with
  | some (pixel_size, _, _) => pixel_size
  | none => 0

/-- The tightly packed image of the specification: row `y` is the source bytes
`[y * pitch, y * pitch + expected_pitch)`, for `y = 0, ..., height - 1`. -/
def packed_rows (frame : Nat → Nat) (expected_pitch pitch height : Nat) : List Nat :=
  (List.range height).flatMap (fun y => read_bytes frame (y * pitch) expected_pitch)

/-- The memory whose first bytes are the list `l`. -/
def mem_of_bytes (l : List Nat) : Nat → Nat := fun i => l.getD i 0

/-- The pixel data of every `glTexSubImage2D` call of a call sequence, in order. -/
def uploaded_pixels : List gl_call → List (List Nat)
  | [] => []
  | gl_call.glTexSubImage2D _ _ _ _ pixels :: rest => pixels :: uploaded_pixels rest
  | _ :: rest => uploaded_pixels rest

/-- Number of `glTexImage2D` calls (texture storage allocations) in a call
sequence: the allocation-count probe. -/
def alloc_count : List gl_call → Nat
  | [] => 0
  | gl_call.glTexImage2D _ _ _ _ :: rest => alloc_count rest + 1
  | _ :: rest => alloc_count rest

/-- Size invariant of the scratch block: when present, its length is the size
`xplay_blit_framebuf` allocates for the stored format and dimensions
(`expected_pitch * height` in `unsigned` arithmetic). -/
def scratch_ok (tex : xplay_framebuf_texture) : Prop :=
  ∀ b, tex.tempbuf = some b →
    b.length = umul (umul (texel_size tex.fmt) (to_unsigned tex.width)) (to_unsigned tex.height)

/-- A source memory that is zero except for the byte at offset `2 ^ 32`. -/
def wrap_probe : Nat → Nat := fun i => if i = 4294967296 then 1 else 0

/-! ## Driver state after initialisation -/

/-- A texture record as `xplay_gfx_init` leaves it: zeroed by `calloc`, with the
name `glGenTextures` produced. -/
def fresh_texture (handle : Nat) : xplay_framebuf_texture :=
  { handle := handle, width := 0, height := 0, fmt := .PF_NONE, tempbuf := none,
    verts := List.replicate 8 0 }

/-- The driver state right after a successful `xplay_gfx_init`: the struct is
zeroed by `calloc`, then the six programs, the four texture names, `frame_rgb32`
and the font fields are filled in. -/
def is_initial (vid : xplay_video) : Prop :=
  (∃ h0 h1, vid.frame_tex = [fresh_texture h0, fresh_texture h1]) ∧
  (∃ h0 h1, vid.menu_tex = [fresh_texture h0, fresh_texture h1]) ∧
  vid.frame_tex_index = 0 ∧ vid.menu_tex_index = 0 ∧
  vid.menu_alpha = 0 ∧ vid.menu_rgb32 = false ∧
  vid.text_verts = [] ∧ vid.text_verts_size = 0 ∧ vid.text_verts_capacity = 0

/-- A program record with handle `h` and locations 0 to 3. -/
def sample_program (h : Nat) : xplay_framebuf_program :=
  { handle := h, pos_loc := 0, tex_loc := 1, sampler_loc := 2, alpha_loc := 3 }

/-- A concrete initial driver state (16-bit frames, no font), used to evaluate
the model on examples. -/
def sample_video : xplay_video :=
  { has_swap_buffers := true
    rgba_program := sample_program 1
    bgra_program := sample_program 2
    rgba_program_grid2x := sample_program 3
    bgra_program_grid2x := sample_program 4
    rgba_program_grid3x := sample_program 5
    bgra_program_grid3x := sample_program 6
    menu_alpha := 0
    menu_rgb32 := false
    frame_rgb32 := false
    menu_tex := [fresh_texture 1, fresh_texture 3]
    menu_tex_index := 0
    frame_tex := [fresh_texture 2, fresh_texture 4]
    frame_tex_index := 0
    font_atlas_tex := 0
    font_atlas_width := 0
    font_atlas_height := 0
    font_program := 0
    font_pos_loc := 0
    font_tex_loc := 0
    font_sampler_loc := 0
    font_color_loc := 0
    font_px_loc := 0
    font_r := 0
    font_g := 0
    font_b := 0
    font := false
    text_verts := []
    text_verts_size := 0
    text_verts_capacity := 0 }

/-! ## Reachable driver states -/

/-- One completed call of a driver entry point that can change the driver
state: `xplay_gfx_frame` or `xplay_set_texture_frame`. -/
inductive driver_step : xplay_video → xplay_video → Prop where
  | frame (vid : xplay_video) (frame : Option (Nat → Nat)) (width height pitch : Nat)
      (msg : Option (List Nat)) (video_info : video_frame_info) (settings : settings_t)
      (env : frame_env) (r : frame_result)
      (h : xplay_gfx_frame vid frame width height pitch msg video_info settings env = some r) :
      driver_step vid r.vid
  | texture_frame (vid : xplay_video) (supports_rgba : Bool) (a : texture_frame)
      (vid1 : xplay_video) (calls : List gl_call)
      (h : xplay_set_texture_frame vid supports_rgba a = some (vid1, calls)) :
      driver_step vid vid1

/-- The driver states reachable from a successful initialisation by completed
entry-point calls. -/
inductive reachable : xplay_video → Prop where
  | init (vid : xplay_video) (h : is_initial vid) : reachable vid
  | step (vid vid1 : xplay_video) (h : reachable vid) (s : driver_step vid vid1) : reachable vid1

/-- One completed entry-point call that uploads no frame: a frame call with a
null buffer, or an overlay upload. -/
inductive idle_step : xplay_video → xplay_video → Prop where
  | null_frame (vid : xplay_video) (width height pitch : Nat)
      (msg : Option (List Nat)) (video_info : video_frame_info) (settings : settings_t)
      (env : frame_env) (r : frame_result)
      (h : xplay_gfx_frame vid none width height pitch msg video_info settings env = some r) :
      idle_step vid r.vid
  | texture_frame (vid : xplay_video) (supports_rgba : Bool) (a : texture_frame)
      (vid1 : xplay_video) (calls : List gl_call)
      (h : xplay_set_texture_frame vid supports_rgba a = some (vid1, calls)) :
      idle_step vid vid1

/-- Any number of calls that upload no frame. -/
inductive idle_steps : xplay_video → xplay_video → Prop where
  | refl (vid : xplay_video) : idle_steps vid vid
  | tail (vid vid1 vid2 : xplay_video) (h : idle_steps vid vid1) (s : idle_step vid1 vid2) :
      idle_steps vid vid2

/-- Both texture arrays have their two slots and both indices are 0 or 1. -/
def slots_ok (vid : xplay_video) : Prop :=
  vid.frame_tex.length = 2 ∧ vid.menu_tex.length = 2 ∧
  (vid.frame_tex_index = 0 ∨ vid.frame_tex_index = 1) ∧
  (vid.menu_tex_index = 0 ∨ vid.menu_tex_index = 1)

/-- The fields of the driver state that the text renderer never writes. -/
def same_layers (vid vid1 : xplay_video) : Prop :=
  vid1.frame_tex = vid.frame_tex ∧ vid1.frame_tex_index = vid.frame_tex_index ∧
  vid1.frame_rgb32 = vid.frame_rgb32 ∧
  vid1.menu_tex = vid.menu_tex ∧ vid1.menu_tex_index = vid.menu_tex_index ∧
  vid1.has_swap_buffers = vid.has_swap_buffers

/-- A font provider without glyphs and with a clean, empty atlas. -/
def sample_font : font_renderer :=
  { get_glyph := fun _ => none,
    atlas := { buffer := fun _ => 0, width := 0, height := 0, dirty := false } }

/-- Frame information: RGB-565 frames, menu not alive. -/
def sample_info : video_frame_info :=
  { use_rgba := false, menu_is_alive := false, font_msg_pos_x := 0, font_msg_pos_y := 0 }

/-- Settings with integer scaling and the grid overlay enabled. -/
def sample_settings : settings_t :=
  { video_scale_integer := true, video_notch_write_over_enable := true }

/-- Collaborators that upload no overlay during the frame call. -/
def sample_env : frame_env :=
  { menu_uploads := [], supports_rgba := false, font := sample_font, gen_texture := 9 }

/-! ## Overlay uploads -/

/-- The format `xplay_set_texture_frame` resolves:
`rgb32 ? (video_driver_supports_rgba() ? PF_RGBA32 : PF_RGB32) : PF_RGBA16_4444`. -/
def menu_format (rgb32 supports_rgba : Bool) : xplay_framebuf_format :=
  if rgb32 then (if supports_rgba then .PF_RGBA32 else .PF_RGB32) else .PF_RGBA16_4444

/-- The pitch `xplay_set_texture_frame` passes to the blit: `width*pixel_size`
with `int pixel_size = rgb32 ? 4 : 2`, an `unsigned` product. -/
def menu_pitch (rgb32 : Bool) (width : Nat) : Nat :=
  umul width (to_unsigned (if rgb32 then 4 else 2))

/-- No menu texture owns a scratch block. -/
def menu_no_scratch (vid : xplay_video) : Prop :=
  ∀ t, t ∈ vid.menu_tex → t.tempbuf = none

/-- An overlay upload of a 2x2 RGBA-4444 image. -/
def sample_upload : texture_frame :=
  { frame := fun i => i, rgb32 := false, width := 2, height := 2, alpha := 1 }

/-! ## Sequences of uploads into one texture -/

/-- Arguments of one `xplay_blit_framebuf` call on a texture. -/
structure blit_call where
  frame : Nat → Nat
  width : Nat
  height : Nat
  pitch : Nat
  fmt : xplay_framebuf_format

/-- The arguments are `unsigned` values and the image size
`texel_size * width * height` does not overflow 32 bits. -/
def blit_call_ok (c : blit_call) : Prop :=
  c.width < 4294967296 ∧ c.height < 4294967296 ∧
    texel_size c.fmt * c.width * c.height < 4294967296

/-- A sequence of `xplay_blit_framebuf` calls on one texture record. -/
def run_blits : List blit_call → xplay_framebuf_texture → Option xplay_framebuf_texture
  | [], tex => some tex
  | c :: rest, tex =>
    match xplay_blit_framebuf tex c.frame c.width c.height c.pitch c.fmt with
    | none => none
    | some (tex1, _) => run_blits rest tex1

/-- The exact form of the scratch size invariant: the block, when present, has
`texel_size * width * height` bytes for the stored format and dimensions, and
that product does not overflow. -/
def scratch_exact (tex : xplay_framebuf_texture) : Prop :=
  ∀ b, tex.tempbuf = some b →
    b.length = texel_size tex.fmt * to_unsigned tex.width * to_unsigned tex.height ∧
      texel_size tex.fmt * to_unsigned tex.width * to_unsigned tex.height < 4294967296

/-- Two uploads into one texture: a padded 2x2 RGBA-4444 image (repack path),
then the same size again with another padding (the scratch block is reused). -/
def sample_blits : List blit_call :=
  [{ frame := fun i => i, width := 2, height := 2, pitch := 6, fmt := .PF_RGBA16_4444 },
   { frame := fun i => i + 1, width := 2, height := 2, pitch := 8, fmt := .PF_RGBA16_4444 }]

/-! ## Menu-layer interleavings -/

/-- One completed entry-point call that neither uploads an overlay nor draws
the menu: a frame call with a null buffer, or a frame call with the menu not
alive during which the menu subsystem uploads nothing. -/
inductive menu_idle_step : xplay_video → xplay_video → Prop where
  | null_frame (vid : xplay_video) (width height pitch : Nat)
      (msg : Option (List Nat)) (video_info : video_frame_info) (settings : settings_t)
      (env : frame_env) (r : frame_result)
      (h : xplay_gfx_frame vid none width height pitch msg video_info settings env = some r) :
      menu_idle_step vid r.vid
  | plain_frame (vid : xplay_video) (mem : Nat → Nat) (width height pitch : Nat)
      (msg : Option (List Nat)) (video_info : video_frame_info) (settings : settings_t)
      (env : frame_env) (r : frame_result)
      (halive : video_info.menu_is_alive = false) (hup : env.menu_uploads = [])
      (h : xplay_gfx_frame vid (some mem) width height pitch msg video_info settings env
        = some r) :
      menu_idle_step vid r.vid

/-- Any number of calls that neither upload an overlay nor draw the menu. -/
inductive menu_idle_steps : xplay_video → xplay_video → Prop where
  | refl (vid : xplay_video) : menu_idle_steps vid vid
  | tail (vid vid1 vid2 : xplay_video) (h : menu_idle_steps vid vid1)
      (s : menu_idle_step vid1 vid2) : menu_idle_steps vid vid2

/-- Texture names bound when each `glDrawElements` of a call sequence is
issued (`bound` is the name bound before the sequence). -/
def drawn_textures : Nat → List gl_call → List Nat
  | _, [] => []
  | _, gl_call.glBindTexture h :: rest => drawn_textures h rest
  | bound, gl_call.glDrawElements _ _ :: rest => bound :: drawn_textures bound rest
  | bound, _ :: rest => drawn_textures bound rest

/-- Texture names bound when each `glTexSubImage2D` of a call sequence is
issued (`bound` is the name bound before the sequence). -/
def uploaded_textures : Nat → List gl_call → List Nat
  | _, [] => []
  | _, gl_call.glBindTexture h :: rest => uploaded_textures h rest
  | bound, gl_call.glTexSubImage2D _ _ _ _ _ :: rest => bound :: uploaded_textures bound rest
  | bound, _ :: rest => uploaded_textures bound rest

/-- Frame information with the menu alive. -/
def sample_menu_info : video_frame_info :=
  { use_rgba := false, menu_is_alive := true, font_msg_pos_x := 0, font_msg_pos_y := 0 }

/-- Observations on the interleaving run by `menu_probe`. -/
structure menu_probe_result where
  index_after_frame : Int
  drawn_by_frame : List Nat
  index_after_first_upload : Int
  uploaded_by_first : List Nat
  index_after_second_upload : Int
  uploaded_by_second : List Nat
  deriving DecidableEq

/-- The interleaving upload, frame call with the menu alive, upload, upload on
the initial sample state (menu texture names 1 and 3). Observed: the menu slot
index after the frame call, the texture names bound at the draws of the frame
call, then for each of the two later uploads the menu index it leaves and the
texture name it uploads to. -/
def menu_probe : Option menu_probe_result :=
  match xplay_set_texture_frame sample_video false sample_upload with
  | none => none
  | some (v1, _) =>
    match xplay_gfx_frame v1 (some (fun i => i)) 2 2 4 none sample_menu_info sample_settings
        sample_env with
    | none => none
    | some r =>
      match xplay_set_texture_frame r.vid false sample_upload with
      | none => none
      | some (v3, c3) =>
        match xplay_set_texture_frame v3 false sample_upload with
        | none => none
        | some (v4, c4) =>
          some { index_after_frame := r.vid.menu_tex_index,
                 drawn_by_frame := drawn_textures 0 r.calls,
                 index_after_first_upload := v3.menu_tex_index,
                 uploaded_by_first := uploaded_textures 0 c3,
                 index_after_second_upload := v4.menu_tex_index,
                 uploaded_by_second := uploaded_textures 0 c4 }

/-! ## ShaderProgramFactory: `xplay_load_framebuf_program` -/

/-- The two shader kinds passed to `glCreateShader`. -/
inductive shader_type where
  | GL_VERTEX_SHADER
  | GL_FRAGMENT_SHADER
  deriving DecidableEq, Repr

/-- The `grid` expression substituted into the fragment shader: `1.0` when no
period is set, else `min(1.0, min(mody, modx))` where each of `mody`, `modx` is
`floor(mod(gl_FragCoord, period))` for a set period (`some period`) and `1.0`
otherwise (`none`). -/
inductive grid_text where
  | one
  | min_of (mody modx : Option Int)
  deriving DecidableEq

/-- The `brightness` expression substituted into the fragment shader. -/
inductive brightness_text where
  | neutral
  | raised_by_grid
  | lowered_by_grid
  deriving DecidableEq

/-- The shader sources of `xplay_load_framebuf_program`: the static vertex
shader, and the fragment shader template with its substituted parts
(`grid`, `hue`, `saturation`, `brightness`, `contrast`, and the swizzle, `bgr`
when the flag is set and `rgb` otherwise). -/
inductive shader_source where
  | framebuf_vertex
  | framebuf_fragment (grid : grid_text) (hue saturation : Rat) (brightness : brightness_text)
      (contrast : Rat) (bgr : Bool)
  deriving DecidableEq

/-- The names looked up in a linked framebuffer program. -/
inductive location_name where
  | a_position
  | a_texCoord
  | s_texture
  | f_alpha
  deriving DecidableEq, Repr

/-- The GL calls of the program loader that create, build, query or delete
shader and program objects, with the value each creation or lookup returned. -/
inductive loader_call where
  | glCreateShader (type : shader_type) (result : Nat)
  | glShaderSource (shader : Nat) (src : shader_source)
  | glCompileShader (shader : Nat)
  | glDeleteShader (shader : Nat)
  | glCreateProgram (result : Nat)
  | glAttachShader (program shader : Nat)
  | glLinkProgram (program : Nat)
  | glDeleteProgram (program : Nat)
  | glGetAttribLocation (program : Nat) (name : location_name) (result : Int)
  | glGetUniformLocation (program : Nat) (name : location_name) (result : Int)
  deriving DecidableEq

/-- What the GPU answers during one `xplay_load_framebuf_program` call: the
names `glCreateShader` and `glCreateProgram` return (0 on failure), the compile
and link status, and the four locations (negative when a name does not resolve).
An answer is only consulted if the call gets that far. -/
structure gpu_outcome where
  vert_shader : Nat
  vert_compiled : Bool
  frag_shader : Nat
  frag_compiled : Bool
  program : Nat
  linked : Bool
  pos_loc : Int
  tex_loc : Int
  sampler_loc : Int
  alpha_loc : Int
  deriving DecidableEq

/-- Embedding of `xplay_load_shader(src, type)`; `created` and `compiled` are the
GPU's answers. Returns the shader name (0 on failure) and the calls issued; the
status and info-log queries are not recorded. -/
def xplay_load_shader (src : shader_source) (type : shader_type) (created : Nat)
    (compiled : Bool) : Nat × List loader_call :=
  if created = 0 then (0, [loader_call.glCreateShader type created])
  else if compiled then
    (created,
      [loader_call.glCreateShader type created, loader_call.glShaderSource created src,
       loader_call.glCompileShader created])
  else
    (0,
      [loader_call.glCreateShader type created, loader_call.glShaderSource created src,
       loader_call.glCompileShader created, loader_call.glDeleteShader created])

/-- Embedding of `xplay_load_program(vert_shader_text, frag_shader_text)`.
Returns the program name (0 on failure) and the calls issued. -/
def xplay_load_program (vert_shader_text frag_shader_text : shader_source) (o : gpu_outcome) :
    Nat × List loader_call :=
  match xplay_load_shader vert_shader_text .GL_VERTEX_SHADER o.vert_shader o.vert_compiled with
  | (vert_shader, c1) =>
    if vert_shader = 0 then (0, c1)
    else
      match xplay_load_shader frag_shader_text .GL_FRAGMENT_SHADER o.frag_shader
          o.frag_compiled with
      | (frag_shader, c2) =>
        if frag_shader = 0 then (0, c1 ++ c2 ++ [loader_call.glDeleteShader vert_shader])
        else if o.program = 0 then
          (0, c1 ++ c2 ++
            [loader_call.glCreateProgram o.program, loader_call.glDeleteShader vert_shader,
             loader_call.glDeleteShader frag_shader])
        else if !o.linked then
          (0, c1 ++ c2 ++
            [loader_call.glCreateProgram o.program,
             loader_call.glAttachShader o.program vert_shader,
             loader_call.glAttachShader o.program frag_shader,
             loader_call.glLinkProgram o.program,
             loader_call.glDeleteProgram o.program])
        else
          (o.program, c1 ++ c2 ++
            [loader_call.glCreateProgram o.program,
             loader_call.glAttachShader o.program vert_shader,
             loader_call.glAttachShader o.program frag_shader,
             loader_call.glLinkProgram o.program])

/-- The fragment shader source assembled by `xplay_load_framebuf_program(bgr,
hlines, vlines)`: `grid` from the two periods, `hue = 0.0`, `saturation = 0.6`,
`contrast = 0.55` (0.57 when `hlines == 2`), and `brightness` by `hlines`. -/
def framebuf_fragment_source (bgr : Bool) (hlines vlines : Int) : shader_source :=
  let grid : grid_text :=
    if hlines ≠ 0 ∨ vlines ≠ 0 then
      grid_text.min_of (if hlines ≠ 0 then some hlines else none)
        (if vlines ≠ 0 then some vlines else none)
    else grid_text.one
  let brightness : brightness_text :=
    if hlines = 2 then .raised_by_grid else if hlines = 3 then .lowered_by_grid else .neutral
  let contrast : Rat := if hlines = 2 then 57 / 100 else 55 / 100
  shader_source.framebuf_fragment grid 0 (6 / 10) brightness contrast bgr

/-- Embedding of `xplay_load_framebuf_program(bgr, hlines, vlines)`. Returns the
program record (`none` for `NULL`) and the calls issued; `calloc` is taken to
succeed. The four lookups stop at the first negative location (`goto error`). -/
def xplay_load_framebuf_program (bgr : Bool) (hlines vlines : Int) (o : gpu_outcome) :
    Option xplay_framebuf_program × List loader_call :=
  match xplay_load_program shader_source.framebuf_vertex
      (framebuf_fragment_source bgr hlines vlines) o with
  | (program, c) =>
    if program = 0 then (none, c)
    else
      let l1 := [loader_call.glGetAttribLocation program .a_position o.pos_loc]
      if o.pos_loc < 0 then (none, c ++ l1 ++ [loader_call.glDeleteProgram program])
      else
        let l2 := l1 ++ [loader_call.glGetAttribLocation program .a_texCoord o.tex_loc]
        if o.tex_loc < 0 then (none, c ++ l2 ++ [loader_call.glDeleteProgram program])
        else
          let l3 := l2 ++ [loader_call.glGetUniformLocation program .s_texture o.sampler_loc]
          if o.sampler_loc < 0 then (none, c ++ l3 ++ [loader_call.glDeleteProgram program])
          else
            let l4 := l3 ++ [loader_call.glGetUniformLocation program .f_alpha o.alpha_loc]
            if o.alpha_loc < 0 then (none, c ++ l4 ++ [loader_call.glDeleteProgram program])
            else
              (some { handle := program, pos_loc := o.pos_loc, tex_loc := o.tex_loc,
                      sampler_loc := o.sampler_loc, alpha_loc := o.alpha_loc },
                c ++ l4)

/-- A shader or program object of the GPU, by kind and name. -/
inductive gpu_object where
  | shader (name : Nat)
  | program (name : Nat)
  deriving DecidableEq, Repr

/-- The objects created by a call sequence (creations that returned 0 created
nothing). -/
def created_objects : List loader_call → List gpu_object
  | [] => []
  | loader_call.glCreateShader _ r :: rest =>
    if r = 0 then created_objects rest else gpu_object.shader r :: created_objects rest
  | loader_call.glCreateProgram r :: rest =>
    if r = 0 then created_objects rest else gpu_object.program r :: created_objects rest
  | _ :: rest => created_objects rest

/-- The objects deleted by a call sequence. -/
def deleted_objects : List loader_call → List gpu_object
  | [] => []
  | loader_call.glDeleteShader h :: rest => gpu_object.shader h :: deleted_objects rest
  | loader_call.glDeleteProgram h :: rest => gpu_object.program h :: deleted_objects rest
  | _ :: rest => deleted_objects rest

/-- The objects a call sequence created and did not delete. -/
def leaked_objects (calls : List loader_call) : List gpu_object :=
  (created_objects calls).filter (fun x => !(deleted_objects calls).contains x)

/-- The failure condition of the specification: a shader fails to be created or
compiled, the program fails to be created or linked, or one of the four
locations does not resolve. -/
def load_fails (o : gpu_outcome) : Prop :=
  o.vert_shader = 0 ∨ o.vert_compiled = false ∨ o.frag_shader = 0 ∨ o.frag_compiled = false ∨
  o.program = 0 ∨ o.linked = false ∨
  o.pos_loc < 0 ∨ o.tex_loc < 0 ∨ o.sampler_loc < 0 ∨ o.alpha_loc < 0

/-- The GPU answers in which everything succeeds except the link. -/
def link_failure : gpu_outcome :=
  { vert_shader := 1, vert_compiled := true, frag_shader := 2, frag_compiled := true,
    program := 3, linked := false, pos_loc := 0, tex_loc := 1, sampler_loc := 0, alpha_loc := 1 }

/-- The GPU answers in which everything succeeds except the last location. -/
def location_failure : gpu_outcome :=
  { vert_shader := 1, vert_compiled := true, frag_shader := 2, frag_compiled := true,
    program := 3, linked := true, pos_loc := 0, tex_loc := 1, sampler_loc := 0, alpha_loc := -1 }

/-- The GPU answers in which both shaders compile and `glCreateProgram` fails. -/
def create_program_failure : gpu_outcome :=
  { vert_shader := 1, vert_compiled := true, frag_shader := 2, frag_compiled := true,
    program := 0, linked := false, pos_loc := 0, tex_loc := 1, sampler_loc := 0, alpha_loc := 1 }

/-! ## Observations on text layout -/

/-- The capacity of the glyph vertex block is 0 or `4096 * 2 ^ k`, and the block
holds that many floats. -/
def text_capacity_ok (vid : xplay_video) : Prop :=
  (vid.text_verts_capacity = 0 ∨ ∃ k : Nat, vid.text_verts_capacity = 4096 * 2 ^ k) ∧
    vid.text_verts.length = vid.text_verts_capacity.toNat

/-- Invariant of the glyph loop: the capacity invariant, and the logical length
lies between 0 and the capacity. -/
def text_loop_ok (vid : xplay_video) : Prop :=
  text_capacity_ok vid ∧ 0 ≤ vid.text_verts_size ∧
    vid.text_verts_size ≤ vid.text_verts_capacity

/-- The driver state `vid1` differs from `vid` in the glyph vertex block, its
logical length and its capacity at most. -/
def only_text_changed (vid vid1 : xplay_video) : Prop :=
  vid1 = { vid with text_verts := vid1.text_verts, text_verts_size := vid1.text_verts_size,
                    text_verts_capacity := vid1.text_verts_capacity }

/-- The glyphs of the known characters of a message: the characters up to the
terminating zero byte for which the provider returns glyph metrics, in order. -/
def known_glyphs (font : font_renderer) (msg : List Nat) : List font_glyph :=
  (msg.takeWhile (fun ch => ch != 0)).filterMap (fun ch => font.get_glyph (ch % 256))

/-- Modelled from the spec: horizontal pen position of the `i`-th known glyph,
the origin plus the sum of the horizontal advances of the known glyphs before
it (unknown characters do not advance the pen). -/
def pen_x (x0 : Int) (known : List font_glyph) (i : Nat) : Int :=
  x0 + ((known.take i).map (fun g => g.advance_x)).sum

/-- Modelled from the spec: vertical pen position of the `i`-th known glyph, the
origin plus the sum of the vertical advances of the known glyphs before it. -/
def pen_y (y0 : Int) (known : List font_glyph) (i : Nat) : Int :=
  y0 + ((known.take i).map (fun g => g.advance_y)).sum

/-- The `int` operations of the loop body for the glyph `g` at the pen position
`(x, y)` do not overflow, and the atlas offsets are `unsigned` values. -/
def glyph_in_range (g : font_glyph) (x y : Int) : Prop :=
  int_range (x + g.draw_offset_x) ∧ int_range (y - g.draw_offset_y) ∧
  int_range (x + g.advance_x) ∧ int_range (y + g.advance_y) ∧
  int_range (x + g.draw_offset_x + to_int (g.width + 1)) ∧
  int_range (y - g.draw_offset_y - to_int (g.height + 1)) ∧
  g.atlas_offset_x < UINT_RANGE ∧ g.atlas_offset_y < UINT_RANGE

instance (g : font_glyph) (x y : Int) : Decidable (glyph_in_range g x y) :=
  inferInstanceAs (Decidable (int_range (x + g.draw_offset_x) ∧ int_range (y - g.draw_offset_y) ∧
    int_range (x + g.advance_x) ∧ int_range (y + g.advance_y) ∧
    int_range (x + g.draw_offset_x + to_int (g.width + 1)) ∧
    int_range (y - g.draw_offset_y - to_int (g.height + 1)) ∧
    g.atlas_offset_x < UINT_RANGE ∧ g.atlas_offset_y < UINT_RANGE))

/-- Every glyph of the list is in range at the pen position it is laid out at,
when the list is laid out from the pen position `(x, y)`. -/
def glyphs_in_range : List font_glyph → Int → Int → Prop
  | [], _, _ => True
  | g :: gs, x, y =>
    glyph_in_range g x y ∧ glyphs_in_range gs (x + g.advance_x) (y + g.advance_y)

/-- Decision procedure for `glyphs_in_range`. -/
def glyphs_in_range_dec : (gs : List font_glyph) → (x y : Int) →
    Decidable (glyphs_in_range gs x y)
  | [], _, _ => isTrue trivial
  | g :: gs, x, y =>
    @instDecidableAnd _ _ _ (glyphs_in_range_dec gs (x + g.advance_x) (y + g.advance_y))

instance (gs : List font_glyph) (x y : Int) : Decidable (glyphs_in_range gs x y) :=
  glyphs_in_range_dec gs x y

/-- The dimensions the text loop divides by are non-zero values of their C
types: the output size is `unsigned`, the atlas size stored in the driver state
is `int`. -/
def text_dims_ok (vid : xplay_video) (width height : Nat) : Prop :=
  1 ≤ width ∧ width < UINT_RANGE ∧ 1 ≤ height ∧ height < UINT_RANGE ∧
  vid.font_atlas_width ≠ 0 ∧ int_range vid.font_atlas_width ∧
  vid.font_atlas_height ≠ 0 ∧ int_range vid.font_atlas_height

/-- The largest number of floats for which the theorems promise a completed
layout: `2 ^ 29`, so that the capacity stays at most `2 ^ 29` floats and its
byte count below `2 ^ 32`. -/
def TEXT_FLOATS_MAX : Int := 536870912

/-- Conditions under which `xplay_render_msg` stays inside defined `int` and
finite `float` arithmetic. Nothing is asked without a font or without an atlas
texture. Otherwise the dimensions are non-zero, both origins convert to `int`,
the pen arithmetic of the known glyphs does not overflow and the message has at
most `2 ^ 29 / 24` known characters. -/
def text_in_range (vid : xplay_video) (font : font_renderer) (gen : Nat) (msg : List Nat)
    (width height : Nat) (msg_pos_x msg_pos_y : Rat) : Prop :=
  vid.font = true → (xplay_maybe_init_font_texture vid font gen).1.font_atlas_tex ≠ 0 →
    text_dims_ok (xplay_maybe_init_font_texture vid font gen).1 width height ∧
    ∃ x0 y0, msg_origin msg_pos_x width = some x0 ∧ msg_origin msg_pos_y height = some y0 ∧
      glyphs_in_range (known_glyphs font msg) x0 y0 ∧
      24 * ((known_glyphs font msg).length : Int) ≤ TEXT_FLOATS_MAX

/-- The floats of the quads of a list of glyphs laid out one after the other
from the pen position `(x, y)`, 24 floats per glyph, as `glyph_quad` computes
them. -/
def quads_from (vid : xplay_video) (width height : Nat) :
    List font_glyph → Int → Int → Option (List Rat)
  | [], _, _ => some []
  | g :: gs, x, y =>
    match glyph_quad vid g width height (x + g.draw_offset_x) (y - g.draw_offset_y),
        quads_from vid width height gs (x + g.advance_x) (y + g.advance_y) with
    | some q, some qs => some (q ++ qs)
    | _, _ => none

/-- Modelled from the spec: the mapping of a pixel coordinate into `[-1, 1]`,
"coord = -1 + 2*pixel/dimension", evaluated in binary32. -/
def screen_coord (pixel : Int) (dimension : Nat) : Option Rat :=
  (float_round (pixel : Rat)).bind fun p =>
    (float_round (dimension : Rat)).bind fun d =>
      (float_div p d).bind fun t => (float_mul 2 t).bind fun u => float_add (-1) u

/-- Modelled from the spec: a texture coordinate is the atlas-space bound
divided by the atlas texture dimension, evaluated in binary32. -/
def atlas_coord (texel : Nat) (dimension : Int) : Option Rat :=
  (float_round (texel : Rat)).bind fun t =>
    (float_round (dimension : Rat)).bind fun d => float_div t d

/-- The glyph vertex block, its logical length and its capacity are the same
in both driver states. -/
def same_text (vid vid1 : xplay_video) : Prop :=
  vid1.text_verts = vid.text_verts ∧ vid1.text_verts_size = vid.text_verts_size ∧
    vid1.text_verts_capacity = vid.text_verts_capacity

/-- The text section of `xplay_gfx_frame` relates the state `vid4` after the menu
section to the result `r`: without message nothing happens; with a message the
(blended) `xplay_render_msg` runs on the 854x480 output. `c_text` are the calls
of the section. -/
def text_stage (vid4 : xplay_video) (msg : Option (List Nat)) (vi : video_frame_info)
    (env : frame_env) (r : frame_result) (c_text : List gl_call) : Prop :=
  (msg = none ∧ r.vid = vid4 ∧ c_text = []) ∨
  (∃ m c, msg = some m ∧
    xplay_render_msg vid4 env.font env.gen_texture m SCREEN_WIDTH.toNat SCREEN_HEIGHT.toNat
      vi.font_msg_pos_x vi.font_msg_pos_y = some (r.vid, r.font, c) ∧
    c_text = [gl_call.glEnable_BLEND] ++ c ++ [gl_call.glDisable_BLEND])

/-- The vertex counts of the `glDrawArrays` calls of a trace, in order. -/
def text_draws (calls : List gl_call) : List Int :=
  calls.filterMap (fun c => match c with
    | gl_call.glDrawArrays _ count => some count
    | _ => none)

/-- Glyph metrics used in the examples: an 7x9 glyph at atlas column `col`. -/
def sample_glyph (col : Nat) (advance : Int) : font_glyph :=
  { width := 7, height := 9, atlas_offset_x := col, atlas_offset_y := 0,
    draw_offset_x := 1, draw_offset_y := 2, advance_x := advance, advance_y := 0 }

/-- A font provider that knows the characters `A` (65) and `B` (66) only, with a
dirty 16x16 atlas. -/
def text_font : font_renderer :=
  { get_glyph := fun ch =>
      if ch = 65 then some (sample_glyph 0 8)
      else if ch = 66 then some (sample_glyph 8 9)
      else none,
    atlas := { buffer := fun _ => 0, width := 16, height := 16, dirty := true } }

/-- The initial driver state of the examples with a font attached. -/
def text_video : xplay_video := { sample_video with font := true }

/-- A font provider whose glyph for `A` advances the pen by `INT_MAX`, with a
dirty 16x16 atlas. -/
def wide_font : font_renderer :=
  { get_glyph := fun ch => if ch = 65 then some (sample_glyph 0 2147483647) else none,
    atlas := { buffer := fun _ => 0, width := 16, height := 16, dirty := true } }

/-- The example state with a font after its 16x16 atlas was mirrored into
texture 9. -/
def text_ready_video : xplay_video :=
  { text_video with font_atlas_tex := 9, font_atlas_width := 16, font_atlas_height := 16 }

/-! ## Composition events of a frame -/

/-- The steps of the composition of one frame that are visible in a call
trace: the clear, the draw of a textured layer quad (with the texture name bound
at that moment), the draw of the text and the presentation. -/
inductive composition_event where
  | clear
  | draw_layer (texture : Nat)
  | draw_text
  | present
  deriving DecidableEq

/-- The effect of one call on the pair (blending enabled, texture bound). -/
def gl_effect (s : Bool × Nat) : gl_call → Bool × Nat
  | gl_call.glEnable_BLEND => (true, s.2)
  | gl_call.glDisable_BLEND => (false, s.2)
  | gl_call.glBindTexture h => (s.1, h)
  | _ => s

/-- The composition event of one call, with the blending state it happens in:
`glClear`, `glDrawElements` (a layer quad), `glDrawArrays` (the text) and
`swap_buffers`; no other call is an event. -/
def event_of (s : Bool × Nat) : gl_call → Option (composition_event × Bool)
  | gl_call.glClear => some (composition_event.clear, s.1)
  | gl_call.glDrawElements _ _ => some (composition_event.draw_layer s.2, s.1)
  | gl_call.glDrawArrays _ _ => some (composition_event.draw_text, s.1)
  | gl_call.swap_buffers => some (composition_event.present, s.1)
  | _ => none

/-- The composition events of a call trace entered in state `s`, in order, each
with the blending state in force when it happens. -/
def composition_events : Bool × Nat → List gl_call → List (composition_event × Bool)
  | _, [] => []
  | s, c :: rest => (event_of s c).toList ++ composition_events (gl_effect s c) rest

/-- The pair (blending enabled, texture bound) after a call trace. -/
def final_state (s : Bool × Nat) (calls : List gl_call) : Bool × Nat :=
  calls.foldl gl_effect s

/-- Calls that are no composition event and do not toggle blending. -/
def is_quiet : gl_call → Bool
  | gl_call.glClear => false
  | gl_call.glDrawElements _ _ => false
  | gl_call.glDrawArrays _ _ => false
  | gl_call.swap_buffers => false
  | gl_call.glEnable_BLEND => false
  | gl_call.glDisable_BLEND => false
  | _ => true

/-- Entered with blending state `b_in` and any bound texture, the trace `calls`
produces the events `ev` and leaves blending state `b_out`. -/
def segment (calls : List gl_call) (b_in : Bool) (ev : List (composition_event × Bool))
    (b_out : Bool) : Prop :=
  ∀ t : Nat, composition_events (b_in, t) calls = ev ∧ (final_state (b_in, t) calls).1 = b_out

/-- The stored sizes of the frame textures are `int` values. -/
def frame_sizes_ok (vid : xplay_video) : Prop :=
  ∀ t ∈ vid.frame_tex, int_range t.width ∧ int_range t.height

/-- Collaborators of the examples with the font provider `text_font`. -/
def text_env : frame_env :=
  { menu_uploads := [sample_upload], supports_rgba := false, font := text_font,
    gen_texture := 9 }

/-- Collaborators that upload no overlay during the frame call and provide the
font `wide_font`. -/
def wide_env : frame_env :=
  { menu_uploads := [], supports_rgba := false, font := wide_font, gen_texture := 9 }

/-! ## Helper lemmas -/

theorem int_div_pos (a b : Int) (ha : 0 ≤ a) (hb : 1 ≤ b) : int_div a b = some (a / b) := by
  unfold int_div
  have h0 : b ≠ 0 := by omega
  have h1 : ¬ (a = INT_MIN ∧ b = -1) := by
    rintro ⟨_, h⟩; omega
  rw [if_neg h0, if_neg h1, Int.tdiv_eq_ediv ha (by omega)]

theorem int_div_zero (a : Int) : int_div a 0 = none := by
  simp [int_div]

/-- Closed form of the scale factor for a positive source size. -/
theorem scale_factor_pos (width height : Int) (hw : 1 ≤ width) (hh : 1 ≤ height) :
    xplay_get_scale_factor width height =
      some (if width / height ≥ 2 ∧ height * (min (854 / width) (480 / height) + 1) ≤ 480
        then (min (854 / width) (480 / height), min (854 / width) (480 / height) + 1)
        else (min (854 / width) (480 / height), min (854 / width) (480 / height))) := by
  unfold xplay_get_scale_factor
  rw [int_div_pos SCREEN_WIDTH width (by decide) hw,
    int_div_pos SCREEN_HEIGHT height (by decide) hh,
    int_div_pos width height (by omega) hh]
  simp only [SCREEN_WIDTH, SCREEN_HEIGHT]
  split_ifs <;> rfl


theorem scale_factor_undefined_left (height : Int) : xplay_get_scale_factor 0 height = none := by
  simp [xplay_get_scale_factor, int_div]

theorem scale_factor_undefined_right (width : Int) : xplay_get_scale_factor width 0 = none := by
  unfold xplay_get_scale_factor
  rw [int_div_zero]
  cases int_div SCREEN_WIDTH width <;> rfl

/-- The isotropic factor fits horizontally, and is non-negative. -/
theorem min_factor_bounds (width height : Int) (hw : 1 ≤ width) (hh : 1 ≤ height) :
    0 ≤ min (854 / width) (480 / height) ∧
    min (854 / width) (480 / height) * width ≤ 854 ∧
    min (854 / width) (480 / height) * height ≤ 480 := by
  have hx0 : (0 : Int) ≤ 854 / width := Int.ediv_nonneg (by omega) (by omega)
  have hy0 : (0 : Int) ≤ 480 / height := Int.ediv_nonneg (by omega) (by omega)
  have hx : 854 / width * width ≤ 854 := Int.ediv_mul_le 854 (by omega)
  have hy : 480 / height * height ≤ 480 := Int.ediv_mul_le 480 (by omega)
  refine ⟨le_min hx0 hy0, ?_, ?_⟩
  · exact le_trans (Int.mul_le_mul_of_nonneg_right (min_le_left _ _) (by omega)) hx
  · exact le_trans (Int.mul_le_mul_of_nonneg_right (min_le_right _ _) (by omega)) hy

/-- Both factors of a positive source keep the scaled size inside the output. -/
theorem scale_factor_fits (width height sx sy : Int) (hw : 1 ≤ width) (hh : 1 ≤ height)
    (h : xplay_get_scale_factor width height = some (sx, sy)) :
    0 ≤ sx ∧ 0 ≤ sy ∧ sx * width ≤ 854 ∧ sy * height ≤ 480 := by
  rw [scale_factor_pos width height hw hh] at h
  obtain ⟨h0, h1, h2⟩ := min_factor_bounds width height hw hh
  split_ifs at h with hc
  · simp only [Option.some.injEq, Prod.mk.injEq] at h
    obtain ⟨rfl, rfl⟩ := h
    refine ⟨h0, by omega, h1, ?_⟩
    have := hc.2
    rw [mul_comm]; exact this
  · simp only [Option.some.injEq, Prod.mk.injEq] at h
    obtain ⟨rfl, rfl⟩ := h
    exact ⟨h0, h0, h1, h2⟩

/-- For a source of positive size the product tested by the aspect correction
does not overflow a C `int`. -/
theorem scale_factor_product_in_range (width height : Int) (hw : 1 ≤ width) (hh : 1 ≤ height)
    (hmax : height ≤ INT_MAX) :
    0 ≤ height * (min (854 / width) (480 / height) + 1) ∧
      height * (min (854 / width) (480 / height) + 1) ≤ INT_MAX := by
  obtain ⟨h0, _, h2⟩ := min_factor_bounds width height hw hh
  have hexp : height * (min (854 / width) (480 / height) + 1) =
      min (854 / width) (480 / height) * height + height := by ring
  rw [hexp]
  constructor
  · have : 0 ≤ min (854 / width) (480 / height) * height := Int.mul_nonneg h0 (by omega)
    omega
  · by_cases hbig : height ≤ 480
    · unfold INT_MAX
      omega
    · have hy : (480 : Int) / height = 0 := Int.ediv_eq_zero_of_lt (by omega) (by omega)
      have hm : min (854 / width) (480 / height) = 0 := by
        rw [hy]
        exact min_eq_right (Int.ediv_nonneg (by omega) (by omega))
      rw [hm]
      omega

/-- Program selection is defined for a source of positive size. -/
theorem framebuf_program_defined (vid : xplay_video) (rgb32 : Bool) (width height : Int)
    (allow_grid : Bool) (hw : 1 ≤ width) (hh : 1 ≤ height) :
    ∃ prog, xplay_get_framebuf_program vid rgb32 width height allow_grid = some prog := by
  unfold xplay_get_framebuf_program
  rw [scale_factor_pos width height hw hh]
  generalize (if width / height ≥ 2 ∧ height * (min (854 / width) (480 / height) + 1) ≤ 480
        then (min (854 / width) (480 / height), min (854 / width) (480 / height) + 1)
        else (min (854 / width) (480 / height), min (854 / width) (480 / height))) = p
  obtain ⟨sx, sy⟩ := p
  simp only
  split_ifs <;> exact ⟨_, rfl⟩

/-! ## C1, C7, C8: the scale-factor contract -/

/-- C1: for every source width and height of at least 1, the scale factor is
`(m, m + 1)` when `width / height >= 2` and `height * (m + 1) <= 480`, and
`(m, m)` otherwise, where `m = min (854 / width) (480 / height)` under integer
division; `(427, 240)` gives `(2, 2)`, `(284, 160)` gives `(3, 3)` and
`(854, 240)` gives `(1, 2)`. -/
theorem scale_factor_contract (width height : Int) (hw : 1 ≤ width) (hh : 1 ≤ height) :
    xplay_get_scale_factor width height =
      some (if width / height ≥ 2 ∧ height * (min (854 / width) (480 / height) + 1) ≤ 480
        then (min (854 / width) (480 / height), min (854 / width) (480 / height) + 1)
        else (min (854 / width) (480 / height), min (854 / width) (480 / height)))
    ∧ xplay_get_scale_factor 427 240 = some (2, 2)
    ∧ xplay_get_scale_factor 284 160 = some (3, 3)
    ∧ xplay_get_scale_factor 854 240 = some (1, 2) :=
  ⟨scale_factor_pos width height hw hh, by decide, by decide, by decide⟩

/-- Witness for C1 at the 854x240 source: the ratio is at least 2 and the bumped
vertical factor still fits, so the result is `(1, 2)`. -/
theorem scale_factor_contract_witness :
    (1 : Int) ≤ 854 ∧ (1 : Int) ≤ 240 ∧ xplay_get_scale_factor 854 240 = some (1, 2) :=
  ⟨by decide, by decide,
    (scale_factor_contract 854 240 (by decide) (by decide)).1.trans (by decide)⟩

/-- C7: a source that fits in the output (1 <= width <= 854, 1 <= height <= 480)
gets two factors that are both at least 1. -/
theorem scale_factor_at_least_one (width height : Int)
    (hw : 1 ≤ width) (hw2 : width ≤ 854) (hh : 1 ≤ height) (hh2 : height ≤ 480) :
    ∃ sx sy, xplay_get_scale_factor width height = some (sx, sy) ∧ 1 ≤ sx ∧ 1 ≤ sy := by
  have hx : (1 : Int) ≤ 854 / width := (Int.le_ediv_iff_mul_le (by omega)).2 (by omega)
  have hy : (1 : Int) ≤ 480 / height := (Int.le_ediv_iff_mul_le (by omega)).2 (by omega)
  have hm : (1 : Int) ≤ min (854 / width) (480 / height) := le_min hx hy
  rw [scale_factor_pos width height hw hh]
  split_ifs
  · exact ⟨_, _, rfl, hm, by omega⟩
  · exact ⟨_, _, rfl, hm, hm⟩

/-- Witness for C7 at the 160x144 source. -/
theorem scale_factor_at_least_one_witness :
    ∃ sx sy, xplay_get_scale_factor 160 144 = some (sx, sy) ∧ 1 ≤ sx ∧ 1 ≤ sy :=
  scale_factor_at_least_one 160 144 (by decide) (by decide) (by decide) (by decide)

/-- C8 as stated fails: the 1000x100 source is wider than the output, yet its
vertical factor is 1, not 0. -/
theorem scale_factor_oversize_counterexample :
    (1 : Int) ≤ 1000 ∧ (1 : Int) ≤ 100 ∧ (1000 : Int) > 854 ∧
      xplay_get_scale_factor 1000 100 = some (0, 1) := by
  decide

/-- C8, amended: for a source of positive size larger than the 854x480 output,
the horizontal factor is 0, and the vertical factor is 0 unless
`width / height >= 2` and `height <= 480`, in which case it is 1. -/
theorem scale_factor_oversize (width height : Int) (hw : 1 ≤ width) (hh : 1 ≤ height)
    (hbig : width > 854 ∨ height > 480) :
    xplay_get_scale_factor width height =
      some (0, if width / height ≥ 2 ∧ height ≤ 480 then 1 else 0) := by
  have hx0 : (0 : Int) ≤ 854 / width := Int.ediv_nonneg (by omega) (by omega)
  have hy0 : (0 : Int) ≤ 480 / height := Int.ediv_nonneg (by omega) (by omega)
  have hm : min (854 / width) (480 / height) = 0 := by
    rcases hbig with h | h
    · have : (854 : Int) / width = 0 := Int.ediv_eq_zero_of_lt (by omega) (by omega)
      rw [this]; exact min_eq_left hy0
    · have : (480 : Int) / height = 0 := Int.ediv_eq_zero_of_lt (by omega) (by omega)
      rw [this]; exact min_eq_right hx0
  rw [scale_factor_pos width height hw hh, hm]
  simp only [zero_add, mul_one]
  split_ifs <;> rfl

/-- Witness for the amended C8 at the 1000x100 source. -/
theorem scale_factor_oversize_witness :
    xplay_get_scale_factor 1000 100 = some (0, if (1000 : Int) / 100 ≥ 2 ∧ (100 : Int) ≤ 480 then 1 else 0) :=
  scale_factor_oversize 1000 100 (by decide) (by decide) (Or.inl (by decide))


/-! ## C2, C3, C9: program selection and quad geometry -/

theorem half_extents_scaled (tex : xplay_framebuf_texture) (sx sy : Int)
    (h : xplay_get_scale_factor tex.width tex.height = some (sx, sy)) :
    half_extents tex true =
      some (((sx * tex.width : Int) : Rat) / 854, ((sy * tex.height : Int) : Rat) / 480) := by
  unfold half_extents
  rw [if_pos rfl, h]
  simp only [SCREEN_WIDTH, SCREEN_HEIGHT, Option.some.injEq, Prod.mk.injEq]
  constructor
  · push_cast; ring
  · push_cast; ring

/-- C2: for a texture of positive size drawn with integer scaling, the scaled
rectangle stays inside the output: `sx * width <= 854` and `sy * height <= 480`
for the computed `(sx, sy)`, so the half-extents `dx = sx * width / 854` and
`dy = sy * height / 480` computed and written by `xplay_draw_framebuf` lie in
`[0, 1]`, also when `sy` was bumped. -/
theorem draw_framebuf_within_output (prog : xplay_framebuf_program)
    (tex : xplay_framebuf_texture) (alpha : Rat) (hw : 1 ≤ tex.width) (hh : 1 ≤ tex.height) :
    ∃ sx sy dx dy, xplay_get_scale_factor tex.width tex.height = some (sx, sy) ∧
      0 ≤ sx * tex.width ∧ sx * tex.width ≤ 854 ∧ 0 ≤ sy * tex.height ∧ sy * tex.height ≤ 480 ∧
      dx = ((sx * tex.width : Int) : Rat) / 854 ∧ dy = ((sy * tex.height : Int) : Rat) / 480 ∧
      half_extents tex true = some (dx, dy) ∧
      (xplay_draw_framebuf prog tex true alpha).map (fun r => r.1.verts) =
        some [-dx, dy, -dx, -dy, dx, dy, dx, -dy] ∧
      0 ≤ dx ∧ dx ≤ 1 ∧ 0 ≤ dy ∧ dy ≤ 1 := by
  obtain ⟨s, hs⟩ : ∃ s, xplay_get_scale_factor tex.width tex.height = some s :=
    ⟨_, scale_factor_pos tex.width tex.height hw hh⟩
  obtain ⟨sx, sy⟩ := s
  obtain ⟨h0, h1, h2, h3⟩ := scale_factor_fits tex.width tex.height sx sy hw hh hs
  have hx0 : 0 ≤ sx * tex.width := Int.mul_nonneg h0 (by omega)
  have hy0 : 0 ≤ sy * tex.height := Int.mul_nonneg h1 (by omega)
  have he := half_extents_scaled tex sx sy hs
  refine ⟨sx, sy, _, _, hs, hx0, h2, hy0, h3, rfl, rfl, he, ?_, ?_, ?_, ?_, ?_⟩
  · unfold xplay_draw_framebuf
    rw [if_neg (by omega), he]
    rfl
  · have : (0 : Rat) ≤ ((sx * tex.width : Int) : Rat) := by exact_mod_cast hx0
    positivity
  · have : ((sx * tex.width : Int) : Rat) ≤ 854 := by exact_mod_cast h2
    rw [div_le_one (by norm_num)]; exact this
  · have : (0 : Rat) ≤ ((sy * tex.height : Int) : Rat) := by exact_mod_cast hy0
    positivity
  · have : ((sy * tex.height : Int) : Rat) ≤ 480 := by exact_mod_cast h3
    rw [div_le_one (by norm_num)]; exact this

/-- Witness for C2: the 854x240 texture, whose vertical factor is bumped to 2,
fills the output exactly. -/
theorem draw_framebuf_within_output_witness :
    ∃ sx sy dx dy,
      xplay_get_scale_factor ({ fresh_texture 2 with width := 854, height := 240 }).width
        ({ fresh_texture 2 with width := 854, height := 240 }).height = some (sx, sy) ∧
      0 ≤ sx * 854 ∧ sx * 854 ≤ 854 ∧ 0 ≤ sy * 240 ∧ sy * 240 ≤ 480 ∧
      dx = ((sx * 854 : Int) : Rat) / 854 ∧ dy = ((sy * 240 : Int) : Rat) / 480 ∧
      half_extents { fresh_texture 2 with width := 854, height := 240 } true = some (dx, dy) ∧
      (xplay_draw_framebuf (sample_program 1)
          { fresh_texture 2 with width := 854, height := 240 } true 1).map (fun r => r.1.verts) =
        some [-dx, dy, -dx, -dy, dx, dy, dx, -dy] ∧
      0 ≤ dx ∧ dx ≤ 1 ∧ 0 ≤ dy ∧ dy ≤ 1 :=
  draw_framebuf_within_output (sample_program 1)
    { fresh_texture 2 with width := 854, height := 240 } 1 (by decide) (by decide)

/-- C3: for a source of positive size, `xplay_get_framebuf_program` follows the
table: no-grid program when `allow_grid` is false or `sx != sy`; otherwise the
2x2-grid program for `sx = 2`, the 3x3-grid program for `sx = 3`, the no-grid
program for any other factor; always the BGR variant when `rgb32` is true and
the RGB variant when it is false. -/
theorem framebuf_program_table (vid : xplay_video) (rgb32 : Bool) (width height : Int)
    (allow_grid : Bool) (hw : 1 ≤ width) (hh : 1 ≤ height) :
    ∃ sx sy, xplay_get_scale_factor width height = some (sx, sy) ∧
      xplay_get_framebuf_program vid rgb32 width height allow_grid =
        some (if allow_grid = false ∨ sx ≠ sy then
                (if rgb32 = true then vid.bgra_program else vid.rgba_program)
              else if sx = 2 then
                (if rgb32 = true then vid.bgra_program_grid2x else vid.rgba_program_grid2x)
              else if sx = 3 then
                (if rgb32 = true then vid.bgra_program_grid3x else vid.rgba_program_grid3x)
              else (if rgb32 = true then vid.bgra_program else vid.rgba_program)) := by
  obtain ⟨s, hs⟩ : ∃ s, xplay_get_scale_factor width height = some s :=
    ⟨_, scale_factor_pos width height hw hh⟩
  obtain ⟨sx, sy⟩ := s
  refine ⟨sx, sy, hs, ?_⟩
  unfold xplay_get_framebuf_program
  rw [hs]
  cases allow_grid <;> by_cases hxy : sx = sy <;> simp [hxy]
  split_ifs <;> rfl

/-- Witness for C3: a 160x144 RGB-565 frame with integer scale and grid overlay
enabled has scale factor `(3, 3)` and selects the RGB 3x3-grid program. -/
theorem framebuf_program_table_witness :
    xplay_get_scale_factor 160 144 = some (3, 3) ∧
    xplay_get_framebuf_program sample_video false 160 144 true =
      some sample_video.rgba_program_grid3x := by
  obtain ⟨sx, sy, hs, hp⟩ :=
    framebuf_program_table sample_video false 160 144 true (by decide) (by decide)
  have h3 : xplay_get_scale_factor 160 144 = some (3, 3) := by decide
  rw [h3] at hs
  simp only [Option.some.injEq, Prod.mk.injEq] at hs
  obtain ⟨rfl, rfl⟩ := hs
  exact ⟨h3, hp.trans (by decide)⟩

/-- C9: for a texture of positive size, `xplay_draw_framebuf` writes (and hands
to GL as the position array) the four vertices top-left `(-dx, dy)`, bottom-left
`(-dx, -dy)`, top-right `(dx, dy)`, bottom-right `(dx, -dy)`, with `dx = dy = 1`
when integer scaling is off and `dx = sx * width / 854`, `dy = sy * height / 480`
for the computed scale factor when it is on. -/
theorem draw_framebuf_vertices (prog : xplay_framebuf_program)
    (tex : xplay_framebuf_texture) (integer_scale : Bool) (alpha : Rat)
    (hw : 1 ≤ tex.width) (hh : 1 ≤ tex.height) :
    ∃ sx sy dx dy, xplay_get_scale_factor tex.width tex.height = some (sx, sy) ∧
      dx = (if integer_scale = true then ((sx * tex.width : Int) : Rat) / 854 else 1) ∧
      dy = (if integer_scale = true then ((sy * tex.height : Int) : Rat) / 480 else 1) ∧
      xplay_draw_framebuf prog tex integer_scale alpha =
        some ({ tex with verts := [-dx, dy, -dx, -dy, dx, dy, dx, -dy] },
          [gl_call.glUseProgram prog.handle,
           gl_call.glVertexAttribPointer prog.pos_loc 2 2 [-dx, dy, -dx, -dy, dx, dy, dx, -dy],
           gl_call.glVertexAttribPointer prog.tex_loc 2 2 tex_coords,
           gl_call.glEnableVertexAttribArray prog.pos_loc,
           gl_call.glEnableVertexAttribArray prog.tex_loc,
           gl_call.glBindTexture tex.handle,
           gl_call.glUniform1i prog.sampler_loc 0,
           gl_call.glUniform1f prog.alpha_loc alpha,
           gl_call.glDrawElements 6 indices]) := by
  obtain ⟨s, hs⟩ : ∃ s, xplay_get_scale_factor tex.width tex.height = some s :=
    ⟨_, scale_factor_pos tex.width tex.height hw hh⟩
  obtain ⟨sx, sy⟩ := s
  refine ⟨sx, sy, _, _, hs, rfl, rfl, ?_⟩
  unfold xplay_draw_framebuf
  rw [if_neg (by omega)]
  cases integer_scale
  · simp [half_extents]
  · rw [half_extents_scaled tex sx sy hs]
    simp

/-- Witness for C9: the 160x144 texture is scaled by `(3, 3)`. -/
theorem draw_framebuf_vertices_witness :
    (xplay_draw_framebuf (sample_program 1)
        { fresh_texture 2 with width := 160, height := 144 } true 1).map (fun r => r.1.verts) =
      some [-(480 / 854), 432 / 480, -(480 / 854), -(432 / 480),
            480 / 854, 432 / 480, 480 / 854, -(432 / 480)] := by
  obtain ⟨sx, sy, dx, dy, hs, hdx, hdy, hd⟩ :=
    draw_framebuf_vertices (sample_program 1)
      { fresh_texture 2 with width := 160, height := 144 } true 1 (by decide) (by decide)
  have h3 : xplay_get_scale_factor 160 144 = some (3, 3) := by decide
  have hs2 : xplay_get_scale_factor 160 144 = some (sx, sy) := hs
  rw [h3] at hs2
  simp only [Option.some.injEq, Prod.mk.injEq] at hs2
  obtain ⟨rfl, rfl⟩ := hs2
  rw [hd, hdx, hdy]
  simp [fresh_texture]


/-! ## Lemmas on the repack loop -/

theorem read_bytes_length (mem : Nat → Nat) (off n : Nat) : (read_bytes mem off n).length = n := by
  simp [read_bytes]

theorem packed_rows_succ (frame : Nat → Nat) (ep pitch n : Nat) :
    packed_rows frame ep pitch (n + 1) =
      packed_rows frame ep pitch n ++ read_bytes frame (n * pitch) ep := by
  simp [packed_rows, List.range_succ, List.flatMap_append]

theorem packed_rows_length (frame : Nat → Nat) (ep pitch n : Nat) :
    (packed_rows frame ep pitch n).length = n * ep := by
  induction n with
  | zero => simp [packed_rows]
  | succ n ih =>
    rw [packed_rows_succ, List.length_append, ih, read_bytes_length]
    ring

theorem memcpy_at_length (dst : List Nat) (off : Nat) (src b : List Nat)
    (h : memcpy_at dst off src = some b) : b.length = dst.length := by
  unfold memcpy_at at h
  split_ifs at h with hle
  simp only [Option.some.injEq] at h
  subst h
  simp only [List.length_append, List.length_take, List.length_drop]
  omega

theorem repack_rows_length (frame : Nat → Nat) (ep pitch : Nat) (n : Nat) (buf b : List Nat)
    (h : repack_rows frame ep pitch n buf = some b) : b.length = buf.length := by
  induction n generalizing b with
  | zero =>
    simp only [repack_rows, Option.some.injEq] at h
    rw [← h]
  | succ n ih =>
    simp only [repack_rows] at h
    cases hr : repack_rows frame ep pitch n buf with
    | none => rw [hr] at h; exact absurd h (by simp)
    | some b0 =>
      rw [hr] at h
      rw [memcpy_at_length _ _ _ _ h, ih b0 hr]

theorem umul_eq (a b : Nat) (h : a * b < 4294967296) : umul a b = a * b := by
  unfold umul UINT_RANGE
  exact Nat.mod_eq_of_lt h

/-- Without wrap-around the first `n` iterations of the repack loop fill the
first `n` rows of the scratch block with the packed rows. -/
theorem repack_rows_first (frame : Nat → Nat) (ep pitch total : Nat) (buf : List Nat)
    (hlen : buf.length = ep * total) (hsize : ep * total < 4294967296)
    (n : Nat) (hn : n ≤ total) (hsrc : ∀ y, y < n → y * pitch < 4294967296) :
    repack_rows frame ep pitch n buf =
      some (packed_rows frame ep pitch n ++ buf.drop (n * ep)) := by
  induction n with
  | zero => simp [repack_rows, packed_rows]
  | succ n ih =>
    have hn2 : n ≤ total := by omega
    have ih2 := ih hn2 (fun y hy => hsrc y (by omega))
    simp only [repack_rows]
    rw [ih2]
    have hmul : (n + 1) * ep ≤ ep * total := by
      rw [mul_comm ep total]; exact Nat.mul_le_mul_right ep hn
    have hnep : n * ep + ep ≤ ep * total := by
      have : (n + 1) * ep = n * ep + ep := by ring
      omega
    have hoff : umul n ep = n * ep := umul_eq n ep (by omega)
    have hsrc2 : umul n pitch = n * pitch := umul_eq n pitch (hsrc n (by omega))
    rw [hoff, hsrc2]
    unfold memcpy_at
    have hplen := packed_rows_length frame ep pitch n
    have hlen2 : (packed_rows frame ep pitch n ++ List.drop (n * ep) buf).length = ep * total := by
      rw [List.length_append, hplen, List.length_drop, hlen]
      omega
    simp only [read_bytes_length]
    rw [hlen2, if_pos hnep]
    congr 1
    have hdrop : List.drop (n * ep + ep) (packed_rows frame ep pitch n ++ List.drop (n * ep) buf)
        = List.drop ((n + 1) * ep) buf := by
      have h1 : n * ep + ep = (packed_rows frame ep pitch n).length + ep := by rw [hplen]
      rw [h1, List.drop_append, List.drop_drop]
      congr 1
      ring
    rw [List.take_left' hplen, packed_rows_succ, hdrop]

theorem repack_rows_full (frame : Nat → Nat) (ep pitch height : Nat) (buf : List Nat)
    (hlen : buf.length = ep * height) (hsize : ep * height < 4294967296)
    (hsrc : ∀ y, y < height → y * pitch < 4294967296) :
    repack_rows frame ep pitch height buf = some (packed_rows frame ep pitch height) := by
  rw [repack_rows_first frame ep pitch height buf hlen hsize height le_rfl hsrc]
  have : List.drop (height * ep) buf = [] := by
    apply List.drop_eq_nil_of_le
    rw [hlen, mul_comm]
  rw [this, List.append_nil]

theorem read_bytes_mem_of_bytes (l : List Nat) : read_bytes (mem_of_bytes l) 0 l.length = l := by
  apply List.ext_getElem
  · simp [read_bytes]
  · intro i h1 h2
    simp [read_bytes, mem_of_bytes, List.getD_eq_getElem?_getD, List.getElem?_eq_getElem h2]


/-! ## Lemmas on `xplay_blit_framebuf` -/

theorem to_unsigned_to_int (n : Nat) (h : n < 4294967296) : to_unsigned (to_int n) = n := by
  unfold to_unsigned to_int UINT_RANGE
  rw [Nat.mod_eq_of_lt h]
  split_ifs <;> omega

theorem blit_params_texel (fmt : xplay_framebuf_format) (ps : Nat) (format : gl_format)
    (type : gl_type) (h : blit_params fmt = some (ps, format, type)) : texel_size fmt = ps := by
  unfold texel_size
  rw [h]

theorem blit_params_of_ne (fmt : xplay_framebuf_format) (h : fmt ≠ .PF_NONE) :
    ∃ format type, blit_params fmt = some (texel_size fmt, format, type) := by
  cases fmt
  · exact absurd rfl h
  all_goals exact ⟨_, _, rfl⟩

theorem blit_unfold (tex : xplay_framebuf_texture) (frame : Nat → Nat) (width height pitch : Nat)
    (fmt : xplay_framebuf_format) (ps : Nat) (format : gl_format) (type : gl_type)
    (hfmt : blit_params fmt = some (ps, format, type)) :
    xplay_blit_framebuf tex frame width height pitch fmt =
      match blit_source (blit_realloc tex width height fmt format type).1 frame (umul ps width)
          pitch height (ps * width * height) with
      | none => none
      | some (tex2, pixels) =>
        some (tex2,
          [gl_call.glBindTexture tex.handle] ++ (blit_realloc tex width height fmt format type).2 ++
            [gl_call.glTexSubImage2D (to_int width) (to_int height) format type pixels]) := by
  unfold xplay_blit_framebuf
  rw [hfmt]

theorem blit_realloc_alloc_count (tex : xplay_framebuf_texture) (width height : Nat)
    (fmt : xplay_framebuf_format) (format : gl_format) (type : gl_type) :
    alloc_count (blit_realloc tex width height fmt format type).2 =
      if stored_differs tex width height fmt then 1 else 0 := by
  unfold blit_realloc
  split_ifs <;> rfl

theorem blit_realloc_uploaded (tex : xplay_framebuf_texture) (width height : Nat)
    (fmt : xplay_framebuf_format) (format : gl_format) (type : gl_type) :
    uploaded_pixels (blit_realloc tex width height fmt format type).2 = [] := by
  unfold blit_realloc
  split_ifs <;> rfl

/-- After the reallocation block the stored values are the uploaded ones. -/
theorem blit_realloc_stored (tex : xplay_framebuf_texture) (width height : Nat)
    (fmt : xplay_framebuf_format) (format : gl_format) (type : gl_type)
    (hw : width < 4294967296) (hh : height < 4294967296) :
    ¬ stored_differs (blit_realloc tex width height fmt format type).1 width height fmt := by
  unfold blit_realloc
  split_ifs with hd
  · simp [stored_differs, to_unsigned_to_int width hw, to_unsigned_to_int height hh]
  · exact hd

theorem blit_realloc_scratch_ok (tex : xplay_framebuf_texture) (width height : Nat)
    (fmt : xplay_framebuf_format) (format : gl_format) (type : gl_type) (hok : scratch_ok tex) :
    scratch_ok (blit_realloc tex width height fmt format type).1 := by
  unfold blit_realloc
  split_ifs with hd
  · intro b hb
    simp at hb
  · exact hok

/-- The length of the scratch block the repack loop starts from. -/
theorem blit_scratch_length (tex : xplay_framebuf_texture) (width height : Nat)
    (fmt : xplay_framebuf_format) (hok : scratch_ok tex)
    (hsame : ¬ stored_differs tex width height fmt) :
    (match tex.tempbuf with
      | some b => b
      | none => List.replicate (umul (umul (texel_size fmt) width) height) 0).length =
      umul (umul (texel_size fmt) width) height := by
  simp only [stored_differs, not_or, not_not] at hsame
  obtain ⟨h1, h2, h3⟩ := hsame
  cases hb : tex.tempbuf with
  | none => simp
  | some b =>
    simp only
    rw [hok b hb, h1, h2, h3]

theorem repack_rows_defined (frame : Nat → Nat) (ep pitch total : Nat) (buf : List Nat)
    (hlen : buf.length = ep * total) (hsize : ep * total < 4294967296)
    (n : Nat) (hn : n ≤ total) :
    ∃ b, repack_rows frame ep pitch n buf = some b := by
  induction n with
  | zero => exact ⟨buf, rfl⟩
  | succ n ih =>
    obtain ⟨b0, hb0⟩ := ih (by omega)
    have hl := repack_rows_length frame ep pitch n buf b0 hb0
    simp only [repack_rows]
    rw [hb0]
    have hmul : (n + 1) * ep ≤ ep * total := by
      rw [mul_comm ep total]; exact Nat.mul_le_mul_right ep hn
    have hnep : n * ep + ep ≤ ep * total := by
      have : (n + 1) * ep = n * ep + ep := by ring
      omega
    have hoff : umul n ep = n * ep := umul_eq n ep (by omega)
    unfold memcpy_at
    simp only [read_bytes_length]
    rw [hoff, hl, hlen, if_pos hnep]
    exact ⟨_, rfl⟩


theorem umul_le (a b : Nat) : umul a b ≤ a * b := by
  unfold umul
  exact Nat.mod_le _ _

/-- Without overflow of the image size, `expected_pitch * height` is the image size. -/
theorem expected_size_eq (ps width height : Nat) (hsize : ps * width * height < 4294967296) :
    umul ps width * height = ps * width * height ∧ umul ps width * height < 4294967296 := by
  rcases Nat.eq_zero_or_pos height with h0 | hpos
  · subst h0; simp
  · have h1 : ps * width ≤ ps * width * height := Nat.le_mul_of_pos_right _ hpos
    rw [umul_eq ps width (by omega)]
    exact ⟨rfl, hsize⟩

theorem blit_source_fields (tex : xplay_framebuf_texture) (frame : Nat → Nat)
    (ep pitch height nbytes : Nat) (tex2 : xplay_framebuf_texture) (pixels : List Nat)
    (h : blit_source tex frame ep pitch height nbytes = some (tex2, pixels)) :
    tex2.handle = tex.handle ∧ tex2.width = tex.width ∧ tex2.height = tex.height ∧
      tex2.fmt = tex.fmt ∧ tex2.verts = tex.verts := by
  unfold blit_source at h
  split_ifs at h with hp
  · simp only at h
    split at h
    · exact absurd h (by simp)
    · split at h
      · exact absurd h (by simp)
      · simp only [Option.some.injEq, Prod.mk.injEq] at h
        obtain ⟨rfl, _⟩ := h
        exact ⟨rfl, rfl, rfl, rfl, rfl⟩
  · simp only [Option.some.injEq, Prod.mk.injEq] at h
    obtain ⟨rfl, _⟩ := h
    exact ⟨rfl, rfl, rfl, rfl, rfl⟩

theorem blit_source_scratch_ok (tex : xplay_framebuf_texture) (frame : Nat → Nat)
    (width height pitch nbytes : Nat) (fmt : xplay_framebuf_format)
    (tex2 : xplay_framebuf_texture) (pixels : List Nat)
    (hok : scratch_ok tex) (hsame : ¬ stored_differs tex width height fmt)
    (h : blit_source tex frame (umul (texel_size fmt) width) pitch height nbytes
      = some (tex2, pixels)) :
    scratch_ok tex2 := by
  have hlen := blit_scratch_length tex width height fmt hok hsame
  simp only [stored_differs, not_or, not_not] at hsame
  obtain ⟨h1, h2, h3⟩ := hsame
  unfold blit_source at h
  split_ifs at h with hp
  · simp only at h
    split at h
    · exact absurd h (by simp)
    · rename_i buf hbuf
      split at h
      · exact absurd h (by simp)
      · simp only [Option.some.injEq, Prod.mk.injEq] at h
        obtain ⟨rfl, _⟩ := h
        intro b hb
        simp only [Option.some.injEq] at hb
        subst hb
        rw [repack_rows_length _ _ _ _ _ _ hbuf, hlen, h1, h2, h3]
  · simp only [Option.some.injEq, Prod.mk.injEq] at h
    obtain ⟨rfl, _⟩ := h
    exact hok

theorem blit_source_defined (tex : xplay_framebuf_texture) (frame : Nat → Nat)
    (width height pitch : Nat) (fmt : xplay_framebuf_format)
    (hok : scratch_ok tex) (hsame : ¬ stored_differs tex width height fmt)
    (hsize : texel_size fmt * width * height < 4294967296) :
    ∃ r, blit_source tex frame (umul (texel_size fmt) width) pitch height
      (texel_size fmt * width * height) = some r := by
  have hlen := blit_scratch_length tex width height fmt hok hsame
  obtain ⟨he1, he2⟩ := expected_size_eq (texel_size fmt) width height hsize
  unfold blit_source
  split_ifs with hp
  · simp only
    generalize (match tex.tempbuf with
      | some b => b
      | none => List.replicate (umul (umul (texel_size fmt) width) height) 0) = buf0 at hlen ⊢
    rw [umul_eq _ _ he2] at hlen
    obtain ⟨b, hb⟩ := repack_rows_defined frame (umul (texel_size fmt) width) pitch height buf0
      hlen he2 height le_rfl
    rw [hb]
    have hl := repack_rows_length _ _ _ _ _ _ hb
    simp only
    unfold read_block
    rw [if_pos (by rw [hl, hlen, he1])]
    exact ⟨_, rfl⟩
  · exact ⟨_, rfl⟩

/-- On the repack path, without wrap-around, the scratch block and the bytes
handed to GL are the packed rows of the source. -/
theorem blit_source_repack (tex : xplay_framebuf_texture) (frame : Nat → Nat)
    (width height pitch : Nat) (fmt : xplay_framebuf_format)
    (hok : scratch_ok tex) (hsame : ¬ stored_differs tex width height fmt)
    (hh : 1 ≤ height) (hne : pitch ≠ texel_size fmt * width)
    (hsize : texel_size fmt * width * height < 4294967296)
    (hsrc : ∀ y, y < height → y * pitch < 4294967296) :
    blit_source tex frame (umul (texel_size fmt) width) pitch height
        (texel_size fmt * width * height) =
      some ({ tex with tempbuf := some (packed_rows frame (texel_size fmt * width) pitch height) },
        packed_rows frame (texel_size fmt * width) pitch height) := by
  have hlen := blit_scratch_length tex width height fmt hok hsame
  obtain ⟨he1, he2⟩ := expected_size_eq (texel_size fmt) width height hsize
  have hep : umul (texel_size fmt) width = texel_size fmt * width := by
    apply umul_eq
    have : texel_size fmt * width ≤ texel_size fmt * width * height :=
      Nat.le_mul_of_pos_right _ hh
    omega
  unfold blit_source
  generalize (match tex.tempbuf with
    | some b => b
    | none => List.replicate (umul (umul (texel_size fmt) width) height) 0) = buf0 at hlen ⊢
  rw [umul_eq _ _ he2] at hlen
  rw [hep] at hlen he2 ⊢
  rw [if_pos hne]
  simp only
  rw [repack_rows_full frame (texel_size fmt * width) pitch height buf0 hlen he2 hsrc]
  simp only
  unfold read_block
  have hpl := packed_rows_length frame (texel_size fmt * width) pitch height
  rw [if_pos (by rw [hpl, mul_comm])]
  have : List.take (texel_size fmt * width * height)
      (packed_rows frame (texel_size fmt * width) pitch height) =
      packed_rows frame (texel_size fmt * width) pitch height := by
    apply List.take_of_length_le
    rw [hpl, mul_comm]
  rw [this]


theorem uploaded_pixels_append (a b : List gl_call) :
    uploaded_pixels (a ++ b) = uploaded_pixels a ++ uploaded_pixels b := by
  induction a with
  | nil => rfl
  | cons c rest ih =>
    cases c <;> simp [uploaded_pixels, ih]

theorem alloc_count_append (a b : List gl_call) :
    alloc_count (a ++ b) = alloc_count a + alloc_count b := by
  induction a with
  | nil => simp [alloc_count]
  | cons c rest ih =>
    cases c <;> simp [alloc_count, ih]
    omega

/-- Shape of a completed upload: the calls are one bind, the reallocation when
the stored values differ, and one sub-region update; the record afterwards
stores the uploaded values. -/
theorem blit_shape (tex : xplay_framebuf_texture) (frame : Nat → Nat) (width height pitch : Nat)
    (fmt : xplay_framebuf_format) (hfmt : fmt ≠ .PF_NONE)
    (hw : width < 4294967296) (hh : height < 4294967296)
    (tex1 : xplay_framebuf_texture) (calls : List gl_call)
    (h : xplay_blit_framebuf tex frame width height pitch fmt = some (tex1, calls)) :
    alloc_count calls = (if stored_differs tex width height fmt then 1 else 0) ∧
      (uploaded_pixels calls).length = 1 ∧
      ¬ stored_differs tex1 width height fmt ∧
      tex1.handle = tex.handle ∧
      (scratch_ok tex → scratch_ok tex1) ∧
      (¬ stored_differs tex width height fmt →
        tex1.width = tex.width ∧ tex1.height = tex.height ∧ tex1.fmt = tex.fmt) := by
  obtain ⟨format, type, hp⟩ := blit_params_of_ne fmt hfmt
  rw [blit_unfold tex frame width height pitch fmt _ format type hp] at h
  split at h
  · exact absurd h (by simp)
  · rename_i tex2 pixels hsrc
    simp only [Option.some.injEq, Prod.mk.injEq] at h
    obtain ⟨rfl, rfl⟩ := h
    obtain ⟨f1, f2, f3, f4, _⟩ := blit_source_fields _ _ _ _ _ _ _ _ hsrc
    have hst := blit_realloc_stored tex width height fmt format type hw hh
    refine ⟨?_, ?_, ?_, ?_, ?_, ?_⟩
    · simp only [alloc_count_append, blit_realloc_alloc_count]
      simp [alloc_count]
    · simp only [uploaded_pixels_append, blit_realloc_uploaded]
      simp [uploaded_pixels]
    · unfold stored_differs at hst ⊢
      rw [f2, f3, f4]
      exact hst
    · rw [f1]
      unfold blit_realloc
      split_ifs <;> rfl
    · intro hok
      exact blit_source_scratch_ok _ frame width height pitch _ fmt tex2 pixels
        (blit_realloc_scratch_ok tex width height fmt format type hok) hst hsrc
    · intro hsame
      rw [f2, f3, f4]
      unfold blit_realloc
      rw [if_neg hsame]
      exact ⟨rfl, rfl, rfl⟩

/-- An upload whose image size does not overflow completes. -/
theorem blit_defined (tex : xplay_framebuf_texture) (frame : Nat → Nat) (width height pitch : Nat)
    (fmt : xplay_framebuf_format) (hw : width < 4294967296) (hh : height < 4294967296)
    (hok : scratch_ok tex) (hsize : texel_size fmt * width * height < 4294967296) :
    ∃ r, xplay_blit_framebuf tex frame width height pitch fmt = some r := by
  by_cases hfmt : fmt = .PF_NONE
  · subst hfmt
    exact ⟨_, rfl⟩
  · obtain ⟨format, type, hp⟩ := blit_params_of_ne fmt hfmt
    rw [blit_unfold tex frame width height pitch fmt _ format type hp]
    obtain ⟨r, hr⟩ := blit_source_defined _ frame width height pitch fmt
      (blit_realloc_scratch_ok tex width height fmt format type hok)
      (blit_realloc_stored tex width height fmt format type hw hh) hsize
    rw [hr]
    exact ⟨_, rfl⟩

/-- An upload with the expected pitch completes. -/
theorem blit_direct_defined (tex : xplay_framebuf_texture) (frame : Nat → Nat)
    (width height : Nat) (fmt : xplay_framebuf_format) :
    ∃ r, xplay_blit_framebuf tex frame width height (umul (texel_size fmt) width) fmt = some r := by
  by_cases hfmt : fmt = .PF_NONE
  · subst hfmt
    exact ⟨_, rfl⟩
  · obtain ⟨format, type, hp⟩ := blit_params_of_ne fmt hfmt
    rw [blit_unfold tex frame width height _ fmt _ format type hp]
    unfold blit_source
    rw [if_neg (by simp)]
    exact ⟨_, rfl⟩

/-! ## C4, C5: the upload path -/

/-- C4 as stated fails: for a 1x3 RGBA-4444 image with row pitch `2 ^ 31`, the
`unsigned` product `2 * pitch` wraps to 0, so the repack loop copies row 0 again
as row 2 and the bytes handed to GL differ from the packed image. -/
theorem blit_repack_wrap_counterexample :
    xplay_framebuf_format.PF_RGBA16_4444 ≠ .PF_NONE ∧
    texel_size .PF_RGBA16_4444 * 1 ≤ 2147483648 ∧
    (xplay_blit_framebuf (fresh_texture 2) wrap_probe 1 3 2147483648 .PF_RGBA16_4444).map
        (fun r => uploaded_pixels r.2) = some [[0, 0, 0, 0, 0, 0]] ∧
    packed_rows wrap_probe (texel_size .PF_RGBA16_4444 * 1) 2147483648 3 = [0, 0, 0, 0, 1, 0] ∧
    (xplay_blit_framebuf (fresh_texture 2) wrap_probe 1 3 2147483648 .PF_RGBA16_4444).map
        (fun r => uploaded_pixels r.2) ≠
      some [packed_rows wrap_probe (texel_size .PF_RGBA16_4444 * 1) 2147483648 3] := by
  decide

/-- C4, amended: for every format other than None, every width and height of at
least 1, every row pitch above the expected pitch `texel_size * width`, every
source and every texture whose scratch block satisfies the size invariant,
provided no 32-bit product of the repack wraps (`(height - 1) * pitch < 2 ^ 32`
and `texel_size * width * height < 2 ^ 32`): the bytes handed to the single
sub-region update on the repack path are exactly the packed image, and they are
the bytes a direct upload of that packed image with the expected pitch hands over. -/
theorem blit_repack_matches_direct (tex tex' : xplay_framebuf_texture) (frame : Nat → Nat)
    (width height pitch : Nat) (fmt : xplay_framebuf_format)
    (hfmt : fmt ≠ .PF_NONE) (hw : 1 ≤ width) (hh : 1 ≤ height)
    (hpitch : texel_size fmt * width ≤ pitch) (hne : pitch ≠ texel_size fmt * width)
    (hsrc : (height - 1) * pitch < 4294967296)
    (hsize : texel_size fmt * width * height < 4294967296) (hok : scratch_ok tex) :
    (xplay_blit_framebuf tex frame width height pitch fmt).map (fun r => uploaded_pixels r.2) =
        some [packed_rows frame (texel_size fmt * width) pitch height] ∧
    (xplay_blit_framebuf tex'
        (mem_of_bytes (packed_rows frame (texel_size fmt * width) pitch height))
        width height (texel_size fmt * width) fmt).map (fun r => uploaded_pixels r.2) =
        some [packed_rows frame (texel_size fmt * width) pitch height] := by
  obtain ⟨format, type, hp⟩ := blit_params_of_ne fmt hfmt
  have hps : 2 ≤ texel_size fmt := by
    cases fmt
    · exact absurd rfl hfmt
    all_goals decide
  have hpw : texel_size fmt * width ≤ texel_size fmt * width * height :=
    Nat.le_mul_of_pos_right _ hh
  have hww : width ≤ texel_size fmt * width := Nat.le_mul_of_pos_left _ (by omega)
  have hhh : height ≤ texel_size fmt * width * height := Nat.le_mul_of_pos_left _ (by omega)
  have hw2 : width < 4294967296 := by omega
  have hh2 : height < 4294967296 := by omega
  have hep : umul (texel_size fmt) width = texel_size fmt * width := umul_eq _ _ (by omega)
  constructor
  · rw [blit_unfold tex frame width height pitch fmt _ format type hp]
    rw [blit_source_repack _ frame width height pitch fmt
      (blit_realloc_scratch_ok tex width height fmt format type hok)
      (blit_realloc_stored tex width height fmt format type hw2 hh2) hh hne hsize
      (fun y hy => by
        have : y * pitch ≤ (height - 1) * pitch := Nat.mul_le_mul_right _ (by omega)
        omega)]
    simp only [Option.map_some', uploaded_pixels_append, blit_realloc_uploaded]
    rfl
  · rw [blit_unfold tex' _ width height _ fmt _ format type hp]
    unfold blit_source
    rw [if_neg (by rw [hep]; simp)]
    simp only [Option.map_some', uploaded_pixels_append, blit_realloc_uploaded]
    have hl : texel_size fmt * width * height =
        (packed_rows frame (texel_size fmt * width) pitch height).length := by
      rw [packed_rows_length, mul_comm]
    rw [hl, read_bytes_mem_of_bytes]
    rfl

/-- Witness for the amended C4: a 2x2 RGBA-4444 image with 6-byte rows (2 bytes
of padding per row) is repacked to its 8 pixel bytes. -/
theorem blit_repack_matches_direct_witness :
    (xplay_blit_framebuf (fresh_texture 2) (fun i => i) 2 2 6 .PF_RGBA16_4444).map
        (fun r => uploaded_pixels r.2) = some [[0, 1, 2, 3, 6, 7, 8, 9]] :=
  (blit_repack_matches_direct (fresh_texture 2) (fresh_texture 2) (fun i => i) 2 2 6
    .PF_RGBA16_4444 (by decide) (by decide) (by decide) (by decide) (by decide) (by decide)
    (by decide) (by intro b hb; simp [fresh_texture] at hb)).1.trans (by decide)


/-- C5: an upload with a format other than None reallocates texture storage
(`glTexImage2D`) exactly when `(width, height, format)` differs from the stored
values, at most once, and issues exactly one sub-region update either way; a
second upload with the same `(width, height, format)` reallocates nothing and
leaves the stored width, height and format unchanged. The upload completes
whenever the pitch is the expected one, and whenever the scratch invariant holds
and the image size does not overflow. -/
theorem blit_realloc_iff_changed (tex : xplay_framebuf_texture) (frame : Nat → Nat)
    (width height pitch : Nat) (fmt : xplay_framebuf_format)
    (hfmt : fmt ≠ .PF_NONE) (hw : width < 4294967296) (hh : height < 4294967296) :
    (pitch = umul (texel_size fmt) width →
      ∃ r, xplay_blit_framebuf tex frame width height pitch fmt = some r) ∧
    (scratch_ok tex → texel_size fmt * width * height < 4294967296 →
      ∃ r, xplay_blit_framebuf tex frame width height pitch fmt = some r ∧
        ∀ frame2 pitch2, ∃ r2, xplay_blit_framebuf r.1 frame2 width height pitch2 fmt = some r2) ∧
    ∀ tex1 calls, xplay_blit_framebuf tex frame width height pitch fmt = some (tex1, calls) →
      (alloc_count calls = 1 ↔ stored_differs tex width height fmt) ∧
      (alloc_count calls = 0 ↔ ¬ stored_differs tex width height fmt) ∧
      (uploaded_pixels calls).length = 1 ∧
      ¬ stored_differs tex1 width height fmt ∧
      ∀ frame2 pitch2 tex2 calls2,
        xplay_blit_framebuf tex1 frame2 width height pitch2 fmt = some (tex2, calls2) →
        alloc_count calls2 = 0 ∧ (uploaded_pixels calls2).length = 1 ∧
          tex2.width = tex1.width ∧ tex2.height = tex1.height ∧ tex2.fmt = tex1.fmt := by
  refine ⟨?_, ?_, ?_⟩
  · intro hp
    rw [hp]
    exact blit_direct_defined tex frame width height fmt
  · intro hok hsize
    obtain ⟨r, hr⟩ := blit_defined tex frame width height pitch fmt hw hh hok hsize
    refine ⟨r, hr, ?_⟩
    intro frame2 pitch2
    obtain ⟨_, _, _, _, hok1, _⟩ :=
      blit_shape tex frame width height pitch fmt hfmt hw hh r.1 r.2 hr
    exact blit_defined r.1 frame2 width height pitch2 fmt hw hh (hok1 hok) hsize
  · intro tex1 calls h
    obtain ⟨ha, hu, hs, _, _, _⟩ :=
      blit_shape tex frame width height pitch fmt hfmt hw hh tex1 calls h
    refine ⟨?_, ?_, hu, hs, ?_⟩
    · rw [ha]
      split_ifs with hd <;> simp [hd]
    · rw [ha]
      split_ifs with hd <;> simp [hd]
    · intro frame2 pitch2 tex2 calls2 h2
      obtain ⟨ha2, hu2, _, _, _, hkeep⟩ :=
        blit_shape tex1 frame2 width height pitch2 fmt hfmt hw hh tex2 calls2 h2
      rw [if_neg hs] at ha2
      exact ⟨ha2, hu2, hkeep hs⟩

/-- Witness for C5: the first 2x2 RGB-565 upload into a fresh texture
reallocates once; repeating it reallocates nothing and issues one update. -/
theorem blit_realloc_iff_changed_witness :
    ∃ tex1 calls,
      xplay_blit_framebuf (fresh_texture 2) (fun i => i) 2 2 4 .PF_RGB16_565 = some (tex1, calls) ∧
      alloc_count calls = 1 ∧ (uploaded_pixels calls).length = 1 ∧
      ∃ tex2 calls2,
        xplay_blit_framebuf tex1 (fun i => i) 2 2 4 .PF_RGB16_565 = some (tex2, calls2) ∧
        alloc_count calls2 = 0 ∧ (uploaded_pixels calls2).length = 1 ∧
        tex2.width = tex1.width ∧ tex2.height = tex1.height ∧ tex2.fmt = tex1.fmt := by
  have hfmt : xplay_framebuf_format.PF_RGB16_565 ≠ .PF_NONE := by decide
  obtain ⟨hdir, _, hshape⟩ :=
    blit_realloc_iff_changed (fresh_texture 2) (fun i => i) 2 2 4 .PF_RGB16_565
      hfmt (by decide) (by decide)
  obtain ⟨⟨tex1, calls⟩, hr⟩ := hdir (by decide)
  obtain ⟨h1, _, hu, hs, hsecond⟩ := hshape tex1 calls hr
  obtain ⟨⟨tex2, calls2⟩, hr2⟩ :=
    blit_direct_defined tex1 (fun i => i) 2 2 .PF_RGB16_565
  have hp : umul (texel_size .PF_RGB16_565) 2 = 4 := by decide
  rw [hp] at hr2
  exact ⟨tex1, calls, hr, h1.2 (by decide), hu, tex2, calls2, hr2,
    hsecond (fun i => i) 4 tex2 calls2 hr2⟩


/-! ## Lemmas on the frame call -/

theorem slot_set_length {α : Type} (xs : List α) (i : Int) (v : α) :
    (slot_set xs i v).length = xs.length := by
  simp [slot_set]

theorem slot_get_set_same {α : Type} (xs : List α) (i : Int) (v : α)
    (hi : 0 ≤ i) (hlt : i.toNat < xs.length) : slot_get (slot_set xs i v) i = some v := by
  unfold slot_get slot_set
  rw [if_pos hi]
  simp [List.getElem?_set, hlt]

theorem slot_get_set_other {α : Type} (xs : List α) (i j : Int) (v : α)
    (hi : 0 ≤ i) (hj : 0 ≤ j) (hne : i ≠ j) : slot_get (slot_set xs i v) j = slot_get xs j := by
  unfold slot_get slot_set
  rw [if_pos hj]
  have : i.toNat ≠ j.toNat := by omega
  simp [List.getElem?_set, this, hj]

theorem slot_get_some_lt {α : Type} (xs : List α) (i : Int) (v : α)
    (h : slot_get xs i = some v) : 0 ≤ i ∧ i.toNat < xs.length := by
  unfold slot_get at h
  split_ifs at h with hi
  refine ⟨hi, ?_⟩
  have := List.get?_eq_some.1 h
  exact this.1

theorem slot_get_defined {α : Type} (xs : List α) (i : Int)
    (hi : 0 ≤ i) (hlt : i.toNat < xs.length) : ∃ v, slot_get xs i = some v := by
  unfold slot_get
  rw [if_pos hi]
  exact ⟨xs.get ⟨i.toNat, hlt⟩, List.get?_eq_get hlt⟩

/-- An overlay upload leaves the frame layer alone, rotates the menu index and
keeps the menu array length. -/
theorem set_texture_frame_fields (vid : xplay_video) (supports_rgba : Bool) (a : texture_frame)
    (vid1 : xplay_video) (calls : List gl_call)
    (h : xplay_set_texture_frame vid supports_rgba a = some (vid1, calls)) :
    vid1.frame_tex = vid.frame_tex ∧ vid1.frame_tex_index = vid.frame_tex_index ∧
      vid1.frame_rgb32 = vid.frame_rgb32 ∧
      vid1.menu_tex.length = vid.menu_tex.length ∧
      vid1.menu_tex_index = Int.tmod (vid.menu_tex_index + 1) XPLAY_FRAMEBUF_COUNT := by
  unfold xplay_set_texture_frame at h
  simp only at h
  split at h
  · exact absurd h (by simp)
  · split at h
    · exact absurd h (by simp)
    · simp only [Option.some.injEq, Prod.mk.injEq] at h
      obtain ⟨rfl, _⟩ := h
      exact ⟨rfl, rfl, rfl, slot_set_length _ _ _, rfl⟩

theorem tmod_two_range (i : Int) (h : i = 0 ∨ i = 1) :
    Int.tmod (i + 1) XPLAY_FRAMEBUF_COUNT = 0 ∨ Int.tmod (i + 1) XPLAY_FRAMEBUF_COUNT = 1 := by
  rcases h with rfl | rfl
  · right; decide
  · left; decide

theorem run_texture_frames_fields (supports_rgba : Bool) (l : List texture_frame)
    (vid vid1 : xplay_video) (calls : List gl_call)
    (h : run_texture_frames supports_rgba l vid = some (vid1, calls)) :
    vid1.frame_tex = vid.frame_tex ∧ vid1.frame_tex_index = vid.frame_tex_index ∧
      vid1.frame_rgb32 = vid.frame_rgb32 ∧
      vid1.menu_tex.length = vid.menu_tex.length ∧
      ((vid.menu_tex_index = 0 ∨ vid.menu_tex_index = 1) →
        (vid1.menu_tex_index = 0 ∨ vid1.menu_tex_index = 1)) := by
  induction l generalizing vid calls with
  | nil =>
    simp only [run_texture_frames, Option.some.injEq, Prod.mk.injEq] at h
    obtain ⟨rfl, _⟩ := h
    exact ⟨rfl, rfl, rfl, rfl, id⟩
  | cons a rest ih =>
    simp only [run_texture_frames] at h
    split at h
    · exact absurd h (by simp)
    · rename_i v c hv
      split at h
      · exact absurd h (by simp)
      · rename_i v2 c2 hv2
        simp only [Option.some.injEq, Prod.mk.injEq] at h
        obtain ⟨rfl, _⟩ := h
        obtain ⟨a1, a2, a3, a4, a5⟩ := set_texture_frame_fields vid supports_rgba a v c hv
        obtain ⟨b1, b2, b3, b4, b5⟩ := ih v c2 hv2
        refine ⟨b1.trans a1, b2.trans a2, b3.trans a3, b4.trans a4, ?_⟩
        intro hm
        apply b5
        rw [a5]
        exact tmod_two_range _ hm

theorem draw_menu_fields (vid : xplay_video) (integer_scale menu_is_alive : Bool)
    (env : frame_env) (vid1 : xplay_video) (calls : List gl_call)
    (h : draw_menu vid integer_scale menu_is_alive env = some (vid1, calls)) :
    vid1.frame_tex = vid.frame_tex ∧ vid1.frame_tex_index = vid.frame_tex_index ∧
      vid1.frame_rgb32 = vid.frame_rgb32 ∧
      vid1.menu_tex.length = vid.menu_tex.length ∧
      ((vid.menu_tex_index = 0 ∨ vid.menu_tex_index = 1) →
        (vid1.menu_tex_index = 0 ∨ vid1.menu_tex_index = 1)) := by
  unfold draw_menu at h
  split at h
  · exact absurd h (by simp)
  · rename_i v c hv
    have hf := run_texture_frames_fields _ _ _ _ _ hv
    split_ifs at h with ha
    · split at h
      · exact absurd h (by simp)
      · split at h
        · exact absurd h (by simp)
        · split at h
          · exact absurd h (by simp)
          · simp only [Option.some.injEq, Prod.mk.injEq] at h
            obtain ⟨rfl, _⟩ := h
            obtain ⟨b1, b2, b3, b4, b5⟩ := hf
            exact ⟨b1, b2, b3, (slot_set_length _ _ _).trans b4, b5⟩
    · simp only [Option.some.injEq, Prod.mk.injEq] at h
      obtain ⟨rfl, _⟩ := h
      exact hf

theorem maybe_init_font_texture_layers (vid : xplay_video) (font : font_renderer) (gen : Nat) :
    same_layers vid (xplay_maybe_init_font_texture vid font gen).1 := by
  unfold xplay_maybe_init_font_texture same_layers
  dsimp only
  split_ifs <;> exact ⟨rfl, rfl, rfl, rfl, rfl, rfl⟩

theorem same_layers_refl (vid : xplay_video) : same_layers vid vid :=
  ⟨rfl, rfl, rfl, rfl, rfl, rfl⟩

theorem same_layers_trans (a b c : xplay_video) (h1 : same_layers a b) (h2 : same_layers b c) :
    same_layers a c := by
  unfold same_layers at h1 h2 ⊢
  refine ⟨h2.1.trans h1.1, h2.2.1.trans h1.2.1, h2.2.2.1.trans h1.2.2.1, ?_, ?_, ?_⟩
  · exact h2.2.2.2.1.trans h1.2.2.2.1
  · exact h2.2.2.2.2.1.trans h1.2.2.2.2.1
  · exact h2.2.2.2.2.2.trans h1.2.2.2.2.2

/-! ## Lemmas on binary32 rounding -/

theorem pow2_eq (e : Int) : pow2 e = (2 : Rat) ^ e := by
  unfold pow2
  split_ifs with h
  · obtain ⟨k, rfl⟩ := Int.eq_ofNat_of_zero_le h
    simp
  · obtain ⟨k, hk⟩ : ∃ k : Nat, e = -(k : Int) := ⟨(-e).toNat, by omega⟩
    subst hk
    simp

theorem pow2_pos (e : Int) : 0 < pow2 e := by
  rw [pow2_eq]
  positivity

theorem pow2_mono (a b : Int) (h : a ≤ b) : pow2 a ≤ pow2 b := by
  rw [pow2_eq, pow2_eq]
  exact zpow_le_zpow_right₀ (by norm_num) h

theorem round_half_even_cases (n d : Nat) :
    round_half_even n d = n / d ∨ round_half_even n d = n / d + 1 := by
  unfold round_half_even
  split_ifs <;> simp

theorem round_half_even_near (n d : Nat) (hd : 0 < d) :
    |((round_half_even n d : Nat) : Rat) - (n : Rat) / (d : Rat)| ≤ 1 := by
  have hdq : (0 : Rat) < (d : Rat) := by exact_mod_cast hd
  have h1 : ((n / d : Nat) : Rat) ≤ (n : Rat) / (d : Rat) := Nat.cast_div_le
  have h2 : (n : Rat) / (d : Rat) < ((n / d : Nat) : Rat) + 1 := by
    rw [div_lt_iff₀ hdq]
    have := Nat.lt_div_mul_add hd (a := n)
    have h3 : (n : Rat) < ((n / d * d + d : Nat) : Rat) := by exact_mod_cast this
    push_cast at h3
    linarith
  rw [abs_le]
  rcases round_half_even_cases n d with h | h <;> rw [h] <;> push_cast <;>
    constructor <;> linarith

theorem floor_log2_fuel_spec (fuel n : Nat) (h : n ≤ fuel) (hn : 0 < n) :
    2 ^ floor_log2_fuel fuel n ≤ n ∧ n < 2 ^ (floor_log2_fuel fuel n + 1) := by
  induction fuel generalizing n with
  | zero => omega
  | succ fuel ih =>
    unfold floor_log2_fuel
    split_ifs with h2
    · constructor
      · simpa using hn
      · simpa using h2
    · obtain ⟨i1, i2⟩ := ih (n / 2) (by omega) (by omega)
      rw [pow_succ] at i2 ⊢
      constructor
      · omega
      · rw [pow_succ]
        omega

theorem floor_log2_le (n : Nat) (hn : 0 < n) : 2 ^ floor_log2 n ≤ n :=
  (floor_log2_fuel_spec n n (le_refl n) hn).1

theorem floor_log2_lt (n : Nat) (hn : 0 < n) : n < 2 ^ (floor_log2 n + 1) :=
  (floor_log2_fuel_spec n n (le_refl n) hn).2

theorem log2_quotient (n d : Nat) (hn : 0 < n) (hd : 0 < d) :
    pow2 ((floor_log2 n : Int) - (floor_log2 d : Int)) ≤ 2 * ((n : Rat) / (d : Rat)) := by
  have hdq : (0 : Rat) < (d : Rat) := by exact_mod_cast hd
  have h1 : ((2 ^ floor_log2 n : Nat) : Rat) ≤ (n : Rat) := by
    exact_mod_cast floor_log2_le n hn
  have h2 : (d : Rat) < ((2 ^ (floor_log2 d + 1) : Nat) : Rat) := by
    exact_mod_cast floor_log2_lt d hd
  push_cast at h1 h2
  rw [pow2_eq, zpow_sub₀ (by norm_num), zpow_natCast, zpow_natCast, div_le_iff₀ (by positivity)]
  have h3 : (0 : Rat) < 2 ^ floor_log2 d := by positivity
  calc (2 : Rat) ^ floor_log2 n ≤ (n : Rat) := h1
    _ = (n : Rat) / (d : Rat) * (d : Rat) := by field_simp
    _ ≤ (n : Rat) / (d : Rat) * (2 ^ (floor_log2 d + 1)) := by
        apply mul_le_mul_of_nonneg_left (le_of_lt h2)
        positivity
    _ = 2 * ((n : Rat) / (d : Rat)) * 2 ^ floor_log2 d := by ring

/-- The unit in the last place chosen for a positive quotient is at most
`2 ^ -22` times the quotient, or the subnormal unit `2 ^ -149`. -/
theorem binary32_exponent_le (n d : Nat) (hn : 0 < n) (hd : 0 < d) :
    pow2 (binary32_exponent n d) ≤ max ((n : Rat) / (d : Rat) / 4194304) (pow2 (-149)) := by
  unfold binary32_exponent
  simp only
  have h0 := log2_quotient n d hn hd
  generalize ((floor_log2 n : Int) - (floor_log2 d : Int)) = e0 at h0 ⊢
  have he : (if pow2 e0 * (d : Rat) ≤ (n : Rat) then e0 else e0 - 1) ≤ e0 := by
    split_ifs <;> omega
  generalize (if pow2 e0 * (d : Rat) ≤ (n : Rat) then e0 else e0 - 1) = e at he ⊢
  by_cases hc : e ≤ -126
  · rw [max_eq_right hc]
    exact le_max_right _ _
  · rw [max_eq_left (by omega)]
    refine le_trans ?_ (le_max_left _ _)
    have h1 : pow2 (e - 23) ≤ pow2 (e0 - 23) := pow2_mono _ _ (by omega)
    have h2 : pow2 (e0 - 23) = pow2 e0 / 8388608 := by
      rw [pow2_eq, pow2_eq, zpow_sub₀ (by norm_num)]
      norm_num
    rw [h2] at h1
    linarith

theorem binary32_of_pos_near (n d : Nat) (hd : 0 < d) :
    |binary32_of_pos n d - (n : Rat) / (d : Rat)| ≤ pow2 (binary32_exponent n d) := by
  have hdq : (0 : Rat) < (d : Rat) := by exact_mod_cast hd
  unfold binary32_of_pos
  simp only
  generalize binary32_exponent n d = s
  have hp := pow2_pos s
  split_ifs with hs
  · obtain ⟨k, rfl⟩ := Int.eq_ofNat_of_zero_le hs
    have hr := round_half_even_near n (d * 2 ^ k) (by positivity)
    have hk : pow2 (k : Int) = (2 : Rat) ^ k := by rw [pow2_eq, zpow_natCast]
    simp only [Int.toNat_ofNat]
    rw [hk] at hp ⊢
    push_cast at hr
    have e1 : ((round_half_even n (d * 2 ^ k) : Nat) : Rat) * 2 ^ k - (n : Rat) / (d : Rat)
        = (((round_half_even n (d * 2 ^ k) : Nat) : Rat) - (n : Rat) / ((d : Rat) * 2 ^ k))
          * 2 ^ k := by
      field_simp
      ring
    rw [e1, abs_mul, abs_of_pos hp]
    calc _ ≤ 1 * (2 : Rat) ^ k := mul_le_mul_of_nonneg_right hr (le_of_lt hp)
      _ = 2 ^ k := one_mul _
  · obtain ⟨k, hk⟩ : ∃ k : Nat, s = -(k : Int) := ⟨(-s).toNat, by omega⟩
    subst hk
    have hr := round_half_even_near (n * 2 ^ k) d hd
    have hk : pow2 (-(k : Int)) = 1 / (2 : Rat) ^ k := by
      rw [pow2_eq, zpow_neg, zpow_natCast, one_div]
    simp only [neg_neg, Int.toNat_ofNat]
    rw [hk] at hp ⊢
    push_cast at hr
    have h2 : (0 : Rat) < 2 ^ k := by positivity
    have e1 : ((round_half_even (n * 2 ^ k) d : Nat) : Rat) * (1 / 2 ^ k) - (n : Rat) / (d : Rat)
        = (((round_half_even (n * 2 ^ k) d : Nat) : Rat) - (n : Rat) * 2 ^ k / (d : Rat))
          * (1 / 2 ^ k) := by
      field_simp
      ring
    rw [e1, abs_mul, abs_of_pos hp]
    calc _ ≤ 1 * (1 / (2 : Rat) ^ k) := mul_le_mul_of_nonneg_right hr (le_of_lt hp)
      _ = 1 / 2 ^ k := one_mul _

/-- Rounding to binary32 is defined below the overflow threshold and moves the
value by at most `2 ^ -22` of its magnitude or the subnormal unit. -/
theorem float_round_near (q : Rat) (h : ¬ (BINARY32_LIMIT ≤ q ∨ q ≤ -BINARY32_LIMIT)) :
    ∃ r, float_round q = some r ∧ |r - q| ≤ max (|q| / 4194304) (pow2 (-149)) := by
  unfold float_round
  rw [if_neg h]
  by_cases h0 : q = 0
  · rw [if_pos h0]
    refine ⟨0, rfl, ?_⟩
    rw [h0]
    simp only [sub_self, abs_zero, zero_div]
    exact le_max_of_le_right (le_of_lt (pow2_pos _))
  · rw [if_neg h0]
    have hden : 0 < q.den := q.den_pos
    have hnum : 0 < q.num.natAbs := Int.natAbs_pos.mpr (Rat.num_ne_zero.mpr h0)
    have hq : q = (q.num : Rat) / (q.den : Rat) := (Rat.num_div_den q).symm
    have hnear := binary32_of_pos_near q.num.natAbs q.den hden
    have hexp := binary32_exponent_le q.num.natAbs q.den hnum hden
    by_cases hpos : 0 < q
    · rw [if_pos hpos]
      refine ⟨_, rfl, ?_⟩
      have hn : ((q.num.natAbs : Nat) : Rat) = (q.num : Rat) := by
        have : 0 < q.num := Rat.num_pos.mpr hpos
        rw [← Int.cast_natCast, Int.natAbs_of_nonneg (le_of_lt this)]
      rw [hn, ← hq] at hnear hexp
      rw [abs_of_pos hpos]
      exact le_trans hnear hexp
    · rw [if_neg hpos]
      refine ⟨_, rfl, ?_⟩
      have hneg : q < 0 := lt_of_le_of_ne (not_lt.mp hpos) h0
      have hn : ((q.num.natAbs : Nat) : Rat) = -(q.num : Rat) := by
        have : q.num < 0 := Rat.num_neg.mpr hneg
        rw [← Int.cast_natCast, Int.ofNat_natAbs_of_nonpos (le_of_lt this)]
        push_cast
        ring
      rw [hn, neg_div, ← hq] at hnear hexp
      rw [abs_of_neg hneg]
      have e1 : -binary32_of_pos q.num.natAbs q.den - q
          = -(binary32_of_pos q.num.natAbs q.den - -q) := by ring
      rw [e1, abs_neg]
      exact le_trans hnear hexp

theorem pow2_subnormal_le : pow2 (-149) ≤ 1 / 4194304 := by
  rw [pow2_eq]
  have : (2 : Rat) ^ (-149 : Int) ≤ 2 ^ (-22 : Int) := zpow_le_zpow_right₀ (by norm_num) (by norm_num)
  calc (2 : Rat) ^ (-149 : Int) ≤ 2 ^ (-22 : Int) := this
    _ = 1 / 4194304 := by norm_num

/-- Rounding a value of magnitude at most `b` (far below the overflow
threshold) is defined; the result has magnitude at most `2 * b + 1`, and at
least `1 / 2` when the value has magnitude at least 1. -/
theorem float_round_bound (q b : Rat) (hq : |q| ≤ b) (hb : b ≤ 1267650600228229401496703205376) :
    ∃ r, float_round q = some r ∧ |r| ≤ 2 * b + 1 ∧ (1 ≤ |q| → 1 / 2 ≤ |r|) := by
  have hlim : ¬ (BINARY32_LIMIT ≤ q ∨ q ≤ -BINARY32_LIMIT) := by
    unfold BINARY32_LIMIT
    have := abs_le.mp hq
    rintro (h | h) <;> linarith
  obtain ⟨r, hr, hnear⟩ := float_round_near q hlim
  have h0 : 0 ≤ |q| := abs_nonneg q
  have hm : max (|q| / 4194304) (pow2 (-149)) ≤ |q| / 4194304 + 1 / 4194304 := by
    apply max_le
    · linarith
    · have := pow2_subnormal_le
      have : 0 ≤ |q| / 4194304 := by positivity
      linarith
  have h1 : |r - q| ≤ |q| / 4194304 + 1 / 4194304 := le_trans hnear hm
  refine ⟨r, hr, ?_, ?_⟩
  · have h2 : |r| ≤ |r - q| + |q| := by
      have := abs_add (r - q) q
      simpa using this
    linarith
  · intro hge
    have h2 : |q| ≤ |r - q| + |r| := by
      have := abs_add (q - r) r
      rw [abs_sub_comm q r] at this
      simpa using this
    linarith

/-! ## Lemmas on the quad arithmetic -/

theorem int_add_some (a b : Int) (h : int_range (a + b)) : int_add a b = some (a + b) := by
  unfold int_add
  rw [if_pos h]

theorem int_sub_some (a b : Int) (h : int_range (a - b)) : int_sub a b = some (a - b) := by
  unfold int_sub
  rw [if_pos h]

theorem int_add_inv (a b c : Int) (h : int_add a b = some c) : c = a + b ∧ int_range (a + b) := by
  unfold int_add at h
  split_ifs at h with hr
  simp only [Option.some.injEq] at h
  exact ⟨h.symm, hr⟩

theorem int_sub_inv (a b c : Int) (h : int_sub a b = some c) : c = a - b ∧ int_range (a - b) := by
  unfold int_sub at h
  split_ifs at h with hr
  simp only [Option.some.injEq] at h
  exact ⟨h.symm, hr⟩

theorem int_mul_inv (a b c : Int) (h : int_mul a b = some c) : c = a * b ∧ int_range (a * b) := by
  unfold int_mul at h
  split_ifs at h with hr
  simp only [Option.some.injEq] at h
  exact ⟨h.symm, hr⟩

theorem int_range_abs (i : Int) (h : int_range i) : |(i : Rat)| ≤ 2147483648 := by
  obtain ⟨h1, h2⟩ := h
  rw [abs_le]
  constructor
  · exact_mod_cast h1
  · exact_mod_cast le_of_lt h2

theorem float_div_bound (a b ba : Rat) (ha : |a| ≤ ba) (hb : 1 / 2 ≤ |b|)
    (hba : 0 ≤ ba) (hlim : 2 * ba ≤ 1267650600228229401496703205376) :
    ∃ r, float_div a b = some r ∧ |r| ≤ 4 * ba + 1 := by
  have hb0 : b ≠ 0 := by
    intro h0
    rw [h0, abs_zero] at hb
    linarith
  have hbpos : 0 < |b| := by linarith
  have hq : |a / b| ≤ 2 * ba := by
    rw [abs_div, div_le_iff₀ hbpos]
    calc |a| ≤ ba := ha
      _ = 2 * ba * (1 / 2) := by ring
      _ ≤ 2 * ba * |b| := mul_le_mul_of_nonneg_left hb (by linarith)
  obtain ⟨r, hr, hle, _⟩ := float_round_bound (a / b) (2 * ba) hq hlim
  refine ⟨r, ?_, by linarith⟩
  unfold float_div
  rw [if_neg hb0]
  exact hr

/-- The position expression is defined for every `int` pixel and every
non-zero `unsigned` dimension. -/
theorem quad_position_defined (p : Int) (dim : Nat) (hp : int_range p) (h1 : 1 ≤ dim)
    (h2 : dim < UINT_RANGE) : ∃ r, quad_position p dim = some r := by
  obtain ⟨fp, hfp, bp, _⟩ := float_round_bound (p : Rat) 2147483648 (int_range_abs p hp)
    (by norm_num)
  have hd1 : (1 : Rat) ≤ |(dim : Rat)| := by
    rw [abs_of_nonneg (by positivity)]
    exact_mod_cast h1
  have hd2 : |(dim : Rat)| ≤ 4294967296 := by
    rw [abs_of_nonneg (by positivity)]
    unfold UINT_RANGE at h2
    exact_mod_cast le_of_lt h2
  obtain ⟨fd, hfd, _, bd⟩ := float_round_bound (dim : Rat) 4294967296 hd2 (by norm_num)
  obtain ⟨t, ht, bt⟩ := float_div_bound fp fd (2 * 2147483648 + 1) bp (bd hd1) (by norm_num)
    (by norm_num)
  have hu0 : |2 * t| ≤ 2 * (4 * (2 * 2147483648 + 1) + 1) := by
    rw [abs_mul, abs_of_pos (by norm_num : (0 : Rat) < 2)]
    linarith
  obtain ⟨u, hu, bu, _⟩ := float_round_bound (2 * t) _ hu0 (by norm_num)
  have hx0 : |(-1 : Rat) + u| ≤ 1 + (2 * (2 * (4 * (2 * 2147483648 + 1) + 1)) + 1) := by
    calc |(-1 : Rat) + u| ≤ |(-1 : Rat)| + |u| := abs_add _ _
      _ ≤ 1 + (2 * (2 * (4 * (2 * 2147483648 + 1) + 1)) + 1) := by
        rw [abs_neg, abs_one]
        linarith
  obtain ⟨x, hx, _, _⟩ := float_round_bound ((-1 : Rat) + u) _ hx0 (by norm_num)
  refine ⟨x, ?_⟩
  unfold quad_position
  rw [hfp, hfd]
  simp only
  rw [ht]
  simp only
  unfold float_mul
  rw [hu]
  simp only
  unfold float_add
  exact hx

/-- The texture expression is defined for every `unsigned` texel and every
non-zero `int` atlas dimension. -/
theorem quad_texture_defined (t : Nat) (atlas : Int) (ht : t < UINT_RANGE) (ha : atlas ≠ 0)
    (hr : int_range atlas) : ∃ r, quad_texture t atlas = some r := by
  have ht2 : |(t : Rat)| ≤ 4294967296 := by
    rw [abs_of_nonneg (by positivity)]
    unfold UINT_RANGE at ht
    exact_mod_cast le_of_lt ht
  obtain ⟨ft, hft, bt, _⟩ := float_round_bound (t : Rat) 4294967296 ht2 (by norm_num)
  have ha1 : (1 : Rat) ≤ |(atlas : Rat)| := by
    have : (1 : Int) ≤ |atlas| := Int.one_le_abs ha
    exact_mod_cast this
  obtain ⟨fa, hfa, _, ba⟩ := float_round_bound (atlas : Rat) 2147483648 (int_range_abs atlas hr)
    (by norm_num)
  obtain ⟨r, hr2, _⟩ := float_div_bound ft fa (2 * 4294967296 + 1) bt (ba ha1) (by norm_num)
    (by norm_num)
  refine ⟨r, ?_⟩
  unfold quad_texture
  rw [hft, hfa]
  exact hr2

theorem quad_position_screen_coord (p : Int) (dim : Nat) :
    quad_position p dim = screen_coord p dim := by
  unfold quad_position screen_coord
  cases float_round (p : Rat) with
  | none => rfl
  | some fp =>
    cases float_round (dim : Rat) with
    | none => rfl
    | some fd =>
      simp only [Option.some_bind]
      cases float_div fp fd with
      | none => rfl
      | some t =>
        simp only [Option.some_bind]
        cases float_mul 2 t <;> rfl

theorem quad_texture_atlas_coord (t : Nat) (atlas : Int) :
    quad_texture t atlas = atlas_coord t atlas := by
  unfold quad_texture atlas_coord
  cases float_round (t : Rat) with
  | none => rfl
  | some ft =>
    cases float_round (atlas : Rat) <;> rfl

/-- The shape of a computed quad: the two `int` corner sums, the four position
floats, the four texture floats and the 24 floats in vertex order. -/
theorem glyph_quad_inv (vid : xplay_video) (g : font_glyph) (width height : Nat)
    (bx bq : Int) (q : List Rat) (h : glyph_quad vid g width height bx bq = some q) :
    ∃ x0 y0 x1 y1 tx0 ty0 tx1 ty1,
      int_range (bx + to_int (g.width + 1)) ∧ int_range (bq - to_int (g.height + 1)) ∧
      quad_position bx width = some x0 ∧ quad_position bq height = some y0 ∧
      quad_position (bx + to_int (g.width + 1)) width = some x1 ∧
      quad_position (bq - to_int (g.height + 1)) height = some y1 ∧
      quad_texture g.atlas_offset_x vid.font_atlas_width = some tx0 ∧
      quad_texture g.atlas_offset_y vid.font_atlas_height = some ty0 ∧
      quad_texture ((g.atlas_offset_x + to_unsigned (to_int (g.width + 1))) % UINT_RANGE)
        vid.font_atlas_width = some tx1 ∧
      quad_texture ((g.atlas_offset_y + to_unsigned (to_int (g.height + 1))) % UINT_RANGE)
        vid.font_atlas_height = some ty1 ∧
      q = [x0, y0, tx0, ty0,  x0, y1, tx0, ty1,  x1, y0, tx1, ty0,
           x0, y1, tx0, ty1,  x1, y1, tx1, ty1,  x1, y0, tx1, ty0] := by
  unfold glyph_quad at h
  simp only at h
  split at h
  · rename_i right top hr ht
    obtain ⟨rfl, hr1⟩ := int_add_inv _ _ _ hr
    obtain ⟨rfl, ht1⟩ := int_sub_inv _ _ _ ht
    split at h
    · rename_i x0 y0 x1 y1 hx0 hy0 hx1 hy1
      split at h
      · rename_i tx0 ty0 tx1 ty1 h1 h2 h3 h4
        simp only [Option.some.injEq] at h
        exact ⟨x0, y0, x1, y1, tx0, ty0, tx1, ty1, hr1, ht1, hx0, hy0, hx1, hy1, h1, h2, h3, h4,
          h.symm⟩
      · exact absurd h (by simp)
    · exact absurd h (by simp)
  · exact absurd h (by simp)

theorem glyph_quad_length (vid : xplay_video) (g : font_glyph) (width height : Nat)
    (bx bq : Int) (q : List Rat) (h : glyph_quad vid g width height bx bq = some q) :
    q.length = 24 := by
  obtain ⟨x0, y0, x1, y1, tx0, ty0, tx1, ty1, _, _, _, _, _, _, _, _, _, _, hq⟩ :=
    glyph_quad_inv _ _ _ _ _ _ _ h
  rw [hq]
  rfl

theorem glyph_quad_congr (vid vid1 : xplay_video) (g : font_glyph) (width height : Nat)
    (bx bq : Int) (hw : vid1.font_atlas_width = vid.font_atlas_width)
    (hh : vid1.font_atlas_height = vid.font_atlas_height) :
    glyph_quad vid1 g width height bx bq = glyph_quad vid g width height bx bq := by
  simp only [glyph_quad, hw, hh]

/-- The quad of a glyph is defined when its two corner sums are `int`s, its
atlas offsets are `unsigned` values and no dimension is zero. -/
theorem glyph_quad_defined (vid : xplay_video) (g : font_glyph) (width height : Nat)
    (bx bq : Int) (hd : text_dims_ok vid width height) (hx : int_range bx) (hy : int_range bq)
    (hr : int_range (bx + to_int (g.width + 1))) (ht : int_range (bq - to_int (g.height + 1)))
    (hox : g.atlas_offset_x < UINT_RANGE) (hoy : g.atlas_offset_y < UINT_RANGE) :
    ∃ q, glyph_quad vid g width height bx bq = some q := by
  obtain ⟨w1, w2, h1, h2, a1, a2, a3, a4⟩ := hd
  obtain ⟨x0, hx0⟩ := quad_position_defined bx width hx w1 w2
  obtain ⟨y0, hy0⟩ := quad_position_defined bq height hy h1 h2
  obtain ⟨x1, hx1⟩ := quad_position_defined _ width hr w1 w2
  obtain ⟨y1, hy1⟩ := quad_position_defined _ height ht h1 h2
  obtain ⟨tx0, e1⟩ := quad_texture_defined g.atlas_offset_x _ hox a1 a2
  obtain ⟨ty0, e2⟩ := quad_texture_defined g.atlas_offset_y _ hoy a3 a4
  obtain ⟨tx1, e3⟩ := quad_texture_defined
    ((g.atlas_offset_x + to_unsigned (to_int (g.width + 1))) % UINT_RANGE) _
    (Nat.mod_lt _ (by decide)) a1 a2
  obtain ⟨ty1, e4⟩ := quad_texture_defined
    ((g.atlas_offset_y + to_unsigned (to_int (g.height + 1))) % UINT_RANGE) _
    (Nat.mod_lt _ (by decide)) a3 a4
  unfold glyph_quad
  simp only
  rw [int_add_some _ _ hr, int_sub_some _ _ ht]
  simp only
  rw [hx0, hy0, hx1, hy1]
  simp only
  rw [e1, e2, e3, e4]
  exact ⟨_, rfl⟩

theorem quads_from_congr (vid vid1 : xplay_video) (width height : Nat) (gs : List font_glyph)
    (x y : Int) (hw : vid1.font_atlas_width = vid.font_atlas_width)
    (hh : vid1.font_atlas_height = vid.font_atlas_height) :
    quads_from vid1 width height gs x y = quads_from vid width height gs x y := by
  induction gs generalizing x y with
  | nil => rfl
  | cons g gs ih =>
    simp only [quads_from]
    rw [ih, glyph_quad_congr vid vid1 g width height _ _ hw hh]

theorem quads_from_cons (vid : xplay_video) (width height : Nat) (g : font_glyph)
    (gs : List font_glyph) (x y : Int) (q qs : List Rat)
    (hq : glyph_quad vid g width height (x + g.draw_offset_x) (y - g.draw_offset_y) = some q)
    (hqs : quads_from vid width height gs (x + g.advance_x) (y + g.advance_y) = some qs) :
    quads_from vid width height (g :: gs) x y = some (q ++ qs) := by
  simp only [quads_from]
  rw [hq, hqs]

theorem quads_from_cons_inv (vid : xplay_video) (width height : Nat) (g : font_glyph)
    (gs : List font_glyph) (x y : Int) (l : List Rat)
    (h : quads_from vid width height (g :: gs) x y = some l) :
    ∃ q qs,
      glyph_quad vid g width height (x + g.draw_offset_x) (y - g.draw_offset_y) = some q ∧
      quads_from vid width height gs (x + g.advance_x) (y + g.advance_y) = some qs ∧
      l = q ++ qs := by
  simp only [quads_from] at h
  split at h
  · rename_i q qs hq hqs
    simp only [Option.some.injEq] at h
    exact ⟨q, qs, hq, hqs, h.symm⟩
  · exact absurd h (by simp)

theorem quads_from_length (vid : xplay_video) (width height : Nat) (gs : List font_glyph)
    (x y : Int) (l : List Rat) (h : quads_from vid width height gs x y = some l) :
    l.length = 24 * gs.length := by
  induction gs generalizing x y l with
  | nil =>
    simp only [quads_from, Option.some.injEq] at h
    rw [← h]
    rfl
  | cons g gs ih =>
    obtain ⟨q, qs, hq, hqs, rfl⟩ := quads_from_cons_inv _ _ _ _ _ _ _ _ h
    rw [List.length_append, glyph_quad_length _ _ _ _ _ _ _ hq, ih _ _ _ hqs, List.length_cons]
    ring

/-- The quads of a list of glyphs in range are all defined. -/
theorem quads_from_defined (vid : xplay_video) (width height : Nat) (gs : List font_glyph)
    (x y : Int) (hd : text_dims_ok vid width height) (hr : glyphs_in_range gs x y) :
    ∃ l, quads_from vid width height gs x y = some l := by
  induction gs generalizing x y with
  | nil => exact ⟨[], rfl⟩
  | cons g gs ih =>
    obtain ⟨⟨r1, r2, _, _, r5, r6, r7, r8⟩, hrest⟩ := hr
    obtain ⟨q, hq⟩ := glyph_quad_defined vid g width height _ _ hd r1 r2 r5 r6 r7 r8
    obtain ⟨qs, hqs⟩ := ih _ _ hrest
    exact ⟨q ++ qs, quads_from_cons _ _ _ _ _ _ _ _ _ hq hqs⟩

/-! ## Lemmas on the glyph vertex block -/

theorem realloc_floats_length (buf : List Rat) (n : Int) (h : buf.length ≤ n.toNat) :
    (realloc_floats buf n).length = n.toNat := by
  unfold realloc_floats
  rw [List.length_append, List.length_take, List.length_replicate]
  omega

theorem realloc_floats_take (buf : List Rat) (n : Int) (k : Nat) (hk : k ≤ buf.length)
    (h : buf.length ≤ n.toNat) : (realloc_floats buf n).take k = buf.take k := by
  unfold realloc_floats
  rw [List.take_of_length_le h, List.take_append_of_le_length hk]

theorem only_text_changed_refl (vid : xplay_video) : only_text_changed vid vid := rfl

theorem only_text_changed_trans (a b c : xplay_video) (h1 : only_text_changed a b)
    (h2 : only_text_changed b c) : only_text_changed a c := by
  unfold only_text_changed at *
  cases a
  cases b
  cases c
  simp only [xplay_video.mk.injEq] at h1 h2 ⊢
  simp_all

theorem only_text_changed_atlas (vid vid1 : xplay_video) (h : only_text_changed vid vid1) :
    vid1.font_atlas_width = vid.font_atlas_width ∧
      vid1.font_atlas_height = vid.font_atlas_height := by
  unfold only_text_changed at h
  constructor
  · rw [h]
  · rw [h]

theorem only_text_changed_font (vid vid1 : xplay_video) (h : only_text_changed vid vid1) :
    vid1.font = vid.font ∧ vid1.font_atlas_tex = vid.font_atlas_tex := by
  unfold only_text_changed at h
  constructor
  · rw [h]
  · rw [h]

theorem only_text_changed_layers (vid vid1 : xplay_video) (h : only_text_changed vid vid1) :
    same_layers vid vid1 := by
  unfold only_text_changed at h
  unfold same_layers
  refine ⟨?_, ?_, ?_, ?_, ?_, ?_⟩ <;> rw [h]

theorem capacity_doubled_le (k : Nat) (h : (4096 : Int) * 2 ^ k * 2 < 2147483648) :
    (4096 : Int) * 2 ^ k * 2 ≤ 1073741824 := by
  by_contra hc
  have hk : 18 ≤ k := by
    by_contra hk
    have hle : k ≤ 17 := by omega
    have : (2 : Int) ^ k ≤ 2 ^ 17 := pow_le_pow_right₀ (by norm_num) hle
    norm_num at this
    omega
  have : (2 : Int) ^ 18 ≤ 2 ^ k := pow_le_pow_right₀ (by norm_num) hk
  norm_num at this
  omega

/-- A completed growth block: afterwards one more quad fits, the capacity
invariant holds, the capacity has not decreased and stays at most `2 ^ 30` if
it was, and the floats written so far are kept. -/
theorem grow_text_verts_inv (vid vid1 : xplay_video) (h : text_loop_ok vid)
    (hg : grow_text_verts vid = some vid1) :
    text_loop_ok vid1 ∧
      vid1.text_verts_size = vid.text_verts_size ∧
      vid1.text_verts_size + 24 ≤ vid1.text_verts_capacity ∧
      vid.text_verts_capacity ≤ vid1.text_verts_capacity ∧
      vid1.text_verts.take vid.text_verts_size.toNat
        = vid.text_verts.take vid.text_verts_size.toNat ∧
      only_text_changed vid vid1 ∧
      (vid.text_verts_capacity ≤ 1073741824 → vid1.text_verts_capacity ≤ 1073741824) := by
  obtain ⟨⟨hcap, hlen⟩, h0, hle⟩ := h
  unfold grow_text_verts at hg
  split at hg
  · exact absurd hg (by simp)
  · rename_i needed hn
    obtain ⟨rfl, _⟩ := int_add_inv _ _ _ hn
    by_cases hgt : vid.text_verts_size + 24 > vid.text_verts_capacity
    · rw [if_pos hgt] at hg
      rcases hcap with hz | ⟨k, hk⟩
      · have hlen0 : vid.text_verts.length = 0 := by rw [hlen, hz]; rfl
        have hnil : vid.text_verts = [] := List.eq_nil_of_length_eq_zero hlen0
        have hs0 : vid.text_verts_size = 0 := by omega
        rw [if_neg (by rw [hz]; simp)] at hg
        simp only [Option.some.injEq] at hg
        subst hg
        refine ⟨⟨⟨Or.inr ⟨0, by norm_num⟩, ?_⟩, h0, by simp only; omega⟩, rfl,
          by simp only; omega, by simp only; omega, ?_, rfl, fun _ => by simp only; omega⟩
        · simp only
          rw [realloc_floats_length _ _ (by rw [hlen0]; omega)]
        · simp only
          rw [hs0, hnil]
          rfl
      · have hpos : (0 : Int) < 2 ^ k := by positivity
        have hne : vid.text_verts_capacity ≠ 0 := by omega
        rw [if_pos hne] at hg
        split at hg
        · exact absurd hg (by simp)
        · rename_i capacity hc
          obtain ⟨rfl, hcr⟩ := int_mul_inv _ _ _ hc
          simp only [Option.some.injEq] at hg
          subst hg
          have hl2 : vid.text_verts.length ≤ (vid.text_verts_capacity * 2).toNat := by omega
          refine ⟨⟨⟨Or.inr ⟨k + 1, ?_⟩, ?_⟩, h0, by simp only; omega⟩, rfl,
            by simp only; omega, by simp only; omega, ?_, rfl, fun _ => ?_⟩
          · simp only
            rw [hk, pow_succ]
            ring
          · simp only
            rw [realloc_floats_length _ _ hl2]
          · simp only
            exact realloc_floats_take _ _ _ (by omega) hl2
          · simp only
            rw [hk]
            apply capacity_doubled_le
            rw [← hk]
            exact hcr.2
    · rw [if_neg hgt] at hg
      simp only [Option.some.injEq] at hg
      subst hg
      exact ⟨⟨⟨hcap, hlen⟩, h0, hle⟩, rfl, by omega, le_refl _, rfl, rfl, fun hb => hb⟩

/-- The growth block is defined when the length after the next quad is at most
`2 ^ 30`. -/
theorem grow_text_verts_defined (vid : xplay_video) (h : text_loop_ok vid)
    (hs : vid.text_verts_size + 24 ≤ 1073741824) : ∃ vid1, grow_text_verts vid = some vid1 := by
  obtain ⟨_, h0, _⟩ := h
  unfold grow_text_verts
  rw [int_add_some _ _ ⟨by omega, by omega⟩]
  simp only
  split_ifs with hgt hne
  · unfold int_mul
    rw [if_pos ⟨by omega, by omega⟩]
    exact ⟨_, rfl⟩
  · exact ⟨_, rfl⟩
  · exact ⟨_, rfl⟩

/-- The growth block is undefined when the block is full at `2 ^ 30` floats. -/
theorem grow_text_verts_overflow (vid : xplay_video)
    (hc : vid.text_verts_capacity = 1073741824)
    (hs : vid.text_verts_size + 24 > 1073741824) : grow_text_verts vid = none := by
  unfold grow_text_verts
  split
  · rfl
  · rename_i needed hn
    obtain ⟨rfl, _⟩ := int_add_inv _ _ _ hn
    rw [if_pos (by omega)]
    have hne : vid.text_verts_capacity ≠ 0 := by omega
    simp only [hne, ne_eq, not_false_eq_true, if_true]
    unfold int_mul
    rw [if_neg (by unfold int_range; omega)]

/-- The length that a completed growth block leaves, plus 24, is an `int`. -/
theorem grow_text_verts_range (vid vid1 : xplay_video) (hg : grow_text_verts vid = some vid1) :
    int_range (vid1.text_verts_size + 24) := by
  unfold grow_text_verts at hg
  split at hg
  · exact absurd hg (by simp)
  · rename_i needed hn
    obtain ⟨rfl, hr⟩ := int_add_inv _ _ _ hn
    by_cases hgt : vid.text_verts_size + 24 > vid.text_verts_capacity
    · rw [if_pos hgt] at hg
      split at hg
      · exact absurd hg (by simp)
      · simp only [Option.some.injEq] at hg
        subst hg
        exact hr
    · rw [if_neg hgt] at hg
      simp only [Option.some.injEq] at hg
      subst hg
      exact hr

theorem store_quad_result (vid : xplay_video) (q : List Rat)
    (hin : 0 ≤ vid.text_verts_size ∧
      vid.text_verts_size.toNat + q.length ≤ vid.text_verts.length)
    (hr : int_range (vid.text_verts_size + 24)) :
    store_quad vid q =
      some { vid with
        text_verts := vid.text_verts.take vid.text_verts_size.toNat ++ q ++
          vid.text_verts.drop (vid.text_verts_size.toNat + q.length),
        text_verts_size := vid.text_verts_size + 24 } := by
  unfold store_quad write_floats
  rw [if_pos hin, int_add_some _ _ hr]

/-- The store of one quad after the growth block: it stays inside the block,
appends the quad right after the floats written so far and keeps the block
size and capacity. -/
theorem store_quad_ok (vid : xplay_video) (q : List Rat) (hq : q.length = 24)
    (hcap : text_capacity_ok vid) (h0 : 0 ≤ vid.text_verts_size)
    (hfit : vid.text_verts_size + 24 ≤ vid.text_verts_capacity)
    (hr : int_range (vid.text_verts_size + 24)) :
    ∃ vid1, store_quad vid q = some vid1 ∧ text_loop_ok vid1 ∧
      vid1.text_verts_size = vid.text_verts_size + 24 ∧
      vid1.text_verts_capacity = vid.text_verts_capacity ∧
      vid1.text_verts.take vid1.text_verts_size.toNat
        = vid.text_verts.take vid.text_verts_size.toNat ++ q ∧
      only_text_changed vid vid1 := by
  obtain ⟨hc, hlen⟩ := hcap
  have hin : 0 ≤ vid.text_verts_size ∧
      vid.text_verts_size.toNat + q.length ≤ vid.text_verts.length := by
    refine ⟨h0, ?_⟩
    rw [hq, hlen]
    omega
  refine ⟨_, store_quad_result vid q hin hr, ?_, rfl, rfl, ?_, rfl⟩
  · unfold text_loop_ok text_capacity_ok
    simp only
    refine ⟨⟨hc, ?_⟩, by omega, by omega⟩
    simp only [List.length_append, List.length_take, List.length_drop]
    omega
  · simp only
    have htl : (List.take vid.text_verts_size.toNat vid.text_verts ++ q).length
        = (vid.text_verts_size + 24).toNat := by
      rw [List.length_append, List.length_take, hq]
      omega
    rw [List.take_left' htl]

theorem store_quad_in_bounds (vid vid1 : xplay_video) (q : List Rat) (hq : q.length = 24)
    (hcap : text_capacity_ok vid) (h : store_quad vid q = some vid1) :
    0 ≤ vid.text_verts_size ∧ vid.text_verts_size + 24 ≤ vid.text_verts_capacity := by
  obtain ⟨hc, hlen⟩ := hcap
  unfold store_quad write_floats at h
  by_cases hin : 0 ≤ vid.text_verts_size ∧
      vid.text_verts_size.toNat + q.length ≤ vid.text_verts.length
  · rw [hq, hlen] at hin
    omega
  · rw [if_neg hin] at h
    exact absurd h (by simp)

theorem known_glyphs_zero (font : font_renderer) (rest : List Nat) :
    known_glyphs font (0 :: rest) = [] := by
  simp [known_glyphs]

theorem known_glyphs_unknown (font : font_renderer) (ch : Nat) (rest : List Nat)
    (h0 : ch ≠ 0) (hg : font.get_glyph (ch % 256) = none) :
    known_glyphs font (ch :: rest) = known_glyphs font rest := by
  simp [known_glyphs, h0, hg]

theorem known_glyphs_known (font : font_renderer) (ch : Nat) (rest : List Nat) (g : font_glyph)
    (h0 : ch ≠ 0) (hg : font.get_glyph (ch % 256) = some g) :
    known_glyphs font (ch :: rest) = g :: known_glyphs font rest := by
  simp [known_glyphs, h0, hg]

/-- One completed pass of the loop body for a known glyph: the four pen sums
are `int`s, the quad is computed at the glyph origin, the block is grown, the
quad stored and the loop goes on from the advanced pen. -/
theorem layout_step_inv (font : font_renderer) (width height : Nat) (ch : Nat)
    (rest : List Nat) (x y : Int) (vid vid1 : xplay_video) (g : font_glyph)
    (h0 : ch ≠ 0) (hg : font.get_glyph (ch % 256) = some g)
    (h : layout_glyphs font width height (ch :: rest) x y vid = some vid1) :
    ∃ q v1 v2,
      (int_range (x + g.draw_offset_x) ∧ int_range (y - g.draw_offset_y) ∧
        int_range (x + g.advance_x) ∧ int_range (y + g.advance_y)) ∧
      glyph_quad vid g width height (x + g.draw_offset_x) (y - g.draw_offset_y) = some q ∧
      grow_text_verts vid = some v1 ∧ store_quad v1 q = some v2 ∧
      layout_glyphs font width height rest (x + g.advance_x) (y + g.advance_y) v2
        = some vid1 := by
  simp only [layout_glyphs] at h
  rw [if_neg h0, hg] at h
  simp only at h
  split at h
  · rename_i base_x base_y next_x next_y e1 e2 e3 e4
    obtain ⟨rfl, r1⟩ := int_add_inv _ _ _ e1
    obtain ⟨rfl, r2⟩ := int_sub_inv _ _ _ e2
    obtain ⟨rfl, r3⟩ := int_add_inv _ _ _ e3
    obtain ⟨rfl, r4⟩ := int_add_inv _ _ _ e4
    split at h
    · exact absurd h (by simp)
    · rename_i q hq
      split at h
      · exact absurd h (by simp)
      · rename_i v1 hv1
        split at h
        · exact absurd h (by simp)
        · rename_i v2 hv2
          exact ⟨q, v1, v2, ⟨r1, r2, r3, r4⟩, hq, hv1, hv2, h⟩
  · exact absurd h (by simp)

theorem layout_step (font : font_renderer) (width height : Nat) (ch : Nat)
    (rest : List Nat) (x y : Int) (vid v1 v2 : xplay_video) (g : font_glyph) (q : List Rat)
    (h0 : ch ≠ 0) (hg : font.get_glyph (ch % 256) = some g)
    (r1 : int_range (x + g.draw_offset_x)) (r2 : int_range (y - g.draw_offset_y))
    (r3 : int_range (x + g.advance_x)) (r4 : int_range (y + g.advance_y))
    (hq : glyph_quad vid g width height (x + g.draw_offset_x) (y - g.draw_offset_y) = some q)
    (hv1 : grow_text_verts vid = some v1) (hv2 : store_quad v1 q = some v2) :
    layout_glyphs font width height (ch :: rest) x y vid =
      layout_glyphs font width height rest (x + g.advance_x) (y + g.advance_y) v2 := by
  simp only [layout_glyphs]
  rw [if_neg h0, hg]
  simp only
  rw [int_add_some _ _ r1, int_sub_some _ _ r2, int_add_some _ _ r3, int_add_some _ _ r4]
  simp only
  rw [hq]
  simp only
  rw [hv1]
  simp only
  rw [hv2]

/-- A completed glyph loop from a state satisfying the loop invariant: the
invariant holds afterwards, 24 floats were added per known glyph, the quads
stand in order after the floats written before, the capacity has not decreased
(and stays at most `2 ^ 30` if it was) and nothing but the glyph vertex block
has changed. -/
theorem layout_glyphs_inv (font : font_renderer) (width height : Nat) (msg : List Nat)
    (x y : Int) (vid vid1 : xplay_video) (hok : text_loop_ok vid)
    (h : layout_glyphs font width height msg x y vid = some vid1) :
    text_loop_ok vid1 ∧
      vid1.text_verts_size = vid.text_verts_size + 24 * ((known_glyphs font msg).length : Int) ∧
      vid.text_verts_capacity ≤ vid1.text_verts_capacity ∧
      (∃ l, quads_from vid width height (known_glyphs font msg) x y = some l ∧
        vid1.text_verts.take vid1.text_verts_size.toNat
          = vid.text_verts.take vid.text_verts_size.toNat ++ l) ∧
      only_text_changed vid vid1 ∧
      (vid.text_verts_capacity ≤ 1073741824 → vid1.text_verts_capacity ≤ 1073741824) := by
  induction msg generalizing x y vid with
  | nil =>
    simp only [layout_glyphs, Option.some.injEq] at h
    subst h
    refine ⟨hok, ?_, le_refl _, ⟨[], ?_, ?_⟩, rfl, fun hb => hb⟩
    · simp [known_glyphs]
    · simp [known_glyphs, quads_from]
    · simp
  | cons ch rest ih =>
    by_cases h0 : ch = 0
    · simp only [layout_glyphs] at h
      rw [if_pos h0] at h
      simp only [Option.some.injEq] at h
      subst h
      rw [h0, known_glyphs_zero]
      refine ⟨hok, ?_, le_refl _, ⟨[], rfl, ?_⟩, rfl, fun hb => hb⟩
      · simp
      · simp
    · cases hg : font.get_glyph (ch % 256) with
      | none =>
        simp only [layout_glyphs] at h
        rw [if_neg h0, hg] at h
        simp only at h
        rw [known_glyphs_unknown font ch rest h0 hg]
        exact ih x y vid hok h
      | some g =>
        obtain ⟨q, v1, v2, hr, hq, hv1, hv2, hl⟩ :=
          layout_step_inv font width height ch rest x y vid vid1 g h0 hg h
        rw [known_glyphs_known font ch rest g h0 hg]
        obtain ⟨g1, g2, g3, g4, g5, g6, g7⟩ := grow_text_verts_inv vid v1 hok hv1
        have hq24 := glyph_quad_length _ _ _ _ _ _ _ hq
        obtain ⟨w, hw, s1, s2, s3, s4, s5⟩ := store_quad_ok v1 q hq24 g1.1 g1.2.1 g3
          (grow_text_verts_range vid v1 hv1)
        rw [hv2] at hw
        simp only [Option.some.injEq] at hw
        subst hw
        obtain ⟨l1, l2, l3, ⟨l, hl4, l4⟩, l6, l7⟩ := ih _ _ v2 s1 hl
        have hvv : only_text_changed vid v2 := only_text_changed_trans _ _ _ g6 s5
        obtain ⟨aw, ah⟩ := only_text_changed_atlas vid v2 hvv
        rw [quads_from_congr vid v2 width height _ _ _ aw ah] at hl4
        refine ⟨l1, ?_, by omega, ⟨q ++ l, quads_from_cons _ _ _ _ _ _ _ _ _ hq hl4, ?_⟩,
          only_text_changed_trans _ _ _ hvv l6, fun hb => l7 (by rw [s3]; exact g7 hb)⟩
        · rw [l2, s2, g2, List.length_cons]
          push_cast
          ring
        · rw [l4, s4, g2, g5, List.append_assoc]

/-- The glyph loop is defined when the dimensions are non-zero, the pen
arithmetic of the known glyphs stays in range and the length it reaches is at
most `2 ^ 30`. -/
theorem layout_glyphs_defined (font : font_renderer) (width height : Nat) (msg : List Nat)
    (x y : Int) (vid : xplay_video) (hok : text_loop_ok vid)
    (hd : text_dims_ok vid width height)
    (hr : glyphs_in_range (known_glyphs font msg) x y)
    (hs : vid.text_verts_size + 24 * ((known_glyphs font msg).length : Int) ≤ 1073741824) :
    ∃ vid1, layout_glyphs font width height msg x y vid = some vid1 := by
  induction msg generalizing x y vid with
  | nil => exact ⟨vid, rfl⟩
  | cons ch rest ih =>
    by_cases h0 : ch = 0
    · refine ⟨vid, ?_⟩
      simp only [layout_glyphs]
      rw [if_pos h0]
    · cases hg : font.get_glyph (ch % 256) with
      | none =>
        rw [known_glyphs_unknown font ch rest h0 hg] at hr hs
        obtain ⟨vid1, h1⟩ := ih x y vid hok hd hr hs
        refine ⟨vid1, ?_⟩
        simp only [layout_glyphs]
        rw [if_neg h0, hg]
        exact h1
      | some g =>
        rw [known_glyphs_known font ch rest g h0 hg] at hr hs
        obtain ⟨⟨r1, r2, r3, r4, r5, r6, r7, r8⟩, hrest⟩ := hr
        rw [List.length_cons] at hs
        push_cast at hs
        have hn0 : (0 : Int) ≤ ((known_glyphs font rest).length : Int) := Int.natCast_nonneg _
        obtain ⟨q, hq⟩ := glyph_quad_defined vid g width height _ _ hd r1 r2 r5 r6 r7 r8
        obtain ⟨v1, hv1⟩ := grow_text_verts_defined vid hok (by omega)
        obtain ⟨g1, g2, g3, g4, g5, g6, g7⟩ := grow_text_verts_inv vid v1 hok hv1
        obtain ⟨v2, hv2, s1, s2, s3, s4, s5⟩ := store_quad_ok v1 q
          (glyph_quad_length _ _ _ _ _ _ _ hq) g1.1 g1.2.1 g3
          (grow_text_verts_range vid v1 hv1)
        have hvv : only_text_changed vid v2 := only_text_changed_trans _ _ _ g6 s5
        obtain ⟨aw, ah⟩ := only_text_changed_atlas vid v2 hvv
        have hd2 : text_dims_ok v2 width height := by
          unfold text_dims_ok at hd ⊢
          rw [aw, ah]
          exact hd
        obtain ⟨vid1, h1⟩ := ih _ _ v2 s1 hd2 hrest (by rw [s2, g2]; omega)
        refine ⟨vid1, ?_⟩
        rw [layout_step font width height ch rest x y vid v1 v2 g q h0 hg r1 r2 r3 r4 hq hv1 hv2]
        exact h1

/-- The glyph loop is undefined when the known glyphs need more than `2 ^ 30`
floats: the capacity cannot be doubled beyond `2 ^ 30` in an `int`. -/
theorem layout_glyphs_overflow (font : font_renderer) (width height : Nat) (msg : List Nat)
    (x y : Int) (vid : xplay_video) (hok : text_loop_ok vid)
    (hc : vid.text_verts_capacity ≤ 1073741824)
    (hs : vid.text_verts_size + 24 * ((known_glyphs font msg).length : Int) > 1073741824) :
    layout_glyphs font width height msg x y vid = none := by
  cases h : layout_glyphs font width height msg x y vid with
  | none => rfl
  | some vid1 =>
    obtain ⟨l1, l2, _, _, _, l7⟩ := layout_glyphs_inv font width height msg x y vid vid1 hok h
    have := l7 hc
    have := l1.2.2
    omega

theorem maybe_init_font_texture_text (vid : xplay_video) (font : font_renderer) (gen : Nat) :
    same_text vid (xplay_maybe_init_font_texture vid font gen).1 ∧
      (xplay_maybe_init_font_texture vid font gen).1.font = vid.font ∧
      (xplay_maybe_init_font_texture vid font gen).2.1.get_glyph = font.get_glyph := by
  unfold xplay_maybe_init_font_texture same_text
  simp only
  split_ifs <;> exact ⟨⟨rfl, rfl, rfl⟩, rfl, rfl⟩

theorem known_glyphs_congr (font font1 : font_renderer) (msg : List Nat)
    (h : font1.get_glyph = font.get_glyph) : known_glyphs font1 msg = known_glyphs font msg := by
  unfold known_glyphs
  rw [h]

theorem maybe_init_font_texture_draws (vid : xplay_video) (font : font_renderer) (gen : Nat) :
    text_draws (xplay_maybe_init_font_texture vid font gen).2.2 = [] := by
  unfold xplay_maybe_init_font_texture xplay_init_texture
  simp only
  split_ifs <;> rfl

/-- The texel size uniforms are defined for non-zero `int` atlas dimensions. -/
theorem atlas_texel_defined (vid : xplay_video) (hw : vid.font_atlas_width ≠ 0)
    (hwr : int_range vid.font_atlas_width) (hh : vid.font_atlas_height ≠ 0)
    (hhr : int_range vid.font_atlas_height) : ∃ p, atlas_texel vid = some p := by
  have one_le (i : Int) (hi : i ≠ 0) : (1 : Rat) ≤ |(i : Rat)| := by
    have : (1 : Int) ≤ |i| := Int.one_le_abs hi
    exact_mod_cast this
  obtain ⟨fw, hfw, _, bw⟩ := float_round_bound (vid.font_atlas_width : Rat) 2147483648
    (int_range_abs _ hwr) (by norm_num)
  obtain ⟨fh, hfh, _, bh⟩ := float_round_bound (vid.font_atlas_height : Rat) 2147483648
    (int_range_abs _ hhr) (by norm_num)
  obtain ⟨pw, hpw, _⟩ := float_div_bound 1 fw 1 (by norm_num) (bw (one_le _ hw)) (by norm_num)
    (by norm_num)
  obtain ⟨ph, hph, _⟩ := float_div_bound 1 fh 1 (by norm_num) (bh (one_le _ hh)) (by norm_num)
    (by norm_num)
  unfold atlas_texel
  rw [hfw, hfh]
  simp only
  rw [hpw, hph]
  exact ⟨_, rfl⟩

/-- The three ways `xplay_render_msg` completes: without a font nothing
happens; without an atlas texture only the atlas refresh happens; otherwise
both origins convert to `int`, the glyph loop runs from length 0, the texel size
is computed and the draw is issued. -/
theorem render_msg_cases (vid : xplay_video) (font : font_renderer) (gen : Nat)
    (msg : List Nat) (width height : Nat) (px py : Rat) (v : xplay_video) (f : font_renderer)
    (c : List gl_call)
    (h : xplay_render_msg vid font gen msg width height px py = some (v, f, c)) :
    (vid.font = false ∧ v = vid ∧ c = []) ∨
    (vid.font = true ∧ (xplay_maybe_init_font_texture vid font gen).1.font_atlas_tex = 0 ∧
      v = (xplay_maybe_init_font_texture vid font gen).1 ∧
      c = (xplay_maybe_init_font_texture vid font gen).2.2) ∨
    (vid.font = true ∧ (xplay_maybe_init_font_texture vid font gen).1.font_atlas_tex ≠ 0 ∧
      ∃ x0 y0 pw ph, msg_origin px width = some x0 ∧ msg_origin py height = some y0 ∧
        layout_glyphs (xplay_maybe_init_font_texture vid font gen).2.1 width height msg x0 y0
          { (xplay_maybe_init_font_texture vid font gen).1 with text_verts_size := 0 } = some v ∧
        atlas_texel v = some (pw, ph) ∧
        c = (xplay_maybe_init_font_texture vid font gen).2.2 ++
          [gl_call.glUseProgram v.font_program,
           gl_call.glVertexAttribPointer v.font_pos_loc 2 4 v.text_verts,
           gl_call.glVertexAttribPointer v.font_tex_loc 2 4 (v.text_verts.drop 2),
           gl_call.glEnableVertexAttribArray v.font_pos_loc,
           gl_call.glEnableVertexAttribArray v.font_tex_loc,
           gl_call.glBindTexture v.font_atlas_tex,
           gl_call.glUniform1i v.font_sampler_loc 0,
           gl_call.glUniform3f v.font_color_loc v.font_r v.font_g v.font_b,
           gl_call.glUniform2f v.font_px_loc pw ph,
           gl_call.glDrawArrays 0 (Int.tdiv v.text_verts_size 4)]) := by
  unfold xplay_render_msg at h
  by_cases hfont : vid.font = true
  · simp only [hfont, Bool.not_true, Bool.false_eq_true, if_false] at h
    generalize xplay_maybe_init_font_texture vid font gen = p at h ⊢
    obtain ⟨vid1, font1, c1⟩ := p
    simp only at h ⊢
    by_cases hatlas : vid1.font_atlas_tex = 0
    · rw [if_pos hatlas] at h
      simp only [Option.some.injEq, Prod.mk.injEq] at h
      obtain ⟨rfl, _, rfl⟩ := h
      exact Or.inr (Or.inl ⟨hfont, hatlas, rfl, rfl⟩)
    · rw [if_neg hatlas] at h
      split at h
      · rename_i x0 y0 hx hy
        split at h
        · exact absurd h (by simp)
        · rename_i vid2 hl
          split at h
          · exact absurd h (by simp)
          · rename_i pw ph ht
            simp only [Option.some.injEq, Prod.mk.injEq] at h
            obtain ⟨rfl, _, rfl⟩ := h
            exact Or.inr (Or.inr ⟨hfont, hatlas, x0, y0, pw, ph, hx, hy, hl, ht, rfl⟩)
      · exact absurd h (by simp)
  · have hf : vid.font = false := by
      cases hv : vid.font
      · rfl
      · exact absurd hv hfont
    simp only [hf, Bool.not_false, if_true, Option.some.injEq, Prod.mk.injEq] at h
    obtain ⟨rfl, _, rfl⟩ := h
    exact Or.inl ⟨hf, rfl, rfl⟩

/-- The draw path of `xplay_render_msg`, given the results of its steps. -/
theorem render_msg_draw (vid : xplay_video) (font : font_renderer) (gen : Nat)
    (msg : List Nat) (width height : Nat) (px py : Rat) (x0 y0 : Int) (v : xplay_video)
    (pw ph : Rat) (hfont : vid.font = true)
    (hatlas : (xplay_maybe_init_font_texture vid font gen).1.font_atlas_tex ≠ 0)
    (hx : msg_origin px width = some x0) (hy : msg_origin py height = some y0)
    (hl : layout_glyphs (xplay_maybe_init_font_texture vid font gen).2.1 width height msg x0 y0
      { (xplay_maybe_init_font_texture vid font gen).1 with text_verts_size := 0 } = some v)
    (ht : atlas_texel v = some (pw, ph)) :
    xplay_render_msg vid font gen msg width height px py =
      some (v, (xplay_maybe_init_font_texture vid font gen).2.1,
        (xplay_maybe_init_font_texture vid font gen).2.2 ++
          [gl_call.glUseProgram v.font_program,
           gl_call.glVertexAttribPointer v.font_pos_loc 2 4 v.text_verts,
           gl_call.glVertexAttribPointer v.font_tex_loc 2 4 (v.text_verts.drop 2),
           gl_call.glEnableVertexAttribArray v.font_pos_loc,
           gl_call.glEnableVertexAttribArray v.font_tex_loc,
           gl_call.glBindTexture v.font_atlas_tex,
           gl_call.glUniform1i v.font_sampler_loc 0,
           gl_call.glUniform3f v.font_color_loc v.font_r v.font_g v.font_b,
           gl_call.glUniform2f v.font_px_loc pw ph,
           gl_call.glDrawArrays 0 (Int.tdiv v.text_verts_size 4)]) := by
  unfold xplay_render_msg
  simp only [hfont, Bool.not_true, Bool.false_eq_true, if_false]
  generalize xplay_maybe_init_font_texture vid font gen = p at hatlas hl ⊢
  obtain ⟨vid1, font1, c1⟩ := p
  simp only at hatlas hl ⊢
  rw [if_neg hatlas, hx, hy]
  simp only
  rw [hl]
  simp only
  rw [ht]

theorem grow_text_verts_changed (vid vid1 : xplay_video)
    (h : grow_text_verts vid = some vid1) : only_text_changed vid vid1 := by
  unfold grow_text_verts at h
  split at h
  · exact absurd h (by simp)
  · split_ifs at h
    · split at h
      · exact absurd h (by simp)
      · simp only [Option.some.injEq] at h
        subst h
        rfl
    · split at h
      · exact absurd h (by simp)
      · simp only [Option.some.injEq] at h
        subst h
        rfl
    · simp only [Option.some.injEq] at h
      subst h
      rfl

theorem store_quad_changed (vid vid1 : xplay_video) (q : List Rat)
    (h : store_quad vid q = some vid1) : only_text_changed vid vid1 := by
  unfold store_quad at h
  split at h
  · simp only [Option.some.injEq] at h
    subst h
    rfl
  · exact absurd h (by simp)

/-- A completed glyph loop changes nothing but the glyph vertex block. -/
theorem layout_glyphs_changed (font : font_renderer) (width height : Nat) (msg : List Nat)
    (x y : Int) (vid vid1 : xplay_video)
    (h : layout_glyphs font width height msg x y vid = some vid1) :
    only_text_changed vid vid1 := by
  induction msg generalizing x y vid with
  | nil =>
    simp only [layout_glyphs, Option.some.injEq] at h
    subst h
    rfl
  | cons ch rest ih =>
    by_cases h0 : ch = 0
    · simp only [layout_glyphs] at h
      rw [if_pos h0] at h
      simp only [Option.some.injEq] at h
      subst h
      rfl
    · cases hg : font.get_glyph (ch % 256) with
      | none =>
        simp only [layout_glyphs] at h
        rw [if_neg h0, hg] at h
        exact ih x y vid h
      | some g =>
        obtain ⟨q, v1, v2, _, _, hv1, hv2, hl⟩ :=
          layout_step_inv font width height ch rest x y vid vid1 g h0 hg h
        exact only_text_changed_trans _ _ _
          (only_text_changed_trans _ _ _ (grow_text_verts_changed _ _ hv1)
            (store_quad_changed _ _ _ hv2)) (ih _ _ _ hl)

theorem layout_glyphs_layers (font : font_renderer) (width height : Nat) (msg : List Nat)
    (x y : Int) (vid vid1 : xplay_video)
    (h : layout_glyphs font width height msg x y vid = some vid1) : same_layers vid vid1 :=
  only_text_changed_layers _ _ (layout_glyphs_changed _ _ _ _ _ _ _ _ h)

theorem render_msg_layers (vid : xplay_video) (font : font_renderer) (gen : Nat) (msg : List Nat)
    (width height : Nat) (px py : Rat) (vid1 : xplay_video) (font1 : font_renderer)
    (calls : List gl_call)
    (h : xplay_render_msg vid font gen msg width height px py = some (vid1, font1, calls)) :
    same_layers vid vid1 := by
  have hm := maybe_init_font_texture_layers vid font gen
  rcases render_msg_cases _ _ _ _ _ _ _ _ _ _ _ h with
    ⟨_, rfl, _⟩ | ⟨_, _, rfl, _⟩ | ⟨_, _, x0, y0, pw, ph, _, _, hl, _, _⟩
  · exact same_layers_refl _
  · exact hm
  · have h2 := layout_glyphs_layers _ _ _ _ _ _ _ _ hl
    exact same_layers_trans _ _ _ (same_layers_trans _ _ _ hm ⟨rfl, rfl, rfl, rfl, rfl, rfl⟩) h2



/-- Decomposition of a completed frame call with a non-null buffer into its
stages: slot lookup at the rotated index, upload, program selection, base draw,
menu section, text section. -/
theorem frame_some_inv (vid : xplay_video) (mem : Nat → Nat) (width height pitch : Nat)
    (msg : Option (List Nat)) (vi : video_frame_info) (st : settings_t) (env : frame_env)
    (r : frame_result)
    (h : xplay_gfx_frame vid (some mem) width height pitch msg vi st env = some r) :
    ∃ tex tex1 c_blit prog tex2 c_draw vid4 c_menu c_text,
      slot_get vid.frame_tex (Int.tmod (vid.frame_tex_index + 1) XPLAY_FRAMEBUF_COUNT) = some tex ∧
      xplay_blit_framebuf tex mem width height pitch (frame_format vid.frame_rgb32 vi.use_rgba)
        = some (tex1, c_blit) ∧
      xplay_get_framebuf_program
          { vid with
            frame_tex_index := Int.tmod (vid.frame_tex_index + 1) XPLAY_FRAMEBUF_COUNT,
            frame_tex := slot_set vid.frame_tex
              (Int.tmod (vid.frame_tex_index + 1) XPLAY_FRAMEBUF_COUNT) tex1 }
          vid.frame_rgb32 (to_int width) (to_int height)
          (st.video_scale_integer && st.video_notch_write_over_enable) = some prog ∧
      xplay_draw_framebuf prog tex1 st.video_scale_integer 1 = some (tex2, c_draw) ∧
      draw_menu
          { vid with
            frame_tex_index := Int.tmod (vid.frame_tex_index + 1) XPLAY_FRAMEBUF_COUNT,
            frame_tex := slot_set (slot_set vid.frame_tex
              (Int.tmod (vid.frame_tex_index + 1) XPLAY_FRAMEBUF_COUNT) tex1)
              (Int.tmod (vid.frame_tex_index + 1) XPLAY_FRAMEBUF_COUNT) tex2 }
          st.video_scale_integer vi.menu_is_alive env = some (vid4, c_menu) ∧
      same_layers vid4 r.vid ∧
      r.ret = true ∧
      r.calls = [gl_call.glClear] ++ c_blit ++ c_draw ++ c_menu ++ c_text ++
        (if r.vid.has_swap_buffers then [gl_call.swap_buffers] else []) := by
  unfold xplay_gfx_frame at h
  simp only at h
  split at h
  · exact absurd h (by simp)
  · rename_i tex htex
    split at h
    · exact absurd h (by simp)
    · rename_i tex1 c_blit hblit
      split at h
      · exact absurd h (by simp)
      · rename_i prog hprog
        split at h
        · exact absurd h (by simp)
        · rename_i tex2 c_draw hdraw
          split at h
          · exact absurd h (by simp)
          · rename_i vid4 c_menu hmenu
            split at h
            · exact absurd h (by simp)
            · rename_i vid5 font1 c_text htext
              simp only [Option.some.injEq] at h
              subst h
              refine ⟨tex, tex1, c_blit, prog, tex2, c_draw, vid4, c_menu, c_text,
                htex, hblit, hprog, hdraw, hmenu, ?_, rfl, rfl⟩
              cases msg with
              | none =>
                simp only [Option.some.injEq, Prod.mk.injEq] at htext
                obtain ⟨rfl, _⟩ := htext
                exact same_layers_refl _
              | some m =>
                simp only at htext
                split at htext
                · exact absurd htext (by simp)
                · rename_i v f c hv
                  simp only [Option.some.injEq, Prod.mk.injEq] at htext
                  obtain ⟨rfl, _⟩ := htext
                  exact render_msg_layers _ _ _ _ _ _ _ _ _ _ _ hv

/-- A frame call with a null buffer returns `true` at once and changes nothing. -/
theorem frame_null (vid : xplay_video) (width height pitch : Nat)
    (msg : Option (List Nat)) (vi : video_frame_info) (st : settings_t) (env : frame_env) :
    xplay_gfx_frame vid none width height pitch msg vi st env =
      some { ret := true, vid := vid, font := env.font, calls := [] } := by
  unfold xplay_gfx_frame
  rfl

/-- The frame index and the frame slots after a completed frame call with a
non-null buffer. -/
theorem frame_index_step (vid : xplay_video) (mem : Nat → Nat) (width height pitch : Nat)
    (msg : Option (List Nat)) (vi : video_frame_info) (st : settings_t) (env : frame_env)
    (r : frame_result)
    (h : xplay_gfx_frame vid (some mem) width height pitch msg vi st env = some r) :
    r.vid.frame_tex_index = Int.tmod (vid.frame_tex_index + 1) XPLAY_FRAMEBUF_COUNT ∧
      r.vid.frame_tex.length = vid.frame_tex.length ∧
      r.vid.menu_tex.length = vid.menu_tex.length ∧
      ((vid.menu_tex_index = 0 ∨ vid.menu_tex_index = 1) →
        (r.vid.menu_tex_index = 0 ∨ r.vid.menu_tex_index = 1)) := by
  obtain ⟨tex, tex1, c_blit, prog, tex2, c_draw, vid4, c_menu, c_text,
    htex, hblit, hprog, hdraw, hmenu, hl, _, _⟩ := frame_some_inv _ _ _ _ _ _ _ _ _ _ h
  obtain ⟨m1, m2, _, m4, m5⟩ := draw_menu_fields _ _ _ _ _ _ hmenu
  obtain ⟨l1, l2, _, l4, l5, _⟩ := hl
  refine ⟨l2.trans m2, ?_, ?_, ?_⟩
  · rw [l1, m1]
    simp [slot_set_length]
  · rw [l4, m4]
  · intro hm
    rw [l5]
    exact m5 hm


theorem initial_slots_ok (vid : xplay_video) (h : is_initial vid) : slots_ok vid := by
  obtain ⟨⟨a, b, hf⟩, ⟨c, d, hm⟩, h1, h2, _⟩ := h
  refine ⟨?_, ?_, Or.inl h1, Or.inl h2⟩
  · rw [hf]; rfl
  · rw [hm]; rfl

theorem driver_step_slots_ok (vid vid1 : xplay_video) (hs : slots_ok vid)
    (s : driver_step vid vid1) : slots_ok vid1 := by
  obtain ⟨h1, h2, h3, h4⟩ := hs
  cases s with
  | frame frame width height pitch msg vi st env r h =>
    cases frame with
    | none =>
      rw [frame_null] at h
      simp only [Option.some.injEq] at h
      subst h
      exact ⟨h1, h2, h3, h4⟩
    | some mem =>
      obtain ⟨a1, a2, a3, a4⟩ := frame_index_step _ _ _ _ _ _ _ _ _ _ h
      refine ⟨a2.trans h1, a3.trans h2, ?_, a4 h4⟩
      rw [a1]
      exact tmod_two_range _ h3
  | texture_frame supports_rgba a _ calls h =>
    obtain ⟨a1, a2, _, a4, a5⟩ := set_texture_frame_fields _ _ _ _ _ h
    refine ⟨by rw [a1]; exact h1, a4.trans h2, by rw [a2]; exact h3, ?_⟩
    rw [a5]
    exact tmod_two_range _ h4

/-- Every reachable driver state has two slots per layer and indices in {0, 1}. -/
theorem reachable_slots_ok (vid : xplay_video) (h : reachable vid) : slots_ok vid := by
  induction h with
  | init vid hi => exact initial_slots_ok vid hi
  | step vid vid1 _ s ih => exact driver_step_slots_ok vid vid1 ih s

theorem idle_step_frame_layer (vid vid1 : xplay_video) (s : idle_step vid vid1) :
    vid1.frame_tex_index = vid.frame_tex_index ∧ vid1.frame_tex = vid.frame_tex := by
  cases s with
  | null_frame width height pitch msg vi st env r h =>
    rw [frame_null] at h
    simp only [Option.some.injEq] at h
    subst h
    exact ⟨rfl, rfl⟩
  | texture_frame supports_rgba a _ calls h =>
    obtain ⟨a1, a2, _⟩ := set_texture_frame_fields _ _ _ _ _ h
    exact ⟨a2, a1⟩

theorem idle_steps_frame_layer (vid vid1 : xplay_video) (s : idle_steps vid vid1) :
    vid1.frame_tex_index = vid.frame_tex_index ∧ vid1.frame_tex = vid.frame_tex := by
  induction s with
  | refl => exact ⟨rfl, rfl⟩
  | tail vid1 vid2 _ s ih =>
    obtain ⟨a, b⟩ := idle_step_frame_layer _ _ s
    exact ⟨a.trans ih.1, b.trans ih.2⟩

theorem idle_step_driver_step (vid vid1 : xplay_video) (s : idle_step vid vid1) :
    driver_step vid vid1 := by
  cases s with
  | null_frame width height pitch msg vi st env r h =>
    exact driver_step.frame vid none width height pitch msg vi st env r h
  | texture_frame supports_rgba a _ calls h =>
    exact driver_step.texture_frame vid supports_rgba a vid1 calls h

theorem idle_steps_reachable (vid vid1 : xplay_video) (hr : reachable vid)
    (s : idle_steps vid vid1) : reachable vid1 := by
  induction s with
  | refl => exact hr
  | tail vid1 vid2 _ s ih => exact reachable.step _ _ ih (idle_step_driver_step _ _ s)

/-- The base draw never hits undefined behaviour: the size guard comes first. -/
theorem draw_framebuf_defined (prog : xplay_framebuf_program) (tex : xplay_framebuf_texture)
    (integer_scale : Bool) (alpha : Rat) :
    ∃ r, xplay_draw_framebuf prog tex integer_scale alpha = some r := by
  unfold xplay_draw_framebuf
  by_cases hg : tex.width < 1 ∨ tex.height < 1
  · rw [if_pos hg]
    exact ⟨_, rfl⟩
  · rw [if_neg hg]
    have hw : 1 ≤ tex.width := by omega
    have hh : 1 ≤ tex.height := by omega
    unfold half_extents
    cases integer_scale
    · exact ⟨_, rfl⟩
    · rw [if_pos rfl, scale_factor_pos tex.width tex.height hw hh]
      exact ⟨_, rfl⟩

theorem to_int_small (n : Nat) (h : n < 2147483648) : to_int n = (n : Int) := by
  unfold to_int UINT_RANGE
  rw [Nat.mod_eq_of_lt (by omega), if_pos h]

/-- A frame call on the direct upload path, with a source of positive size, no
overlay activity and no message, completes. -/
theorem frame_direct_defined (vid : xplay_video) (hs : slots_ok vid) (mem : Nat → Nat)
    (width height : Nat) (vi : video_frame_info) (st : settings_t) (env : frame_env)
    (hw : 1 ≤ width) (hw2 : width < 2147483648) (hh : 1 ≤ height) (hh2 : height < 2147483648)
    (halive : vi.menu_is_alive = false) (hup : env.menu_uploads = []) :
    ∃ r, xplay_gfx_frame vid (some mem) width height
      (umul (texel_size (frame_format vid.frame_rgb32 vi.use_rgba)) width) none vi st env
        = some r := by
  obtain ⟨h1, _, h3, _⟩ := hs
  have hidx := tmod_two_range _ h3
  obtain ⟨tex, htex⟩ := slot_get_defined vid.frame_tex
    (Int.tmod (vid.frame_tex_index + 1) XPLAY_FRAMEBUF_COUNT) (by omega) (by omega)
  obtain ⟨⟨tex1, c_blit⟩, hblit⟩ := blit_direct_defined tex mem width height
    (frame_format vid.frame_rgb32 vi.use_rgba)
  unfold xplay_gfx_frame
  simp only
  rw [htex]
  simp only
  rw [hblit]
  simp only
  obtain ⟨prog, hprog⟩ := framebuf_program_defined
    { vid with
      frame_tex_index := Int.tmod (vid.frame_tex_index + 1) XPLAY_FRAMEBUF_COUNT,
      frame_tex := slot_set vid.frame_tex
        (Int.tmod (vid.frame_tex_index + 1) XPLAY_FRAMEBUF_COUNT) tex1 }
    vid.frame_rgb32 (to_int width) (to_int height)
    (st.video_scale_integer && st.video_notch_write_over_enable)
    (by rw [to_int_small width hw2]; omega) (by rw [to_int_small height hh2]; omega)
  rw [hprog]
  simp only
  obtain ⟨⟨tex2, c_draw⟩, hdraw⟩ := draw_framebuf_defined prog tex1 st.video_scale_integer 1
  rw [hdraw]
  simp only
  unfold draw_menu
  rw [hup, halive]
  simp only [run_texture_frames]
  exact ⟨_, rfl⟩


theorem framebuf_program_undefined_left (vid : xplay_video) (rgb32 : Bool) (height : Int)
    (allow_grid : Bool) : xplay_get_framebuf_program vid rgb32 0 height allow_grid = none := by
  unfold xplay_get_framebuf_program
  rw [scale_factor_undefined_left]

theorem framebuf_program_undefined_right (vid : xplay_video) (rgb32 : Bool) (width : Int)
    (allow_grid : Bool) : xplay_get_framebuf_program vid rgb32 width 0 allow_grid = none := by
  unfold xplay_get_framebuf_program
  rw [scale_factor_undefined_right]

theorem to_int_zero : to_int 0 = 0 := by decide

/-! ## C6: zero-sized frames -/

/-- C6 fails on the code: a frame call with a non-null buffer of width 0 or
height 0 reaches the division by `width` (or `height`) in
`xplay_get_scale_factor`, called by the program selection before the size guard
of `xplay_draw_framebuf`; the call is undefined instead of returning `true`.
On the initial state the 0x0 upload itself completes, and the guard of the draw
would have drawn nothing. -/
theorem frame_zero_size_undefined (vid : xplay_video) (mem : Nat → Nat)
    (width height pitch : Nat) (msg : Option (List Nat)) (vi : video_frame_info)
    (st : settings_t) (env : frame_env) :
    xplay_gfx_frame vid (some mem) 0 height pitch msg vi st env = none ∧
    xplay_gfx_frame vid (some mem) width 0 pitch msg vi st env = none ∧
    xplay_get_scale_factor (to_int 0) (to_int height) = none ∧
    xplay_get_scale_factor (to_int width) (to_int 0) = none ∧
    (xplay_gfx_frame sample_video (some wrap_probe) 0 0 0 none sample_info sample_settings
      sample_env).isSome = false ∧
    (xplay_blit_framebuf (fresh_texture 4) wrap_probe 0 0 0 .PF_RGB16_565).isSome = true ∧
    xplay_draw_framebuf (sample_program 5) (fresh_texture 4) true 1 = some (fresh_texture 4, []) := by
  refine ⟨?_, ?_, ?_, ?_, by decide, by decide, by decide⟩
  · unfold xplay_gfx_frame
    simp only
    split
    · rfl
    · split
      · rfl
      · rw [to_int_zero, framebuf_program_undefined_left]
  · unfold xplay_gfx_frame
    simp only
    split
    · rfl
    · split
      · rfl
      · rw [to_int_zero, framebuf_program_undefined_right]
  · rw [to_int_zero, scale_factor_undefined_left]
  · rw [to_int_zero, scale_factor_undefined_right]

/-! ## C10: rotation of the frame-layer slot -/

/-- C10: in every reachable driver state the frame index is 0 or 1; a frame call
with a null buffer completes and leaves the state unchanged; a completed frame
call with a non-null buffer sets the index to (previous index + 1) mod 2 before
the upload, uploads to and draws exactly that slot, leaves the previous slot's
record untouched, and the next frame call (after any number of calls that upload
no frame) uses the other slot again. Calls on the direct upload path with a
source of positive size, no overlay activity and no message do complete. -/
theorem frame_index_rotates (vid : xplay_video) (hr : reachable vid) :
    (vid.frame_tex_index = 0 ∨ vid.frame_tex_index = 1) ∧
    (∀ width height pitch msg vi st env,
      ∃ r, xplay_gfx_frame vid none width height pitch msg vi st env = some r ∧
        r.ret = true ∧ r.vid = vid ∧ r.calls = []) ∧
    (∀ mem width height vi st env,
      1 ≤ width → width < 2147483648 → 1 ≤ height → height < 2147483648 →
      vi.menu_is_alive = false → env.menu_uploads = [] →
      ∃ r, xplay_gfx_frame vid (some mem) width height
        (umul (texel_size (frame_format vid.frame_rgb32 vi.use_rgba)) width) none vi st env
          = some r) ∧
    (∀ mem width height pitch msg vi st env r,
      xplay_gfx_frame vid (some mem) width height pitch msg vi st env = some r →
      r.vid.frame_tex_index = (vid.frame_tex_index + 1) % 2 ∧
      r.vid.frame_tex_index ≠ vid.frame_tex_index ∧
      (r.vid.frame_tex_index = 0 ∨ r.vid.frame_tex_index = 1) ∧
      (∃ tex tex1 c_blit prog tex2 c_draw rest,
        slot_get vid.frame_tex r.vid.frame_tex_index = some tex ∧
        xplay_blit_framebuf tex mem width height pitch
          (frame_format vid.frame_rgb32 vi.use_rgba) = some (tex1, c_blit) ∧
        xplay_draw_framebuf prog tex1 st.video_scale_integer 1 = some (tex2, c_draw) ∧
        r.calls = [gl_call.glClear] ++ c_blit ++ c_draw ++ rest ∧
        slot_get r.vid.frame_tex r.vid.frame_tex_index = some tex2) ∧
      slot_get r.vid.frame_tex vid.frame_tex_index = slot_get vid.frame_tex vid.frame_tex_index ∧
      (∀ vid1, idle_steps r.vid vid1 →
        ∀ mem1 width1 height1 pitch1 msg1 vi1 st1 env1 r1,
          xplay_gfx_frame vid1 (some mem1) width1 height1 pitch1 msg1 vi1 st1 env1 = some r1 →
          r1.vid.frame_tex_index ≠ r.vid.frame_tex_index)) := by
  have hs := reachable_slots_ok vid hr
  have key : ∀ (v : xplay_video), slots_ok v → ∀ mem width height pitch msg vi st env r,
      xplay_gfx_frame v (some mem) width height pitch msg vi st env = some r →
      r.vid.frame_tex_index = (v.frame_tex_index + 1) % 2 ∧
      r.vid.frame_tex_index ≠ v.frame_tex_index ∧
      (r.vid.frame_tex_index = 0 ∨ r.vid.frame_tex_index = 1) := by
    intro v hv mem width height pitch msg vi st env r h
    obtain ⟨a1, _, _, _⟩ := frame_index_step _ _ _ _ _ _ _ _ _ _ h
    obtain ⟨_, _, h3, _⟩ := hv
    rw [a1]
    rcases h3 with h0 | h1
    · rw [h0]; decide
    · rw [h1]; decide
  refine ⟨hs.2.2.1, ?_, ?_, ?_⟩
  · intro width height pitch msg vi st env
    exact ⟨_, frame_null vid width height pitch msg vi st env, rfl, rfl, rfl⟩
  · intro mem width height vi st env hw hw2 hh hh2 halive hup
    exact frame_direct_defined vid hs mem width height vi st env hw hw2 hh hh2 halive hup
  · intro mem width height pitch msg vi st env r h
    obtain ⟨k1, k2, k3⟩ := key vid hs mem width height pitch msg vi st env r h
    obtain ⟨tex, tex1, c_blit, prog, tex2, c_draw, vid4, c_menu, c_text,
      htex, hblit, hprog, hdraw, hmenu, hl, _, hcalls⟩ := frame_some_inv _ _ _ _ _ _ _ _ _ _ h
    obtain ⟨a1, _, _, _⟩ := frame_index_step _ _ _ _ _ _ _ _ _ _ h
    obtain ⟨m1, _, _, _, _⟩ := draw_menu_fields _ _ _ _ _ _ hmenu
    obtain ⟨l1, _, _, _, _, _⟩ := hl
    have hft : r.vid.frame_tex = slot_set (slot_set vid.frame_tex
        (Int.tmod (vid.frame_tex_index + 1) XPLAY_FRAMEBUF_COUNT) tex1)
        (Int.tmod (vid.frame_tex_index + 1) XPLAY_FRAMEBUF_COUNT) tex2 := l1.trans m1
    obtain ⟨hi0, hilt⟩ := slot_get_some_lt _ _ _ htex
    refine ⟨k1, k2, k3, ?_, ?_, ?_⟩
    · refine ⟨tex, tex1, c_blit, prog, tex2, c_draw,
        c_menu ++ c_text ++ (if r.vid.has_swap_buffers then [gl_call.swap_buffers] else []),
        by rw [a1]; exact htex, hblit, hdraw, ?_, ?_⟩
      · rw [hcalls]
        simp only [List.append_assoc]
      · rw [hft, a1]
        exact slot_get_set_same _ _ _ hi0 (by rw [slot_set_length]; exact hilt)
    · rw [hft]
      have hne : Int.tmod (vid.frame_tex_index + 1) XPLAY_FRAMEBUF_COUNT ≠ vid.frame_tex_index := by
        rw [← a1]; exact k2
      have hv0 : 0 ≤ vid.frame_tex_index := by
        rcases hs.2.2.1 with h0 | h1 <;> omega
      rw [slot_get_set_other _ _ _ _ hi0 hv0 hne, slot_get_set_other _ _ _ _ hi0 hv0 hne]
    · intro vid1 hidle mem1 width1 height1 pitch1 msg1 vi1 st1 env1 r1 h1
      have hr1 : reachable r.vid :=
        reachable.step _ _ hr (driver_step.frame vid (some mem) width height pitch msg vi st env r h)
      have hs1 := reachable_slots_ok vid1 (idle_steps_reachable _ _ hr1 hidle)
      obtain ⟨_, n2, _⟩ := key vid1 hs1 mem1 width1 height1 pitch1 msg1 vi1 st1 env1 r1 h1
      rw [(idle_steps_frame_layer _ _ hidle).1] at n2
      exact n2

/-- Witness for C10: from the initial sample state, a 2x2 RGB-565 frame call
completes and moves the frame index from 0 to 1. -/
theorem frame_index_rotates_witness :
    ∃ r, xplay_gfx_frame sample_video (some (fun i => i)) 2 2 4 none sample_info sample_settings
        sample_env = some r ∧
      r.vid.frame_tex_index = 1 ∧ r.vid.frame_tex_index ≠ sample_video.frame_tex_index := by
  have hinit : is_initial sample_video :=
    ⟨⟨2, 4, rfl⟩, ⟨1, 3, rfl⟩, rfl, rfl, rfl, rfl, rfl, rfl, rfl⟩
  obtain ⟨_, _, hdef, hrot⟩ := frame_index_rotates sample_video (reachable.init _ hinit)
  obtain ⟨r, hr⟩ := hdef (fun i => i) 2 2 sample_info sample_settings sample_env
    (by decide) (by decide) (by decide) (by decide) rfl rfl
  have hp : umul (texel_size (frame_format sample_video.frame_rgb32 sample_info.use_rgba)) 2 = 4 := by
    decide
  rw [hp] at hr
  obtain ⟨k1, k2, _⟩ := hrot _ _ _ _ _ _ _ _ r hr
  exact ⟨r, hr, k1.trans (by decide), k2⟩


/-! ## Lemmas on overlay uploads -/

theorem menu_pitch_expected (rgb32 supports_rgba : Bool) (width : Nat) :
    menu_pitch rgb32 width = umul (texel_size (menu_format rgb32 supports_rgba)) width := by
  have h4 : to_unsigned 4 = 4 := by decide
  have h2 : to_unsigned 2 = 2 := by decide
  cases rgb32 <;> cases supports_rgba <;>
    simp [menu_pitch, menu_format, texel_size, blit_params, umul, h4, h2, Nat.mul_comm]

theorem menu_format_ne_none (rgb32 supports_rgba : Bool) :
    menu_format rgb32 supports_rgba ≠ .PF_NONE := by
  cases rgb32 <;> cases supports_rgba <;> decide

/-- The overlay upload is the blit of the rotated menu slot with `menu_pitch`
and `menu_format`. -/
theorem set_texture_frame_unfold (vid : xplay_video) (supports_rgba : Bool) (a : texture_frame) :
    xplay_set_texture_frame vid supports_rgba a =
      match slot_get vid.menu_tex (Int.tmod (vid.menu_tex_index + 1) XPLAY_FRAMEBUF_COUNT) with
      | none => none
      | some tex =>
        match xplay_blit_framebuf tex a.frame a.width a.height (menu_pitch a.rgb32 a.width)
            (menu_format a.rgb32 supports_rgba) with
        | none => none
        | some (tex1, calls) =>
          some ({ vid with
                  menu_alpha := a.alpha, menu_rgb32 := a.rgb32,
                  menu_tex_index := Int.tmod (vid.menu_tex_index + 1) XPLAY_FRAMEBUF_COUNT,
                  menu_tex := slot_set vid.menu_tex
                    (Int.tmod (vid.menu_tex_index + 1) XPLAY_FRAMEBUF_COUNT) tex1 }, calls) := by
  rfl

/-- An upload with the expected pitch takes the source as it is: the scratch
block is neither allocated nor used. -/
theorem blit_direct_result (tex : xplay_framebuf_texture) (frame : Nat → Nat)
    (width height : Nat) (fmt : xplay_framebuf_format) (hfmt : fmt ≠ .PF_NONE)
    (tex1 : xplay_framebuf_texture) (calls : List gl_call)
    (h : xplay_blit_framebuf tex frame width height (umul (texel_size fmt) width) fmt
      = some (tex1, calls)) :
    (tex.tempbuf = none → tex1.tempbuf = none) ∧
      uploaded_pixels calls = [read_bytes frame 0 (texel_size fmt * width * height)] := by
  obtain ⟨format, type, hp⟩ := blit_params_of_ne fmt hfmt
  rw [blit_unfold tex frame width height _ fmt _ format type hp] at h
  unfold blit_source at h
  rw [if_neg (by simp)] at h
  simp only [Option.some.injEq, Prod.mk.injEq] at h
  obtain ⟨rfl, rfl⟩ := h
  constructor
  · intro hn
    unfold blit_realloc
    split_ifs
    · rfl
    · exact hn
  · simp only [uploaded_pixels_append, blit_realloc_uploaded]
    rfl

theorem set_texture_frame_defined (vid : xplay_video) (hs : slots_ok vid) (supports_rgba : Bool)
    (a : texture_frame) : ∃ r, xplay_set_texture_frame vid supports_rgba a = some r := by
  obtain ⟨_, h2, _, h4⟩ := hs
  have hidx := tmod_two_range _ h4
  obtain ⟨tex, htex⟩ := slot_get_defined vid.menu_tex
    (Int.tmod (vid.menu_tex_index + 1) XPLAY_FRAMEBUF_COUNT) (by omega) (by omega)
  rw [set_texture_frame_unfold, htex, menu_pitch_expected a.rgb32 supports_rgba]
  obtain ⟨⟨tex1, c⟩, hb⟩ := blit_direct_defined tex a.frame a.width a.height
    (menu_format a.rgb32 supports_rgba)
  simp only
  rw [hb]
  exact ⟨_, rfl⟩


theorem slot_get_mem {α : Type} (xs : List α) (i : Int) (v : α)
    (h : slot_get xs i = some v) : v ∈ xs := by
  unfold slot_get at h
  split_ifs at h
  exact List.get?_mem h

theorem slot_set_forall {α : Type} (P : α → Prop) (xs : List α) (i : Int) (v : α)
    (hall : ∀ t, t ∈ xs → P t) (hv : P v) : ∀ t, t ∈ slot_set xs i v → P t := by
  intro t ht
  unfold slot_set at ht
  rcases List.mem_or_eq_of_mem_set ht with h | h
  · exact hall t h
  · rw [h]; exact hv

/-- The base draw rewrites the vertex cache only. -/
theorem draw_framebuf_fields (prog : xplay_framebuf_program) (tex : xplay_framebuf_texture)
    (integer_scale : Bool) (alpha : Rat) (tex1 : xplay_framebuf_texture) (calls : List gl_call)
    (h : xplay_draw_framebuf prog tex integer_scale alpha = some (tex1, calls)) :
    tex1.handle = tex.handle ∧ tex1.width = tex.width ∧ tex1.height = tex.height ∧
      tex1.fmt = tex.fmt ∧ tex1.tempbuf = tex.tempbuf := by
  unfold xplay_draw_framebuf at h
  split_ifs at h with hg
  · simp only [Option.some.injEq, Prod.mk.injEq] at h
    obtain ⟨rfl, _⟩ := h
    exact ⟨rfl, rfl, rfl, rfl, rfl⟩
  · split at h
    · exact absurd h (by simp)
    · simp only [Option.some.injEq, Prod.mk.injEq] at h
      obtain ⟨rfl, _⟩ := h
      exact ⟨rfl, rfl, rfl, rfl, rfl⟩

theorem set_texture_frame_no_scratch (vid : xplay_video) (supports_rgba : Bool)
    (a : texture_frame) (vid1 : xplay_video) (calls : List gl_call)
    (hn : menu_no_scratch vid)
    (h : xplay_set_texture_frame vid supports_rgba a = some (vid1, calls)) :
    menu_no_scratch vid1 := by
  rw [set_texture_frame_unfold] at h
  split at h
  · exact absurd h (by simp)
  · rename_i tex htex
    split at h
    · exact absurd h (by simp)
    · rename_i tex1 c hb
      simp only [Option.some.injEq, Prod.mk.injEq] at h
      obtain ⟨rfl, _⟩ := h
      rw [menu_pitch_expected a.rgb32 supports_rgba] at hb
      have h1 := (blit_direct_result tex a.frame a.width a.height _
        (menu_format_ne_none a.rgb32 supports_rgba) tex1 c hb).1
        (hn tex (slot_get_mem _ _ _ htex))
      exact slot_set_forall (fun t : xplay_framebuf_texture => t.tempbuf = none)
        vid.menu_tex _ _ hn h1

theorem run_texture_frames_no_scratch (supports_rgba : Bool) (l : List texture_frame)
    (vid vid1 : xplay_video) (calls : List gl_call) (hn : menu_no_scratch vid)
    (h : run_texture_frames supports_rgba l vid = some (vid1, calls)) :
    menu_no_scratch vid1 := by
  induction l generalizing vid calls with
  | nil =>
    simp only [run_texture_frames, Option.some.injEq, Prod.mk.injEq] at h
    obtain ⟨rfl, _⟩ := h
    exact hn
  | cons a rest ih =>
    simp only [run_texture_frames] at h
    split at h
    · exact absurd h (by simp)
    · rename_i v c hv
      split at h
      · exact absurd h (by simp)
      · rename_i v2 c2 hv2
        simp only [Option.some.injEq, Prod.mk.injEq] at h
        obtain ⟨rfl, _⟩ := h
        exact ih v c2 (set_texture_frame_no_scratch vid supports_rgba a v c hn hv) hv2

theorem draw_menu_no_scratch (vid : xplay_video) (integer_scale menu_is_alive : Bool)
    (env : frame_env) (vid1 : xplay_video) (calls : List gl_call) (hn : menu_no_scratch vid)
    (h : draw_menu vid integer_scale menu_is_alive env = some (vid1, calls)) :
    menu_no_scratch vid1 := by
  unfold draw_menu at h
  split at h
  · exact absurd h (by simp)
  · rename_i v c hv
    have hf := run_texture_frames_no_scratch _ _ _ _ _ hn hv
    split_ifs at h with ha
    · split at h
      · exact absurd h (by simp)
      · rename_i menu_tex hm
        split at h
        · exact absurd h (by simp)
        · split at h
          · exact absurd h (by simp)
          · rename_i t1 c2 hd
            simp only [Option.some.injEq, Prod.mk.injEq] at h
            obtain ⟨rfl, _⟩ := h
            have h5 := (draw_framebuf_fields _ _ _ _ _ _ hd).2.2.2.2
            exact slot_set_forall (fun t : xplay_framebuf_texture => t.tempbuf = none)
              v.menu_tex _ _ hf (h5.trans (hf menu_tex (slot_get_mem _ _ _ hm)))
    · simp only [Option.some.injEq, Prod.mk.injEq] at h
      obtain ⟨rfl, _⟩ := h
      exact hf

theorem frame_no_scratch (vid : xplay_video) (frame : Option (Nat → Nat))
    (width height pitch : Nat) (msg : Option (List Nat)) (vi : video_frame_info)
    (st : settings_t) (env : frame_env) (r : frame_result) (hn : menu_no_scratch vid)
    (h : xplay_gfx_frame vid frame width height pitch msg vi st env = some r) :
    menu_no_scratch r.vid := by
  cases frame with
  | none =>
    rw [frame_null] at h
    simp only [Option.some.injEq] at h
    subst h
    exact hn
  | some mem =>
    obtain ⟨tex, tex1, c_blit, prog, tex2, c_draw, vid4, c_menu, c_text,
      _, _, _, _, hmenu, hl, _, _⟩ := frame_some_inv _ _ _ _ _ _ _ _ _ _ h
    have h4 : menu_no_scratch vid4 := by
      refine draw_menu_no_scratch _ _ _ _ _ _ ?_ hmenu
      exact hn
    unfold menu_no_scratch
    rw [hl.2.2.2.1]
    exact h4

/-- In every reachable driver state no menu texture owns a scratch block. -/
theorem reachable_no_scratch (vid : xplay_video) (h : reachable vid) : menu_no_scratch vid := by
  induction h with
  | init vid hi =>
    obtain ⟨_, ⟨c, d, hm⟩, _⟩ := hi
    intro t ht
    rw [hm] at ht
    simp only [List.mem_cons, List.mem_singleton, List.not_mem_nil, or_false] at ht
    rcases ht with rfl | rfl <;> rfl
  | step vid vid1 _ s ih =>
    cases s with
    | frame frame width height pitch msg vi st env r h =>
      exact frame_no_scratch _ _ _ _ _ _ _ _ _ _ ih h
    | texture_frame supports_rgba a _ calls h =>
      exact set_texture_frame_no_scratch _ _ _ _ _ ih h


/-! ## C16: overlay uploads are tightly packed -/

/-- C16: for every overlay upload in a reachable state (every width, height,
rgb32 flag and RGBA-support flag) the pitch passed to the blit, the `unsigned`
product `width*pixel_size`, equals the blit's expected pitch for the resolved
format (texel size 4 for both 32-bit formats, 2 for RGBA-4444), wrap-around
included; the upload completes on the direct path, handing the source bytes
over as they are, and no menu texture ever owns a scratch block. -/
theorem menu_upload_tightly_packed (vid : xplay_video) (hr : reachable vid)
    (supports_rgba : Bool) (a : texture_frame) :
    texel_size (menu_format a.rgb32 supports_rgba) = (if a.rgb32 = true then 4 else 2) ∧
    menu_pitch a.rgb32 a.width = umul (texel_size (menu_format a.rgb32 supports_rgba)) a.width ∧
    menu_no_scratch vid ∧
    ∃ tex tex1 calls vid1,
      slot_get vid.menu_tex (Int.tmod (vid.menu_tex_index + 1) XPLAY_FRAMEBUF_COUNT) = some tex ∧
      xplay_blit_framebuf tex a.frame a.width a.height (menu_pitch a.rgb32 a.width)
        (menu_format a.rgb32 supports_rgba) = some (tex1, calls) ∧
      xplay_set_texture_frame vid supports_rgba a = some (vid1, calls) ∧
      slot_get vid1.menu_tex vid1.menu_tex_index = some tex1 ∧
      tex1.tempbuf = none ∧
      uploaded_pixels calls =
        [read_bytes a.frame 0 (texel_size (menu_format a.rgb32 supports_rgba) * a.width * a.height)] ∧
      menu_no_scratch vid1 := by
  have hs := reachable_slots_ok vid hr
  have hn := reachable_no_scratch vid hr
  refine ⟨?_, menu_pitch_expected a.rgb32 supports_rgba a.width, hn, ?_⟩
  · cases a.rgb32 <;> cases supports_rgba <;> rfl
  · obtain ⟨⟨vid1, calls⟩, hset⟩ := set_texture_frame_defined vid hs supports_rgba a
    have hn1 := set_texture_frame_no_scratch vid supports_rgba a vid1 calls hn hset
    have hset2 := hset
    rw [set_texture_frame_unfold] at hset2
    split at hset2
    · exact absurd hset2 (by simp)
    · rename_i tex htex
      split at hset2
      · exact absurd hset2 (by simp)
      · rename_i tex1 c hb
        simp only [Option.some.injEq, Prod.mk.injEq] at hset2
        obtain ⟨hv, rfl⟩ := hset2
        have hb2 := hb
        rw [menu_pitch_expected a.rgb32 supports_rgba] at hb2
        obtain ⟨d1, d2⟩ := blit_direct_result tex a.frame a.width a.height _
          (menu_format_ne_none a.rgb32 supports_rgba) tex1 c hb2
        obtain ⟨hi0, hilt⟩ := slot_get_some_lt _ _ _ htex
        refine ⟨tex, tex1, c, vid1, htex, hb, hset, ?_,
          d1 (hn tex (slot_get_mem _ _ _ htex)), d2, hn1⟩
        rw [← hv]
        exact slot_get_set_same _ _ _ hi0 hilt

/-- Witness for C16: a 2x2 RGBA-4444 overlay upload on the initial state. -/
theorem menu_upload_tightly_packed_witness :
    ∃ vid1 calls, xplay_set_texture_frame sample_video false sample_upload = some (vid1, calls) ∧
      uploaded_pixels calls = [[0, 1, 2, 3, 4, 5, 6, 7]] ∧ menu_no_scratch vid1 := by
  have hinit : is_initial sample_video :=
    ⟨⟨2, 4, rfl⟩, ⟨1, 3, rfl⟩, rfl, rfl, rfl, rfl, rfl, rfl, rfl⟩
  obtain ⟨_, _, _, tex, tex1, calls, vid1, _, _, hset, _, _, hu, hn1⟩ :=
    menu_upload_tightly_packed sample_video (reachable.init _ hinit) false sample_upload
  exact ⟨vid1, calls, hset, hu.trans (by decide), hn1⟩


/-! ## C17: size of the scratch block -/

theorem scratch_exact_ok (tex : xplay_framebuf_texture) (h : scratch_exact tex) :
    scratch_ok tex := by
  intro b hb
  obtain ⟨h1, h2⟩ := h b hb
  obtain ⟨e1, e2⟩ := expected_size_eq _ _ _ h2
  rw [umul_eq _ _ e2, e1, h1]

theorem blit_source_repack_some (tex : xplay_framebuf_texture) (frame : Nat → Nat)
    (ep pitch height nbytes : Nat) (tex2 : xplay_framebuf_texture) (pixels : List Nat)
    (hne : pitch ≠ ep)
    (h : blit_source tex frame ep pitch height nbytes = some (tex2, pixels)) :
    ∃ b, tex2.tempbuf = some b := by
  unfold blit_source at h
  rw [if_pos hne] at h
  simp only at h
  split at h
  · exact absurd h (by simp)
  · split at h
    · exact absurd h (by simp)
    · simp only [Option.some.injEq, Prod.mk.injEq] at h
      obtain ⟨rfl, _⟩ := h
      exact ⟨_, rfl⟩

/-- One upload without overflow, from a texture satisfying the exact scratch
invariant: it completes and the invariant holds afterwards. -/
theorem blit_ok_step (tex : xplay_framebuf_texture) (c : blit_call) (hc : blit_call_ok c)
    (hx : scratch_exact tex) :
    ∃ tex1 calls, xplay_blit_framebuf tex c.frame c.width c.height c.pitch c.fmt
        = some (tex1, calls) ∧ scratch_exact tex1 ∧
      (c.fmt ≠ .PF_NONE → ¬ stored_differs tex1 c.width c.height c.fmt) ∧
      (c.fmt ≠ .PF_NONE → c.pitch ≠ umul (texel_size c.fmt) c.width →
        ∃ b, tex1.tempbuf = some b) ∧
      (¬ stored_differs tex c.width c.height c.fmt → ∀ b0 b, tex.tempbuf = some b0 →
        tex1.tempbuf = some b → b.length = b0.length) := by
  obtain ⟨hw, hh, hsize⟩ := hc
  have hok := scratch_exact_ok tex hx
  obtain ⟨⟨tex1, calls⟩, hr⟩ :=
    blit_defined tex c.frame c.width c.height c.pitch c.fmt hw hh hok hsize
  refine ⟨tex1, calls, hr, ?_, ?_, ?_, ?_⟩
  · by_cases hfmt : c.fmt = .PF_NONE
    · rw [hfmt] at hr
      simp only [xplay_blit_framebuf, blit_params, Option.some.injEq, Prod.mk.injEq] at hr
      obtain ⟨rfl, _⟩ := hr
      exact hx
    · obtain ⟨_, _, hs, _, hk, _⟩ :=
        blit_shape tex c.frame c.width c.height c.pitch c.fmt hfmt hw hh tex1 calls hr
      have hok1 := hk hok
      simp only [stored_differs, not_or, not_not] at hs
      obtain ⟨s1, s2, s3⟩ := hs
      intro b hb
      have hl := hok1 b hb
      rw [s1, s2, s3] at hl ⊢
      obtain ⟨e1, e2⟩ := expected_size_eq _ _ _ hsize
      rw [umul_eq _ _ e2, e1] at hl
      exact ⟨hl, hsize⟩
  · intro hfmt
    exact (blit_shape tex c.frame c.width c.height c.pitch c.fmt hfmt hw hh tex1 calls hr).2.2.1
  · intro hfmt hne
    obtain ⟨format, type, hp⟩ := blit_params_of_ne c.fmt hfmt
    rw [blit_unfold tex c.frame c.width c.height c.pitch c.fmt _ format type hp] at hr
    split at hr
    · exact absurd hr (by simp)
    · rename_i tex2 pixels hsrc
      simp only [Option.some.injEq, Prod.mk.injEq] at hr
      obtain ⟨rfl, _⟩ := hr
      exact blit_source_repack_some _ _ _ _ _ _ _ _ hne hsrc
  · intro hsame b0 b hb0 hb
    by_cases hfmt : c.fmt = .PF_NONE
    · rw [hfmt] at hr
      simp only [xplay_blit_framebuf, blit_params, Option.some.injEq, Prod.mk.injEq] at hr
      obtain ⟨rfl, _⟩ := hr
      rw [hb0] at hb
      simp only [Option.some.injEq] at hb
      rw [hb]
    · obtain ⟨_, _, hs, _, hk, hkeep⟩ :=
        blit_shape tex c.frame c.width c.height c.pitch c.fmt hfmt hw hh tex1 calls hr
      obtain ⟨k1, k2, k3⟩ := hkeep hsame
      rw [hk hok b hb, hok b0 hb0, k1, k2, k3]

theorem run_blits_ok (l : List blit_call) (tex0 : xplay_framebuf_texture)
    (hx : scratch_exact tex0) (hl : ∀ c, c ∈ l → blit_call_ok c) :
    ∃ tex, run_blits l tex0 = some tex ∧ scratch_exact tex := by
  induction l generalizing tex0 with
  | nil => exact ⟨tex0, rfl, hx⟩
  | cons c rest ih =>
    obtain ⟨tex1, calls, hr, hx1, _⟩ := blit_ok_step tex0 c (hl c (List.mem_cons_self _ _)) hx
    obtain ⟨tex, ht, hxt⟩ := ih tex1 hx1 (fun d hd => hl d (List.mem_cons_of_mem _ hd))
    refine ⟨tex, ?_, hxt⟩
    simp only [run_blits]
    rw [hr]
    exact ht

/-- C17: starting from a texture without scratch block, after any sequence of
uploads whose image size `texel_size * width * height` does not overflow
(allocations succeeding), the sequence completes and the scratch block, when
present, has exactly `texel_size * width * height` bytes for the stored format
and dimensions; hence a further upload on the repack path completes with every
row copy of `expected_pitch` bytes at offset `y * expected_pitch`, `y < height`,
inside the block, also when the block is reused from an earlier upload. -/
theorem scratch_size_invariant (tex0 : xplay_framebuf_texture) (h0 : tex0.tempbuf = none)
    (l : List blit_call) (hl : ∀ c, c ∈ l → blit_call_ok c) :
    ∃ tex, run_blits l tex0 = some tex ∧ scratch_exact tex ∧
      ∀ c, blit_call_ok c → c.fmt ≠ .PF_NONE → c.pitch ≠ umul (texel_size c.fmt) c.width →
        ∃ tex1 calls b,
          xplay_blit_framebuf tex c.frame c.width c.height c.pitch c.fmt = some (tex1, calls) ∧
          tex1.tempbuf = some b ∧
          b.length = texel_size c.fmt * c.width * c.height ∧
          (∀ y, y < c.height →
            umul y (umul (texel_size c.fmt) c.width) + umul (texel_size c.fmt) c.width
              ≤ b.length) ∧
          (¬ stored_differs tex c.width c.height c.fmt → ∀ b0, tex.tempbuf = some b0 →
            b0.length = b.length) := by
  have hx0 : scratch_exact tex0 := by
    intro b hb
    rw [h0] at hb
    exact absurd hb (by simp)
  obtain ⟨tex, ht, hx⟩ := run_blits_ok l tex0 hx0 hl
  refine ⟨tex, ht, hx, ?_⟩
  intro c hc hfmt hne
  obtain ⟨tex1, calls, hr, hx1, hs, hsome, hreuse⟩ := blit_ok_step tex c hc hx
  obtain ⟨b, hb⟩ := hsome hfmt hne
  have hst := hs hfmt
  simp only [stored_differs, not_or, not_not] at hst
  obtain ⟨s1, s2, s3⟩ := hst
  have hlen : b.length = texel_size c.fmt * c.width * c.height := by
    rw [(hx1 b hb).1, s1, s2, s3]
  obtain ⟨e1, e2⟩ := expected_size_eq _ _ _ hc.2.2
  refine ⟨tex1, calls, b, hr, hb, hlen, ?_, ?_⟩
  · intro y hy
    have h1 : (y + 1) * umul (texel_size c.fmt) c.width ≤
        c.height * umul (texel_size c.fmt) c.width := Nat.mul_le_mul_right _ (by omega)
    have h2 : (y + 1) * umul (texel_size c.fmt) c.width =
        y * umul (texel_size c.fmt) c.width + umul (texel_size c.fmt) c.width := by ring
    have h3 : c.height * umul (texel_size c.fmt) c.width =
        umul (texel_size c.fmt) c.width * c.height := by ring
    rw [umul_eq y _ (by omega), hlen, ← e1]
    omega
  · intro hsame b0 hb0
    exact (hreuse hsame b0 b hb0 hb).symm

/-- Witness for C17: two padded 2x2 RGBA-4444 uploads into a fresh texture; the
second reuses the 8-byte scratch block of the first. -/
theorem scratch_size_invariant_witness :
    ∃ tex, run_blits sample_blits (fresh_texture 2) = some tex ∧ scratch_exact tex ∧
      (tex.tempbuf.map List.length = some 8) := by
  obtain ⟨tex, ht, hx, _⟩ := scratch_size_invariant (fresh_texture 2) rfl sample_blits
    (by
      intro c hc
      simp only [sample_blits, List.mem_cons, List.mem_singleton, List.not_mem_nil,
        or_false] at hc
      rcases hc with rfl | rfl <;> (unfold blit_call_ok; decide))
  refine ⟨tex, ht, hx, ?_⟩
  have he : (run_blits sample_blits (fresh_texture 2)).map
      (fun t => t.tempbuf.map List.length) = some (some 8) := by decide
  rw [ht] at he
  simpa using he


/-! ## Lemmas on the menu section -/

/-- Decomposition of the menu section: the uploads of `menu_driver_frame` first,
then, when the menu is alive, the blended draw of the slot at the current menu
index. -/
theorem draw_menu_inv (vid : xplay_video) (integer_scale menu_is_alive : Bool)
    (env : frame_env) (vid1 : xplay_video) (calls : List gl_call)
    (h : draw_menu vid integer_scale menu_is_alive env = some (vid1, calls)) :
    ∃ vidu cu, run_texture_frames env.supports_rgba env.menu_uploads vid = some (vidu, cu) ∧
      vid1.menu_tex_index = vidu.menu_tex_index ∧
      (menu_is_alive = false → vid1 = vidu ∧ calls = cu) ∧
      (menu_is_alive = true → ∃ menu_tex prog t1 c2,
        slot_get vidu.menu_tex vidu.menu_tex_index = some menu_tex ∧
        xplay_get_framebuf_program vidu vidu.menu_rgb32 menu_tex.width menu_tex.height false
          = some prog ∧
        xplay_draw_framebuf prog menu_tex integer_scale vidu.menu_alpha = some (t1, c2) ∧
        vid1 = { vidu with menu_tex := slot_set vidu.menu_tex vidu.menu_tex_index t1 } ∧
        calls = cu ++ [gl_call.glEnable_BLEND] ++ c2 ++ [gl_call.glDisable_BLEND]) := by
  unfold draw_menu at h
  split at h
  · exact absurd h (by simp)
  · rename_i v c hv
    refine ⟨v, c, hv, ?_⟩
    cases menu_is_alive with
    | false =>
      simp only [Bool.false_eq_true, if_false, Option.some.injEq, Prod.mk.injEq] at h
      obtain ⟨rfl, rfl⟩ := h
      exact ⟨rfl, fun _ => ⟨rfl, rfl⟩, fun hc => absurd hc (by simp)⟩
    | true =>
      simp only [if_true] at h
      split at h
      · exact absurd h (by simp)
      · rename_i menu_tex hm
        split at h
        · exact absurd h (by simp)
        · rename_i prog hp
          split at h
          · exact absurd h (by simp)
          · rename_i t1 c2 hd
            simp only [Option.some.injEq, Prod.mk.injEq] at h
            obtain ⟨rfl, rfl⟩ := h
            exact ⟨rfl, fun hc => absurd hc (by simp),
              fun _ => ⟨menu_tex, prog, t1, c2, hm, hp, hd, rfl, rfl⟩⟩

theorem run_texture_frames_nil (supports_rgba : Bool) (vid : xplay_video) :
    run_texture_frames supports_rgba [] vid = some (vid, []) := rfl

/-- A call that neither uploads an overlay nor draws the menu leaves the menu
layer as it is. -/
theorem menu_idle_step_layer (vid vid1 : xplay_video) (s : menu_idle_step vid vid1) :
    vid1.menu_tex_index = vid.menu_tex_index ∧ vid1.menu_tex = vid.menu_tex := by
  cases s with
  | null_frame width height pitch msg vi st env r h =>
    rw [frame_null] at h
    simp only [Option.some.injEq] at h
    subst h
    exact ⟨rfl, rfl⟩
  | plain_frame mem width height pitch msg vi st env r halive hup h =>
    obtain ⟨tex, tex1, c_blit, prog, tex2, c_draw, vid4, c_menu, c_text,
      _, _, _, _, hmenu, hl, _, _⟩ := frame_some_inv _ _ _ _ _ _ _ _ _ _ h
    obtain ⟨vidu, cu, hu, _, hoff, _⟩ := draw_menu_inv _ _ _ _ _ _ hmenu
    rw [hup, run_texture_frames_nil] at hu
    simp only [Option.some.injEq, Prod.mk.injEq] at hu
    obtain ⟨rfl, _⟩ := hu
    obtain ⟨h4, _⟩ := hoff halive
    obtain ⟨_, _, _, l4, l5, _⟩ := hl
    rw [l4, l5, h4]
    exact ⟨rfl, rfl⟩

theorem menu_idle_steps_layer (vid vid1 : xplay_video) (s : menu_idle_steps vid vid1) :
    vid1.menu_tex_index = vid.menu_tex_index ∧ vid1.menu_tex = vid.menu_tex := by
  induction s with
  | refl => exact ⟨rfl, rfl⟩
  | tail vid1 vid2 _ s ih =>
    obtain ⟨a, b⟩ := menu_idle_step_layer _ _ s
    exact ⟨a.trans ih.1, b.trans ih.2⟩

theorem menu_idle_steps_reachable (vid vid1 : xplay_video) (hr : reachable vid)
    (s : menu_idle_steps vid vid1) : reachable vid1 := by
  induction s with
  | refl => exact hr
  | tail vid1 vid2 _ s ih =>
    cases s with
    | null_frame width height pitch msg vi st env r h =>
      exact reachable.step _ _ ih (driver_step.frame _ none width height pitch msg vi st env r h)
    | plain_frame mem width height pitch msg vi st env r halive hup h =>
      exact reachable.step _ _ ih
        (driver_step.frame _ (some mem) width height pitch msg vi st env r h)

/-- What one overlay upload does to the menu layer of a state with valid slots. -/
theorem set_texture_frame_slots (vid : xplay_video) (hs : slots_ok vid) (supports_rgba : Bool)
    (a : texture_frame) (vid1 : xplay_video) (calls : List gl_call)
    (h : xplay_set_texture_frame vid supports_rgba a = some (vid1, calls)) :
    vid1.menu_tex_index = (vid.menu_tex_index + 1) % 2 ∧
      vid1.menu_tex_index ≠ vid.menu_tex_index ∧
      (∃ tex tex1, slot_get vid.menu_tex vid1.menu_tex_index = some tex ∧
        xplay_blit_framebuf tex a.frame a.width a.height (menu_pitch a.rgb32 a.width)
          (menu_format a.rgb32 supports_rgba) = some (tex1, calls) ∧
        slot_get vid1.menu_tex vid1.menu_tex_index = some tex1) ∧
      slot_get vid1.menu_tex vid.menu_tex_index = slot_get vid.menu_tex vid.menu_tex_index := by
  obtain ⟨_, _, _, h4⟩ := hs
  have hidx : Int.tmod (vid.menu_tex_index + 1) XPLAY_FRAMEBUF_COUNT
      = (vid.menu_tex_index + 1) % 2 ∧
      Int.tmod (vid.menu_tex_index + 1) XPLAY_FRAMEBUF_COUNT ≠ vid.menu_tex_index := by
    rcases h4 with h0 | h1
    · rw [h0]; decide
    · rw [h1]; decide
  have hv0 : 0 ≤ vid.menu_tex_index := by
    rcases h4 with h0 | h1 <;> omega
  rw [set_texture_frame_unfold] at h
  split at h
  · exact absurd h (by simp)
  · rename_i tex htex
    split at h
    · exact absurd h (by simp)
    · rename_i tex1 c hb
      simp only [Option.some.injEq, Prod.mk.injEq] at h
      obtain ⟨rfl, rfl⟩ := h
      obtain ⟨hi0, hilt⟩ := slot_get_some_lt _ _ _ htex
      refine ⟨hidx.1, hidx.2, ⟨tex, tex1, htex, hb, ?_⟩, ?_⟩
      · exact slot_get_set_same _ _ _ hi0 hilt
      · exact slot_get_set_other _ _ _ _ hi0 hv0 hidx.2


/-! ## C11: rotation of the menu-layer slot -/

/-- C11 as stated fails: in the interleaving upload, frame call with the menu
alive, upload, upload, the menu draw of the frame call reads slot 1 (texture
name 3); the first upload after it writes slot 0 (name 1), but the second one
writes slot 1 (name 3) again, the slot the most recent menu draw read from. -/
theorem menu_upload_alias_counterexample :
    menu_probe = some ⟨1, [4, 3], 0, [1], 1, [3]⟩ := by
  decide

/-- C11, amended: in every reachable state the menu index is 0 or 1; every
overlay upload completes, rotates the index to (previous + 1) mod 2, writes the
slot at the new index and leaves the other slot untouched; a completed frame
call with the menu alive draws the slot at the current menu index, and the
first upload after that draw (after any calls that neither upload nor draw the
menu) writes the other slot and leaves the slot just read untouched. Nothing is
promised for a second upload without a menu draw in between. -/
theorem menu_slot_rotation (vid : xplay_video) (hr : reachable vid) :
    (vid.menu_tex_index = 0 ∨ vid.menu_tex_index = 1) ∧
    (∀ supports_rgba a, ∃ vid1 calls,
      xplay_set_texture_frame vid supports_rgba a = some (vid1, calls) ∧
      vid1.menu_tex_index = (vid.menu_tex_index + 1) % 2 ∧
      vid1.menu_tex_index ≠ vid.menu_tex_index ∧
      (∃ tex tex1, slot_get vid.menu_tex vid1.menu_tex_index = some tex ∧
        xplay_blit_framebuf tex a.frame a.width a.height (menu_pitch a.rgb32 a.width)
          (menu_format a.rgb32 supports_rgba) = some (tex1, calls) ∧
        slot_get vid1.menu_tex vid1.menu_tex_index = some tex1) ∧
      slot_get vid1.menu_tex vid.menu_tex_index = slot_get vid.menu_tex vid.menu_tex_index) ∧
    (∀ mem width height pitch msg vi st env r,
      vi.menu_is_alive = true →
      xplay_gfx_frame vid (some mem) width height pitch msg vi st env = some r →
      (∃ vid3 vidu cu menu_tex prog t1 c2 before after,
        vid3.menu_tex = vid.menu_tex ∧ vid3.menu_tex_index = vid.menu_tex_index ∧
        run_texture_frames env.supports_rgba env.menu_uploads vid3 = some (vidu, cu) ∧
        vidu.menu_tex_index = r.vid.menu_tex_index ∧
        slot_get vidu.menu_tex r.vid.menu_tex_index = some menu_tex ∧
        xplay_draw_framebuf prog menu_tex st.video_scale_integer vidu.menu_alpha
          = some (t1, c2) ∧
        slot_get r.vid.menu_tex r.vid.menu_tex_index = some t1 ∧
        r.calls = before ++ [gl_call.glEnable_BLEND] ++ c2 ++ [gl_call.glDisable_BLEND]
          ++ after) ∧
      ∀ vid1, menu_idle_steps r.vid vid1 →
        ∀ supports_rgba a vid2 calls,
          xplay_set_texture_frame vid1 supports_rgba a = some (vid2, calls) →
          vid2.menu_tex_index ≠ r.vid.menu_tex_index ∧
          slot_get vid2.menu_tex r.vid.menu_tex_index
            = slot_get r.vid.menu_tex r.vid.menu_tex_index) := by
  have hs := reachable_slots_ok vid hr
  refine ⟨hs.2.2.2, ?_, ?_⟩
  · intro supports_rgba a
    obtain ⟨⟨vid1, calls⟩, hset⟩ := set_texture_frame_defined vid hs supports_rgba a
    obtain ⟨k1, k2, k3, k4⟩ := set_texture_frame_slots vid hs supports_rgba a vid1 calls hset
    exact ⟨vid1, calls, hset, k1, k2, k3, k4⟩
  · intro mem width height pitch msg vi st env r halive h
    obtain ⟨tex, tex1, c_blit, prog0, tex2, c_draw, vid4, c_menu, c_text,
      _, _, _, _, hmenu, hl, _, hcalls⟩ := frame_some_inv _ _ _ _ _ _ _ _ _ _ h
    obtain ⟨vidu, cu, hu, hidx, _, hon⟩ := draw_menu_inv _ _ _ _ _ _ hmenu
    obtain ⟨menu_tex, prog, t1, c2, hm, _, hd, hv4, hc4⟩ := hon halive
    obtain ⟨_, _, _, l4, l5, _⟩ := hl
    have hri : r.vid.menu_tex_index = vidu.menu_tex_index := l5.trans hidx
    obtain ⟨hi0, hilt⟩ := slot_get_some_lt _ _ _ hm
    constructor
    · refine ⟨_, vidu, cu, menu_tex, prog, t1, c2, [gl_call.glClear] ++ c_blit ++ c_draw ++ cu,
        c_text ++ (if r.vid.has_swap_buffers then [gl_call.swap_buffers] else []),
        ?_, ?_, hu, hri.symm, by rw [hri]; exact hm, hd, ?_, ?_⟩
      · rfl
      · rfl
      · rw [l4, hv4, hri]
        exact slot_get_set_same _ _ _ hi0 hilt
      · rw [hcalls, hc4]
        simp only [List.append_assoc]
    · intro vid1 hidle supports_rgba a vid2 calls hset
      have hr1 : reachable r.vid :=
        reachable.step _ _ hr (driver_step.frame vid (some mem) width height pitch msg vi st env r h)
      have hs1 := reachable_slots_ok vid1 (menu_idle_steps_reachable _ _ hr1 hidle)
      obtain ⟨i1, i2⟩ := menu_idle_steps_layer _ _ hidle
      obtain ⟨_, k2, _, k4⟩ := set_texture_frame_slots vid1 hs1 supports_rgba a vid2 calls hset
      rw [i1] at k2 k4
      rw [i2] at k4
      exact ⟨k2, k4⟩

/-- Witness for the amended C11: the first overlay upload on the initial sample
state moves the menu index from 0 to 1. -/
theorem menu_slot_rotation_witness :
    ∃ vid1 calls, xplay_set_texture_frame sample_video false sample_upload = some (vid1, calls) ∧
      vid1.menu_tex_index = 1 ∧ vid1.menu_tex_index ≠ sample_video.menu_tex_index := by
  have hinit : is_initial sample_video :=
    ⟨⟨2, 4, rfl⟩, ⟨1, 3, rfl⟩, rfl, rfl, rfl, rfl, rfl, rfl, rfl⟩
  obtain ⟨_, hup, _⟩ := menu_slot_rotation sample_video (reachable.init _ hinit)
  obtain ⟨vid1, calls, hset, k1, k2, _⟩ := hup false sample_upload
  exact ⟨vid1, calls, hset, k1.trans (by decide), k2⟩


/-! ## C14: failure of the program loader -/

theorem load_shader_zero_iff (src : shader_source) (type : shader_type) (created : Nat)
    (compiled : Bool) :
    (xplay_load_shader src type created compiled).1 = 0 ↔ (created = 0 ∨ compiled = false) := by
  unfold xplay_load_shader
  by_cases hc : created = 0
  · simp [hc]
  · cases compiled <;> simp [hc]

theorem load_shader_name (src : shader_source) (type : shader_type) (created : Nat)
    (compiled : Bool) (h : (xplay_load_shader src type created compiled).1 ≠ 0) :
    (xplay_load_shader src type created compiled).1 = created := by
  unfold xplay_load_shader at h ⊢
  by_cases hc : created = 0
  · simp [hc] at h
  · cases compiled
    · simp [hc] at h
    · simp [hc]

theorem load_program_zero_iff (vsrc fsrc : shader_source) (o : gpu_outcome) :
    (xplay_load_program vsrc fsrc o).1 = 0 ↔
      (o.vert_shader = 0 ∨ o.vert_compiled = false ∨ o.frag_shader = 0 ∨
        o.frag_compiled = false ∨ o.program = 0 ∨ o.linked = false) := by
  have hv := load_shader_zero_iff vsrc .GL_VERTEX_SHADER o.vert_shader o.vert_compiled
  have hf := load_shader_zero_iff fsrc .GL_FRAGMENT_SHADER o.frag_shader o.frag_compiled
  unfold xplay_load_program
  simp only
  by_cases h1 : (xplay_load_shader vsrc .GL_VERTEX_SHADER o.vert_shader o.vert_compiled).1 = 0
  · rw [if_pos h1]
    have := hv.1 h1
    tauto
  · rw [if_neg h1]
    have h1' : ¬ (o.vert_shader = 0 ∨ o.vert_compiled = false) := fun hc => h1 (hv.2 hc)
    by_cases h2 : (xplay_load_shader fsrc .GL_FRAGMENT_SHADER o.frag_shader o.frag_compiled).1 = 0
    · rw [if_pos h2]
      have := hf.1 h2
      tauto
    · rw [if_neg h2]
      have h2' : ¬ (o.frag_shader = 0 ∨ o.frag_compiled = false) := fun hc => h2 (hf.2 hc)
      by_cases h3 : o.program = 0
      · rw [if_pos h3]
        tauto
      · rw [if_neg h3]
        cases hl : o.linked
        · simp
        · simp only [Bool.not_true, Bool.false_eq_true, if_false]
          constructor
          · intro h; exact absurd h h3
          · intro h
            rcases h with h | h | h | h | h | h
            · exact absurd (Or.inl h) h1'
            · exact absurd (Or.inr h) h1'
            · exact absurd (Or.inl h) h2'
            · exact absurd (Or.inr h) h2'
            · exact absurd h h3
            · exact absurd h (by simp)

theorem load_framebuf_program_none_iff (bgr : Bool) (hlines vlines : Int) (o : gpu_outcome) :
    (xplay_load_framebuf_program bgr hlines vlines o).1 = none ↔ load_fails o := by
  have hp := load_program_zero_iff shader_source.framebuf_vertex
    (framebuf_fragment_source bgr hlines vlines) o
  unfold xplay_load_framebuf_program load_fails
  simp only
  by_cases h0 : (xplay_load_program shader_source.framebuf_vertex
      (framebuf_fragment_source bgr hlines vlines) o).1 = 0
  · rw [if_pos h0]
    have := hp.1 h0
    simp only [true_iff]
    tauto
  · rw [if_neg h0]
    have h0' := fun hc => h0 (hp.2 hc)
    by_cases a1 : o.pos_loc < 0
    · rw [if_pos a1]; simp only [true_iff]; tauto
    · rw [if_neg a1]
      by_cases a2 : o.tex_loc < 0
      · rw [if_pos a2]; simp only [true_iff]; tauto
      · rw [if_neg a2]
        by_cases a3 : o.sampler_loc < 0
        · rw [if_pos a3]; simp only [true_iff]; tauto
        · rw [if_neg a3]
          by_cases a4 : o.alpha_loc < 0
          · rw [if_pos a4]; simp only [true_iff]; tauto
          · rw [if_neg a4]
            simp only [reduceCtorEq, false_iff]
            tauto

/-- C14 fails on the code in its second half. The first half holds: the loader
returns `NULL` exactly when a shader fails to be created or compiled, the
program fails to be created or linked, or a location does not resolve. But when
the link fails, or a location does not resolve, only the program object is
deleted: the two shader objects created during the call stay alive, whereas the
branch for a failed `glCreateProgram` deletes both. -/
theorem load_framebuf_program_leaks_shaders (bgr : Bool) (hlines vlines : Int)
    (o : gpu_outcome) :
    ((xplay_load_framebuf_program bgr hlines vlines o).1 = none ↔ load_fails o) ∧
    (xplay_load_framebuf_program false 2 2 link_failure).1 = none ∧
    created_objects (xplay_load_framebuf_program false 2 2 link_failure).2
      = [.shader 1, .shader 2, .program 3] ∧
    deleted_objects (xplay_load_framebuf_program false 2 2 link_failure).2 = [.program 3] ∧
    leaked_objects (xplay_load_framebuf_program false 2 2 link_failure).2
      = [.shader 1, .shader 2] ∧
    (xplay_load_framebuf_program false 2 2 location_failure).1 = none ∧
    leaked_objects (xplay_load_framebuf_program false 2 2 location_failure).2
      = [.shader 1, .shader 2] ∧
    (xplay_load_framebuf_program false 2 2 create_program_failure).1 = none ∧
    leaked_objects (xplay_load_framebuf_program false 2 2 create_program_failure).2 = [] :=
  ⟨load_framebuf_program_none_iff bgr hlines vlines o, by decide, by decide, by decide,
    by decide, by decide, by decide, by decide, by decide⟩


/-- Full decomposition of a completed frame call with a non-null buffer,
including the text section. -/
theorem frame_some_inv_full (vid : xplay_video) (mem : Nat → Nat) (width height pitch : Nat)
    (msg : Option (List Nat)) (vi : video_frame_info) (st : settings_t) (env : frame_env)
    (r : frame_result)
    (h : xplay_gfx_frame vid (some mem) width height pitch msg vi st env = some r) :
    ∃ tex tex1 c_blit prog tex2 c_draw vid4 c_menu c_text,
      slot_get vid.frame_tex (Int.tmod (vid.frame_tex_index + 1) XPLAY_FRAMEBUF_COUNT) = some tex ∧
      xplay_blit_framebuf tex mem width height pitch (frame_format vid.frame_rgb32 vi.use_rgba)
        = some (tex1, c_blit) ∧
      xplay_get_framebuf_program
          { vid with
            frame_tex_index := Int.tmod (vid.frame_tex_index + 1) XPLAY_FRAMEBUF_COUNT,
            frame_tex := slot_set vid.frame_tex
              (Int.tmod (vid.frame_tex_index + 1) XPLAY_FRAMEBUF_COUNT) tex1 }
          vid.frame_rgb32 (to_int width) (to_int height)
          (st.video_scale_integer && st.video_notch_write_over_enable) = some prog ∧
      xplay_draw_framebuf prog tex1 st.video_scale_integer 1 = some (tex2, c_draw) ∧
      draw_menu
          { vid with
            frame_tex_index := Int.tmod (vid.frame_tex_index + 1) XPLAY_FRAMEBUF_COUNT,
            frame_tex := slot_set (slot_set vid.frame_tex
              (Int.tmod (vid.frame_tex_index + 1) XPLAY_FRAMEBUF_COUNT) tex1)
              (Int.tmod (vid.frame_tex_index + 1) XPLAY_FRAMEBUF_COUNT) tex2 }
          st.video_scale_integer vi.menu_is_alive env = some (vid4, c_menu) ∧
      text_stage vid4 msg vi env r c_text ∧
      r.ret = true ∧
      r.calls = [gl_call.glClear] ++ c_blit ++ c_draw ++ c_menu ++ c_text ++
        (if r.vid.has_swap_buffers then [gl_call.swap_buffers] else []) := by
  unfold xplay_gfx_frame at h
  simp only at h
  split at h
  · exact absurd h (by simp)
  · rename_i tex htex
    split at h
    · exact absurd h (by simp)
    · rename_i tex1 c_blit hblit
      split at h
      · exact absurd h (by simp)
      · rename_i prog hprog
        split at h
        · exact absurd h (by simp)
        · rename_i tex2 c_draw hdraw
          split at h
          · exact absurd h (by simp)
          · rename_i vid4 c_menu hmenu
            split at h
            · exact absurd h (by simp)
            · rename_i vid5 font1 c_text htext
              simp only [Option.some.injEq] at h
              subst h
              refine ⟨tex, tex1, c_blit, prog, tex2, c_draw, vid4, c_menu, c_text,
                htex, hblit, hprog, hdraw, hmenu, ?_, rfl, rfl⟩
              cases msg with
              | none =>
                simp only [Option.some.injEq, Prod.mk.injEq] at htext
                obtain ⟨rfl, _, rfl⟩ := htext
                exact Or.inl ⟨rfl, rfl, rfl⟩
              | some m =>
                simp only at htext
                split at htext
                · exact absurd htext (by simp)
                · rename_i v f c hv
                  simp only [Option.some.injEq, Prod.mk.injEq] at htext
                  obtain ⟨rfl, rfl, rfl⟩ := htext
                  exact Or.inr ⟨m, c, rfl, hv, rfl⟩


theorem same_text_refl (vid : xplay_video) : same_text vid vid := ⟨rfl, rfl, rfl⟩

theorem same_text_trans (a b c : xplay_video) (h1 : same_text a b) (h2 : same_text b c) :
    same_text a c :=
  ⟨h2.1.trans h1.1, h2.2.1.trans h1.2.1, h2.2.2.trans h1.2.2⟩

theorem text_loop_ok_same (vid vid1 : xplay_video) (h : same_text vid vid1)
    (hok : text_loop_ok vid) : text_loop_ok vid1 := by
  obtain ⟨h1, h2, h3⟩ := h
  unfold text_loop_ok text_capacity_ok at *
  rw [h1, h2, h3]
  exact hok

/-- An overlay upload does not touch the glyph vertex block. -/
theorem set_texture_frame_text (vid : xplay_video) (supports_rgba : Bool) (a : texture_frame)
    (vid1 : xplay_video) (calls : List gl_call)
    (h : xplay_set_texture_frame vid supports_rgba a = some (vid1, calls)) :
    same_text vid vid1 := by
  rw [set_texture_frame_unfold] at h
  split at h
  · exact absurd h (by simp)
  · split at h
    · exact absurd h (by simp)
    · simp only [Option.some.injEq, Prod.mk.injEq] at h
      obtain ⟨rfl, _⟩ := h
      exact ⟨rfl, rfl, rfl⟩

theorem run_texture_frames_text (supports_rgba : Bool) (l : List texture_frame)
    (vid vid1 : xplay_video) (calls : List gl_call)
    (h : run_texture_frames supports_rgba l vid = some (vid1, calls)) :
    same_text vid vid1 := by
  induction l generalizing vid calls with
  | nil =>
    simp only [run_texture_frames, Option.some.injEq, Prod.mk.injEq] at h
    obtain ⟨rfl, _⟩ := h
    exact same_text_refl _
  | cons a rest ih =>
    simp only [run_texture_frames] at h
    split at h
    · exact absurd h (by simp)
    · rename_i v c hv
      split at h
      · exact absurd h (by simp)
      · rename_i v2 c2 hv2
        simp only [Option.some.injEq, Prod.mk.injEq] at h
        obtain ⟨rfl, _⟩ := h
        exact same_text_trans _ _ _ (set_texture_frame_text vid supports_rgba a v c hv)
          (ih v c2 hv2)

theorem draw_menu_text (vid : xplay_video) (integer_scale menu_is_alive : Bool)
    (env : frame_env) (vid1 : xplay_video) (calls : List gl_call)
    (h : draw_menu vid integer_scale menu_is_alive env = some (vid1, calls)) :
    same_text vid vid1 := by
  obtain ⟨vidu, cu, hu, _, hdead, halive⟩ := draw_menu_inv _ _ _ _ _ _ h
  have h1 := run_texture_frames_text _ _ _ _ _ hu
  cases hm : menu_is_alive with
  | false =>
    rw [(hdead hm).1]
    exact h1
  | true =>
    obtain ⟨menu_tex, prog, t1, c2, _, _, _, hv, _⟩ := halive hm
    rw [hv]
    exact h1


theorem pen_x_succ (x : Int) (g : font_glyph) (gs : List font_glyph) (i : Nat) :
    pen_x x (g :: gs) (i + 1) = pen_x (x + g.advance_x) gs i := by
  simp only [pen_x, List.take_succ_cons, List.map_cons, List.sum_cons]
  ring

theorem pen_y_succ (y : Int) (g : font_glyph) (gs : List font_glyph) (i : Nat) :
    pen_y y (g :: gs) (i + 1) = pen_y (y + g.advance_y) gs i := by
  simp only [pen_y, List.take_succ_cons, List.map_cons, List.sum_cons]
  ring

/-- The `i`-th block of 24 floats of the concatenated quads is the quad of the
`i`-th glyph, computed at the pen position reached after the glyphs before it. -/
theorem quads_from_chunk (vid : xplay_video) (width height : Nat) (gs : List font_glyph)
    (x y : Int) (l : List Rat) (hl : quads_from vid width height gs x y = some l)
    (i : Nat) (hi : i < gs.length) :
    glyph_quad vid (gs.get ⟨i, hi⟩) width height
        (pen_x x gs i + (gs.get ⟨i, hi⟩).draw_offset_x)
        (pen_y y gs i - (gs.get ⟨i, hi⟩).draw_offset_y)
      = some ((l.drop (24 * i)).take 24) := by
  induction gs generalizing x y l i with
  | nil => exact absurd hi (by simp)
  | cons g gs ih =>
    obtain ⟨q, qs, hq, hqs, rfl⟩ := quads_from_cons_inv _ _ _ _ _ _ _ _ hl
    have hq24 := glyph_quad_length _ _ _ _ _ _ _ hq
    cases i with
    | zero =>
      simp only [Nat.mul_zero, List.drop_zero, pen_x, pen_y, List.take_zero,
        List.map_nil, List.sum_nil, add_zero, List.get_eq_getElem, List.getElem_cons_zero]
      rw [List.take_left' hq24]
      exact hq
    | succ j =>
      have hj : j < gs.length := by simpa using hi
      have hd : 24 * (j + 1) = q.length + 24 * j := by
        rw [hq24]
        ring
      rw [pen_x_succ, pen_y_succ, hd, List.drop_append]
      exact ih _ _ _ hqs j hj

theorem chunk_of_take (l : List Rat) (n i : Nat) (hi : i < n) :
    ((l.take (24 * n)).drop (24 * i)).take 24 = (l.drop (24 * i)).take 24 := by
  rw [List.drop_take, List.take_take]
  congr 1
  omega

theorem to_unsigned_to_int_mod (n : Nat) : to_unsigned (to_int n) = n % UINT_RANGE := by
  unfold to_unsigned to_int UINT_RANGE
  split_ifs <;> omega

/-- With a font, an atlas texture, non-zero dimensions and all `int` arithmetic
in range, `xplay_render_msg` completes: the logical length ends at 24 floats
per known character, the buffer starts with the quads of the known glyphs in
order, and the only `glDrawArrays` call covers six vertices per known
character. -/
theorem render_msg_ok (vid : xplay_video) (font : font_renderer) (gen : Nat) (msg : List Nat)
    (width height : Nat) (px py : Rat) (ox oy : Int)
    (hcap : text_capacity_ok vid) (hfont : vid.font = true)
    (hatlas : (xplay_maybe_init_font_texture vid font gen).1.font_atlas_tex ≠ 0)
    (hdims : text_dims_ok (xplay_maybe_init_font_texture vid font gen).1 width height)
    (hx : msg_origin px width = some ox) (hy : msg_origin py height = some oy)
    (hpen : glyphs_in_range (known_glyphs font msg) ox oy)
    (hlen : 24 * ((known_glyphs font msg).length : Int) ≤ 1073741824) :
    ∃ vid1 font1 calls l,
      xplay_render_msg vid font gen msg width height px py = some (vid1, font1, calls) ∧
      text_loop_ok vid1 ∧
      vid1.text_verts_size = 24 * ((known_glyphs font msg).length : Int) ∧
      vid.text_verts_capacity ≤ vid1.text_verts_capacity ∧
      quads_from vid1 width height (known_glyphs font msg) ox oy = some l ∧
      vid1.text_verts.take (24 * (known_glyphs font msg).length) = l ∧
      text_draws calls = [6 * ((known_glyphs font msg).length : Int)] ∧
      only_text_changed (xplay_maybe_init_font_texture vid font gen).1 vid1 := by
  obtain ⟨hst, _, hg⟩ := maybe_init_font_texture_text vid font gen
  have hdr := maybe_init_font_texture_draws vid font gen
  have hk := known_glyphs_congr font (xplay_maybe_init_font_texture vid font gen).2.1 msg hg
  obtain ⟨e1, e2, e3⟩ := hst
  obtain ⟨hc, hclen⟩ := hcap
  have hok0 : text_loop_ok
      { (xplay_maybe_init_font_texture vid font gen).1 with text_verts_size := 0 } := by
    refine ⟨⟨?_, ?_⟩, le_refl _, ?_⟩
    · show (xplay_maybe_init_font_texture vid font gen).1.text_verts_capacity = 0 ∨
        ∃ k : Nat, (xplay_maybe_init_font_texture vid font gen).1.text_verts_capacity
          = 4096 * 2 ^ k
      rw [e3]
      exact hc
    · show (xplay_maybe_init_font_texture vid font gen).1.text_verts.length
        = (xplay_maybe_init_font_texture vid font gen).1.text_verts_capacity.toNat
      rw [e1, e3]
      exact hclen
    · show (0 : Int) ≤ (xplay_maybe_init_font_texture vid font gen).1.text_verts_capacity
      rw [e3]
      rcases hc with hz | ⟨k, hk2⟩
      · omega
      · rw [hk2]
        positivity
  have hd0 : text_dims_ok
      { (xplay_maybe_init_font_texture vid font gen).1 with text_verts_size := 0 }
      width height := hdims
  obtain ⟨vid2, hl⟩ := layout_glyphs_defined (xplay_maybe_init_font_texture vid font gen).2.1
    width height msg ox oy _ hok0 hd0 (by rw [hk]; exact hpen)
    (by rw [hk]; simp only; omega)
  obtain ⟨hok2, hsz, hcap2, ⟨l, hq, htake⟩, hch, _⟩ := layout_glyphs_inv _ _ _ _ _ _ _ _ hok0 hl
  simp only at hsz hcap2 htake
  rw [hk] at hsz hq
  have hsz2 : vid2.text_verts_size = 24 * ((known_glyphs font msg).length : Int) := by
    rw [hsz]
    ring
  obtain ⟨hw, hh⟩ := only_text_changed_atlas _ _ hch
  simp only at hw hh
  obtain ⟨_, _, _, _, a1, a2, a3, a4⟩ := hdims
  obtain ⟨⟨pw, ph⟩, ht⟩ := atlas_texel_defined vid2 (by rw [hw]; exact a1) (by rw [hw]; exact a2)
    (by rw [hh]; exact a3) (by rw [hh]; exact a4)
  have hr := render_msg_draw vid font gen msg width height px py ox oy vid2 pw ph hfont hatlas
    hx hy hl ht
  refine ⟨vid2, _, _, l, hr, hok2, hsz2, ?_, ?_, ?_, ?_, ?_⟩
  · rw [← e3]
    exact hcap2
  · rw [← hq]
    exact quads_from_congr _ vid2 width height _ _ _ hw hh
  · have hn : vid2.text_verts_size.toNat = 24 * (known_glyphs font msg).length := by
      rw [hsz2]
      omega
    rw [hn] at htake
    rw [htake]
    simp
  · have hd : Int.tdiv vid2.text_verts_size 4 = 6 * ((known_glyphs font msg).length : Int) := by
      rw [hsz2]
      have : (24 : Int) * ((known_glyphs font msg).length : Int)
          = 4 * (6 * ((known_glyphs font msg).length : Int)) := by ring
      rw [this]
      exact Int.mul_tdiv_cancel_left _ (by decide)
    simp only [text_draws, List.filterMap_append] at hdr ⊢
    rw [hdr, hd]
    rfl
  · unfold only_text_changed at hch ⊢
    rw [hch]

/-- C12 counterexample: the message `AA` with a font whose glyph for `A` has
`advance_x = INT_MAX`, on the 854x480 output with origin fraction 1/2. The
origin is 427, and the pen advance `msg_base_x += glyph->advance_x` of the first
`A` is `427 + 2147483647`, which no `int` holds: the call is undefined, and the
pen of the second `A` is not the origin plus the advance. -/
theorem pen_overflow_counterexample :
    msg_origin (1 / 2) 854 = some 427 ∧
    wide_font.get_glyph 65 = some (sample_glyph 0 2147483647) ∧
    int_add 427 (sample_glyph 0 2147483647).advance_x = none ∧
    xplay_render_msg text_video wide_font 9 [65, 65] 854 480 (1 / 2) (1 / 2) = none :=
  ⟨by decide!, rfl, by decide, Option.isNone_iff_eq_none.mp (by decide!)⟩

/-- C12: with a font, an atlas texture, non-zero output and atlas dimensions,
origins that convert to `int`, pen arithmetic of the known glyphs within `int`
and at most `2 ^ 29` floats to emit, `xplay_render_msg` completes for every
message, glyph provider and consistent prior buffer state. Afterwards
`text_verts_size` is 24 times the number of characters for which the provider
returns metrics (whatever the length was before), the single `glDrawArrays`
call covers 6 vertices per such character, and the `i`-th block of 24 floats is
the quad of the `i`-th known glyph: its corners are the binary32 values of
`-1 + 2 * pixel / dimension` at the pen position (origin plus the advances of
the known glyphs before it) moved by the draw offsets, and at that corner moved
by the glyph size plus one; its texture coordinates are the atlas offsets, and
the offsets plus size plus one, divided by the atlas dimensions. -/
theorem render_msg_one_quad_per_known_char (vid : xplay_video) (font : font_renderer)
    (gen : Nat) (msg : List Nat) (width height : Nat) (px py : Rat) (ox oy : Int)
    (hcap : text_capacity_ok vid) (hfont : vid.font = true)
    (hatlas : (xplay_maybe_init_font_texture vid font gen).1.font_atlas_tex ≠ 0)
    (hdims : text_dims_ok (xplay_maybe_init_font_texture vid font gen).1 width height)
    (hx : msg_origin px width = some ox) (hy : msg_origin py height = some oy)
    (hpen : glyphs_in_range (known_glyphs font msg) ox oy)
    (hlen : 24 * ((known_glyphs font msg).length : Int) ≤ TEXT_FLOATS_MAX) :
    ∃ vid1 font1 calls,
      xplay_render_msg vid font gen msg width height px py = some (vid1, font1, calls) ∧
      vid1.text_verts_size = 24 * ((known_glyphs font msg).length : Int) ∧
      text_draws calls = [6 * ((known_glyphs font msg).length : Int)] ∧
      ∀ (i : Nat) (hi : i < (known_glyphs font msg).length),
        ∃ x0 y0 x1 y1 tx0 ty0 tx1 ty1 : Rat,
          (vid1.text_verts.drop (24 * i)).take 24 =
            [x0, y0, tx0, ty0,  x0, y1, tx0, ty1,  x1, y0, tx1, ty0,
             x0, y1, tx0, ty1,  x1, y1, tx1, ty1,  x1, y0, tx1, ty0] ∧
          screen_coord (pen_x ox (known_glyphs font msg) i
            + ((known_glyphs font msg).get ⟨i, hi⟩).draw_offset_x) width = some x0 ∧
          screen_coord (pen_y oy (known_glyphs font msg) i
            - ((known_glyphs font msg).get ⟨i, hi⟩).draw_offset_y) height = some y0 ∧
          screen_coord (pen_x ox (known_glyphs font msg) i
            + ((known_glyphs font msg).get ⟨i, hi⟩).draw_offset_x
            + to_int (((known_glyphs font msg).get ⟨i, hi⟩).width + 1)) width = some x1 ∧
          screen_coord (pen_y oy (known_glyphs font msg) i
            - ((known_glyphs font msg).get ⟨i, hi⟩).draw_offset_y
            - to_int (((known_glyphs font msg).get ⟨i, hi⟩).height + 1)) height = some y1 ∧
          atlas_coord ((known_glyphs font msg).get ⟨i, hi⟩).atlas_offset_x
            vid1.font_atlas_width = some tx0 ∧
          atlas_coord ((known_glyphs font msg).get ⟨i, hi⟩).atlas_offset_y
            vid1.font_atlas_height = some ty0 ∧
          atlas_coord ((((known_glyphs font msg).get ⟨i, hi⟩).atlas_offset_x
            + ((known_glyphs font msg).get ⟨i, hi⟩).width + 1) % UINT_RANGE)
            vid1.font_atlas_width = some tx1 ∧
          atlas_coord ((((known_glyphs font msg).get ⟨i, hi⟩).atlas_offset_y
            + ((known_glyphs font msg).get ⟨i, hi⟩).height + 1) % UINT_RANGE)
            vid1.font_atlas_height = some ty1 := by
  obtain ⟨vid1, font1, calls, l, hr, _, hsz, _, hq, htake, hdraw, _⟩ :=
    render_msg_ok vid font gen msg width height px py ox oy hcap hfont hatlas hdims hx hy hpen
      (by unfold TEXT_FLOATS_MAX at hlen; omega)
  refine ⟨vid1, font1, calls, hr, hsz, hdraw, ?_⟩
  intro i hi
  have hc := quads_from_chunk vid1 width height _ ox oy l hq i hi
  rw [← htake, chunk_of_take vid1.text_verts _ i hi] at hc
  obtain ⟨x0, y0, x1, y1, tx0, ty0, tx1, ty1, _, _, p1, p2, p3, p4, t1, t2, t3, t4, hshape⟩ :=
    glyph_quad_inv _ _ _ _ _ _ _ hc
  rw [quad_position_screen_coord] at p1 p2 p3 p4
  rw [quad_texture_atlas_coord] at t1 t2 t3 t4
  rw [to_unsigned_to_int_mod, Nat.add_mod_mod, ← Nat.add_assoc] at t3 t4
  exact ⟨x0, y0, x1, y1, tx0, ty0, tx1, ty1, hshape, p1, p2, p3, p4, t1, t2, t3, t4⟩

/-- Witness for C12: the message `A?B` at the centre of an 854x480 output, with
the sample font that knows `A` and `B` only, is laid out as two quads; the
second one starts at the origin 427 plus the advance 8 of `A`. -/
theorem render_msg_one_quad_per_known_char_witness :
    text_capacity_ok text_video ∧ text_video.font = true ∧
    (xplay_maybe_init_font_texture text_video text_font 9).1.font_atlas_tex ≠ 0 ∧
    text_dims_ok (xplay_maybe_init_font_texture text_video text_font 9).1 854 480 ∧
    msg_origin (1 / 2) 854 = some 427 ∧ msg_origin (1 / 2) 480 = some 240 ∧
    glyphs_in_range (known_glyphs text_font [65, 63, 66]) 427 240 ∧
    (known_glyphs text_font [65, 63, 66]).length = 2 ∧
    pen_x 427 (known_glyphs text_font [65, 63, 66]) 1 = 435 ∧
    ∃ vid1 font1 calls,
      xplay_render_msg text_video text_font 9 [65, 63, 66] 854 480 (1 / 2) (1 / 2)
        = some (vid1, font1, calls) ∧
      vid1.text_verts_size = 48 ∧ text_draws calls = [12] := by
  have hcap : text_capacity_ok text_video := ⟨Or.inl rfl, rfl⟩
  have hfont : text_video.font = true := rfl
  have hatlas : (xplay_maybe_init_font_texture text_video text_font 9).1.font_atlas_tex ≠ 0 := by
    decide
  have hdims : text_dims_ok (xplay_maybe_init_font_texture text_video text_font 9).1 854 480 := by
    unfold text_dims_ok int_range; decide
  have hx : msg_origin (1 / 2) 854 = some 427 := by decide!
  have hy : msg_origin (1 / 2) 480 = some 240 := by decide!
  have hpen : glyphs_in_range (known_glyphs text_font [65, 63, 66]) 427 240 := by decide
  have hlen : 24 * ((known_glyphs text_font [65, 63, 66]).length : Int) ≤ TEXT_FLOATS_MAX := by
    decide
  obtain ⟨vid1, font1, calls, hr, hsz, hdraw, _⟩ :=
    render_msg_one_quad_per_known_char text_video text_font 9 [65, 63, 66] 854 480 (1 / 2) (1 / 2)
      427 240 hcap hfont hatlas hdims hx hy hpen hlen
  exact ⟨hcap, hfont, hatlas, hdims, hx, hy, hpen, by decide, by decide,
    vid1, font1, calls, hr, hsz, hdraw⟩


theorem text_loop_ok_reset (vid : xplay_video) (h : text_capacity_ok vid) :
    text_loop_ok { vid with text_verts_size := 0 } := by
  obtain ⟨hc, hlen⟩ := h
  refine ⟨⟨hc, hlen⟩, le_refl _, ?_⟩
  show (0 : Int) ≤ vid.text_verts_capacity
  rcases hc with hz | ⟨k, hk⟩
  · omega
  · rw [hk]
    positivity

/-- A completed `xplay_render_msg` keeps the loop invariant of the glyph vertex
block and does not lower its capacity. -/
theorem render_msg_text (vid : xplay_video) (font : font_renderer) (gen : Nat) (msg : List Nat)
    (width height : Nat) (px py : Rat) (v : xplay_video) (f : font_renderer)
    (c : List gl_call) (hok : text_loop_ok vid)
    (h : xplay_render_msg vid font gen msg width height px py = some (v, f, c)) :
    text_loop_ok v ∧ vid.text_verts_capacity ≤ v.text_verts_capacity := by
  obtain ⟨hst, _, _⟩ := maybe_init_font_texture_text vid font gen
  have hok1 := text_loop_ok_same _ _ hst hok
  rcases render_msg_cases _ _ _ _ _ _ _ _ _ _ _ h with
    ⟨_, rfl, _⟩ | ⟨_, _, rfl, _⟩ | ⟨_, _, x0, y0, pw, ph, _, _, hl, _, _⟩
  · exact ⟨hok, le_refl _⟩
  · exact ⟨hok1, le_of_eq hst.2.2.symm⟩
  · obtain ⟨l1, _, l3, _⟩ := layout_glyphs_inv _ _ _ _ _ _ _ _ (text_loop_ok_reset _ hok1.1) hl
    refine ⟨l1, ?_⟩
    rw [← hst.2.2]
    exact l3

/-- A completed frame call keeps the loop invariant of the glyph vertex block and
does not lower its capacity. -/
theorem frame_text (vid : xplay_video) (frame : Option (Nat → Nat))
    (width height pitch : Nat) (msg : Option (List Nat)) (vi : video_frame_info)
    (st : settings_t) (env : frame_env) (r : frame_result) (hok : text_loop_ok vid)
    (h : xplay_gfx_frame vid frame width height pitch msg vi st env = some r) :
    text_loop_ok r.vid ∧ vid.text_verts_capacity ≤ r.vid.text_verts_capacity := by
  cases frame with
  | none =>
    rw [frame_null] at h
    simp only [Option.some.injEq] at h
    subst h
    exact ⟨hok, le_refl _⟩
  | some mem =>
    obtain ⟨tex, tex1, c_blit, prog, tex2, c_draw, vid4, c_menu, c_text,
      _, _, _, _, hmenu, htext, _, _⟩ := frame_some_inv_full _ _ _ _ _ _ _ _ _ _ h
    have h4 : same_text vid vid4 := by
      have h3 := draw_menu_text _ _ _ _ _ _ hmenu
      exact h3
    have hok4 := text_loop_ok_same _ _ h4 hok
    rcases htext with ⟨_, hv, _⟩ | ⟨m, c, _, hm, _⟩
    · rw [hv]
      exact ⟨hok4, le_of_eq h4.2.2.symm⟩
    · obtain ⟨hv, hc⟩ := render_msg_text _ _ _ _ _ _ _ _ _ _ _ hok4 hm
      refine ⟨hv, ?_⟩
      rw [← h4.2.2]
      exact hc

theorem driver_step_text (vid vid1 : xplay_video) (hok : text_loop_ok vid)
    (s : driver_step vid vid1) :
    text_loop_ok vid1 ∧ vid.text_verts_capacity ≤ vid1.text_verts_capacity := by
  cases s with
  | frame frame width height pitch msg video_info settings env r h =>
    exact frame_text _ _ _ _ _ _ _ _ _ _ hok h
  | texture_frame supports_rgba a _ calls h =>
    have hs := set_texture_frame_text _ _ _ _ _ h
    exact ⟨text_loop_ok_same _ _ hs hok, le_of_eq hs.2.2.symm⟩

/-- In every reachable driver state the glyph vertex block satisfies the loop
invariant. -/
theorem reachable_text_ok (vid : xplay_video) (h : reachable vid) : text_loop_ok vid := by
  induction h with
  | init vid hi =>
    obtain ⟨_, _, _, _, _, _, h1, h2, h3⟩ := hi
    refine ⟨⟨Or.inl h3, ?_⟩, ?_, ?_⟩
    · rw [h1, h3]
      rfl
    · rw [h2]
    · rw [h2, h3]
  | step vid vid1 _ s ih => exact (driver_step_text vid vid1 ih s).1

theorem known_glyphs_replicate (n : Nat) :
    known_glyphs text_font (List.replicate n 65) = List.replicate n (sample_glyph 0 8) := by
  induction n with
  | zero => rfl
  | succ n ih =>
    rw [List.replicate_succ, known_glyphs_known text_font 65 _ (sample_glyph 0 8) (by decide) rfl,
      ih, List.replicate_succ]

theorem glyphs_in_range_replicate (n : Nat) (x : Int) (h0 : 0 ≤ x)
    (h : x + 8 * (n : Int) + 9 < 2147483648) :
    glyphs_in_range (List.replicate n (sample_glyph 0 8)) x 0 := by
  induction n generalizing x with
  | zero => trivial
  | succ n ih =>
    push_cast at h
    rw [List.replicate_succ]
    refine ⟨?_, ?_⟩
    · unfold glyph_in_range int_range
      have e1 : to_int ((sample_glyph 0 8).width + 1) = 8 := by decide
      have e2 : to_int ((sample_glyph 0 8).height + 1) = 10 := by decide
      rw [e1, e2]
      simp only [sample_glyph, UINT_RANGE]
      omega
    · have := ih (x + (sample_glyph 0 8).advance_x) (by simp only [sample_glyph]; omega)
        (by simp only [sample_glyph]; omega)
      simpa [sample_glyph] using this

theorem text_ready_video_ok :
    text_loop_ok text_ready_video ∧ text_dims_ok text_ready_video 854 480 ∧
      is_initial text_ready_video := by
  refine ⟨⟨⟨Or.inl rfl, rfl⟩, le_refl _, le_refl _⟩, ?_,
    ⟨⟨2, 4, rfl⟩, ⟨1, 3, rfl⟩, rfl, rfl, rfl, rfl, rfl, rfl, rfl⟩⟩
  unfold text_dims_ok int_range
  decide

/-- C13 counterexample: the message of 44739243 letters `A` on the example font,
laid out from length 0 on the example state. After 44739242 glyphs the block
holds 1073741808 floats at capacity `2 ^ 30`; the next glyph needs 24 more, and
the doubling `text_verts_capacity * 2` is `2 ^ 31`, which no `int` holds: the
growth block, and with it the layout, is undefined. -/
theorem capacity_overflow_counterexample :
    (∃ v, layout_glyphs text_font 854 480 (List.replicate 44739242 65) 0 0 text_ready_video
        = some v ∧
      v.text_verts_size = 1073741808 ∧ v.text_verts_capacity = 1073741824 ∧
      int_mul v.text_verts_capacity 2 = none ∧ grow_text_verts v = none) ∧
    layout_glyphs text_font 854 480 (List.replicate 44739243 65) 0 0 text_ready_video
      = none := by
  obtain ⟨hok, hd, _⟩ := text_ready_video_ok
  constructor
  · obtain ⟨v, hv⟩ := layout_glyphs_defined text_font 854 480 (List.replicate 44739242 65) 0 0
      text_ready_video hok hd
      (by rw [known_glyphs_replicate]; exact glyphs_in_range_replicate _ 0 (le_refl _) (by norm_num))
      (by
        rw [known_glyphs_replicate, List.length_replicate]
        show (0 : Int) + 24 * ((44739242 : Nat) : Int) ≤ 1073741824
        norm_num)
    obtain ⟨l1, l2, _, _, _, l7⟩ := layout_glyphs_inv _ _ _ _ _ _ _ _ hok hv
    rw [known_glyphs_replicate, List.length_replicate] at l2
    have hsz : v.text_verts_size = 1073741808 := by
      rw [l2]
      show (0 : Int) + 24 * ((44739242 : Nat) : Int) = 1073741808
      norm_num
    have hle : v.text_verts_capacity ≤ 1073741824 := l7 (by decide)
    have hge := l1.2.2
    have hcap : v.text_verts_capacity = 1073741824 := by
      rcases l1.1.1 with hz | ⟨k, hk⟩
      · omega
      · by_cases h17 : k ≤ 17
        · have : (2 : Int) ^ k ≤ 2 ^ 17 := pow_le_pow_right₀ (by norm_num) h17
          norm_num at this
          omega
        · by_cases h18 : k = 18
          · rw [hk, h18]
            norm_num
          · have : (2 : Int) ^ 19 ≤ 2 ^ k := pow_le_pow_right₀ (by norm_num) (by omega)
            norm_num at this
            omega
    refine ⟨v, hv, hsz, hcap, ?_, grow_text_verts_overflow v hcap (by omega)⟩
    rw [hcap]
    decide
  · exact layout_glyphs_overflow text_font 854 480 _ 0 0 text_ready_video hok (by decide)
      (by
        rw [known_glyphs_replicate, List.length_replicate]
        show (0 : Int) + 24 * ((44739243 : Nat) : Int) > 1073741824
        norm_num)

/-- C13: in every reachable driver state the capacity of the glyph vertex block
is 0 or `4096 * 2 ^ k`, and no completed entry-point call lowers it. The glyph
loop started there with the length reset to 0 completes for every message whose
known glyphs need at most `2 ^ 29` floats (so through any number of growth
steps up to that size), provided the dimensions are non-zero and the pen
arithmetic stays within `int`; no store leaves the block, and afterwards the
block starts with the 24 floats of every emitted quad in order. For each loop
state whose next quad ends within `2 ^ 29` floats the growth block is defined,
after it `text_verts_size + 24 <= text_verts_capacity` holds, the floats written
so far are kept and the capacity has not decreased; a store of 24 floats is
defined only when it fits the capacity. `realloc` is taken to succeed. -/
theorem text_buffer_growth (vid : xplay_video) (hr : reachable vid) :
    (vid.text_verts_capacity = 0 ∨ ∃ k : Nat, vid.text_verts_capacity = 4096 * 2 ^ k) ∧
    (∀ vid1, driver_step vid vid1 → vid.text_verts_capacity ≤ vid1.text_verts_capacity) ∧
    (∀ (font : font_renderer) (width height : Nat) (msg : List Nat) (x y : Int),
      text_dims_ok vid width height → glyphs_in_range (known_glyphs font msg) x y →
      24 * ((known_glyphs font msg).length : Int) ≤ TEXT_FLOATS_MAX →
      ∃ vid1 l, layout_glyphs font width height msg x y { vid with text_verts_size := 0 }
          = some vid1 ∧
        quads_from vid width height (known_glyphs font msg) x y = some l ∧
        vid1.text_verts_size = 24 * ((known_glyphs font msg).length : Int) ∧
        vid1.text_verts_size ≤ vid1.text_verts_capacity ∧
        vid1.text_verts.take (24 * (known_glyphs font msg).length) = l ∧
        vid.text_verts_capacity ≤ vid1.text_verts_capacity ∧
        (vid1.text_verts_capacity = 0 ∨ ∃ k : Nat, vid1.text_verts_capacity = 4096 * 2 ^ k)) ∧
    (∀ v : xplay_video, text_loop_ok v → v.text_verts_size + 24 ≤ TEXT_FLOATS_MAX →
      ∃ v1, grow_text_verts v = some v1 ∧ text_loop_ok v1 ∧
        v1.text_verts_size + 24 ≤ v1.text_verts_capacity ∧
        v1.text_verts.take v.text_verts_size.toNat
          = v.text_verts.take v.text_verts_size.toNat ∧
        v.text_verts_capacity ≤ v1.text_verts_capacity) ∧
    (∀ (v v1 : xplay_video) (q : List Rat), text_capacity_ok v → q.length = 24 →
      store_quad v q = some v1 → v.text_verts_size + 24 ≤ v.text_verts_capacity) := by
  have hok := reachable_text_ok vid hr
  refine ⟨hok.1.1, ?_, ?_, ?_, ?_⟩
  · intro vid1 s
    exact (driver_step_text vid vid1 hok s).2
  · intro font width height msg x y hd hpen hlen
    unfold TEXT_FLOATS_MAX at hlen
    have hok0 := text_loop_ok_reset vid hok.1
    obtain ⟨vid1, hl⟩ := layout_glyphs_defined font width height msg x y
      { vid with text_verts_size := 0 } hok0 hd hpen (by simp only; omega)
    obtain ⟨hok1, hsz, hcap, ⟨l, hq, htake⟩, _, _⟩ := layout_glyphs_inv _ _ _ _ _ _ _ _ hok0 hl
    simp only at hsz hcap htake
    have hsz2 : vid1.text_verts_size = 24 * ((known_glyphs font msg).length : Int) := by
      rw [hsz]
      ring
    have hn : vid1.text_verts_size.toNat = 24 * (known_glyphs font msg).length := by
      rw [hsz2]
      omega
    refine ⟨vid1, l, hl, ?_, hsz2, hok1.2.2, ?_, hcap, hok1.1.1⟩
    · rw [← hq]
      exact (quads_from_congr vid { vid with text_verts_size := 0 } width height _ _ _
        rfl rfl).symm
    · rw [← hn, htake]
      simp only [Int.toNat_zero, List.take_zero, List.nil_append]
  · intro v hv hs
    unfold TEXT_FLOATS_MAX at hs
    obtain ⟨v1, hv1⟩ := grow_text_verts_defined v hv (by omega)
    obtain ⟨h1, _, h3, h4, h5, _⟩ := grow_text_verts_inv v v1 hv hv1
    exact ⟨v1, hv1, h1, h3, h5, h4⟩
  · intro v v1 q hcap hq hs
    exact (store_quad_in_bounds v v1 q hq hcap hs).2

/-- The invariants of C13 on the example state with the message of 171 letters
`A`: 4104 floats are emitted, more than the initial capacity of 4096, so the
block has grown twice. -/
theorem text_buffer_growth_witness :
    reachable text_ready_video ∧
    ∃ vid1 l, layout_glyphs text_font 854 480 (List.replicate 171 65) 0 0
        { text_ready_video with text_verts_size := 0 } = some vid1 ∧
      quads_from text_ready_video 854 480 (List.replicate 171 (sample_glyph 0 8)) 0 0 = some l ∧
      vid1.text_verts_size = 4104 ∧ 4096 < vid1.text_verts_capacity ∧
      vid1.text_verts.take 4104 = l := by
  obtain ⟨_, hd, hinit⟩ := text_ready_video_ok
  have hr : reachable text_ready_video := reachable.init _ hinit
  obtain ⟨_, _, h3, _⟩ := text_buffer_growth text_ready_video hr
  obtain ⟨vid1, l, hl, hq, hsz, hle, htake, _⟩ := h3 text_font 854 480 (List.replicate 171 65) 0 0
    hd (by rw [known_glyphs_replicate]; exact glyphs_in_range_replicate _ 0 (le_refl _) (by norm_num))
    (by rw [known_glyphs_replicate, List.length_replicate]; decide)
  rw [known_glyphs_replicate, List.length_replicate] at hsz htake
  rw [known_glyphs_replicate] at hq
  have hsz2 : vid1.text_verts_size = 4104 := by
    rw [hsz]
    norm_num
  exact ⟨hr, vid1, l, hl, hq, hsz2, by omega, htake⟩


theorem composition_events_append (s : Bool × Nat) (l1 l2 : List gl_call) :
    composition_events s (l1 ++ l2) =
      composition_events s l1 ++ composition_events (final_state s l1) l2 := by
  induction l1 generalizing s with
  | nil => rfl
  | cons c rest ih =>
    show (event_of s c).toList ++ composition_events (gl_effect s c) (rest ++ l2) = _
    rw [ih (gl_effect s c)]
    simp only [composition_events, final_state, List.foldl_cons, List.append_assoc]

theorem final_state_append (s : Bool × Nat) (l1 l2 : List gl_call) :
    final_state s (l1 ++ l2) = final_state (final_state s l1) l2 := by
  unfold final_state
  rw [List.foldl_append]

theorem segment_append (l1 l2 : List gl_call) (b b1 b2 : Bool)
    (ev1 ev2 : List (composition_event × Bool)) (h1 : segment l1 b ev1 b1)
    (h2 : segment l2 b1 ev2 b2) : segment (l1 ++ l2) b (ev1 ++ ev2) b2 := by
  intro t
  obtain ⟨e1, f1⟩ := h1 t
  have hs : final_state (b, t) l1 = (b1, (final_state (b, t) l1).2) := by
    rw [← f1]
  obtain ⟨e2, f2⟩ := h2 (final_state (b, t) l1).2
  rw [composition_events_append, final_state_append, e1, hs, e2, f2]
  exact ⟨rfl, rfl⟩

theorem segment_nil (b : Bool) : segment [] b [] b := fun _ => ⟨rfl, rfl⟩

theorem segment_quiet (l : List gl_call) (b : Bool) (h : ∀ c ∈ l, is_quiet c = true) :
    segment l b [] b := by
  induction l with
  | nil => exact segment_nil b
  | cons c rest ih =>
    have hc := h c (List.mem_cons_self _ _)
    have hrest := ih (fun d hd => h d (List.mem_cons_of_mem _ hd))
    have h1 : segment [c] b [] b := by
      intro t
      cases c <;> first | exact ⟨rfl, rfl⟩ | exact absurd hc (by simp [is_quiet])
    exact segment_append [c] rest b b b [] [] h1 hrest

theorem to_int_range (n : Nat) : int_range (to_int n) := by
  unfold int_range to_int UINT_RANGE
  split_ifs <;> omega

/-- A completed upload issues quiet calls only and stores `int` sizes. -/
theorem blit_quiet (tex : xplay_framebuf_texture) (frame : Nat → Nat)
    (width height pitch : Nat) (fmt : xplay_framebuf_format)
    (tex1 : xplay_framebuf_texture) (calls : List gl_call)
    (h : xplay_blit_framebuf tex frame width height pitch fmt = some (tex1, calls)) :
    (∀ c ∈ calls, is_quiet c = true) ∧
      (int_range tex.width ∧ int_range tex.height →
        int_range tex1.width ∧ int_range tex1.height) := by
  cases hp : blit_params fmt with
  | none =>
    unfold xplay_blit_framebuf at h
    rw [hp] at h
    simp only [Option.some.injEq, Prod.mk.injEq] at h
    obtain ⟨rfl, rfl⟩ := h
    exact ⟨fun c hc => absurd hc (List.not_mem_nil c), fun hr => hr⟩
  | some p =>
    obtain ⟨ps, format, type⟩ := p
    rw [blit_unfold tex frame width height pitch fmt ps format type hp] at h
    split at h
    · exact absurd h (by simp)
    · rename_i tex2 pixels hsrc
      simp only [Option.some.injEq, Prod.mk.injEq] at h
      obtain ⟨rfl, rfl⟩ := h
      obtain ⟨_, f2, f3, _, _⟩ := blit_source_fields _ _ _ _ _ _ _ _ hsrc
      constructor
      · intro c hc
        unfold blit_realloc at hc
        split_ifs at hc <;> simp at hc <;> rcases hc with rfl | rfl | rfl <;> rfl
      · intro hr
        rw [f2, f3]
        unfold blit_realloc
        split_ifs
        · exact ⟨to_int_range width, to_int_range height⟩
        · exact hr


theorem set_texture_frame_quiet (vid : xplay_video) (supports_rgba : Bool) (a : texture_frame)
    (vid1 : xplay_video) (calls : List gl_call)
    (h : xplay_set_texture_frame vid supports_rgba a = some (vid1, calls)) :
    ∀ c ∈ calls, is_quiet c = true := by
  rw [set_texture_frame_unfold] at h
  split at h
  · exact absurd h (by simp)
  · split at h
    · exact absurd h (by simp)
    · rename_i tex1 c1 hb
      simp only [Option.some.injEq, Prod.mk.injEq] at h
      obtain ⟨_, rfl⟩ := h
      exact (blit_quiet _ _ _ _ _ _ _ _ hb).1

theorem run_texture_frames_quiet (supports_rgba : Bool) (l : List texture_frame)
    (vid vid1 : xplay_video) (calls : List gl_call)
    (h : run_texture_frames supports_rgba l vid = some (vid1, calls)) :
    ∀ c ∈ calls, is_quiet c = true := by
  induction l generalizing vid calls with
  | nil =>
    simp only [run_texture_frames, Option.some.injEq, Prod.mk.injEq] at h
    obtain ⟨_, rfl⟩ := h
    exact fun c hc => absurd hc (List.not_mem_nil c)
  | cons a rest ih =>
    simp only [run_texture_frames] at h
    split at h
    · exact absurd h (by simp)
    · rename_i v c1 hv
      split at h
      · exact absurd h (by simp)
      · rename_i v2 c2 hv2
        simp only [Option.some.injEq, Prod.mk.injEq] at h
        obtain ⟨rfl, rfl⟩ := h
        intro c hc
        rcases List.mem_append.mp hc with h1 | h2
        · exact set_texture_frame_quiet vid supports_rgba a v c1 hv c h1
        · exact ih v c2 hv2 c h2

theorem maybe_init_font_texture_quiet (vid : xplay_video) (font : font_renderer) (gen : Nat) :
    ∀ c ∈ (xplay_maybe_init_font_texture vid font gen).2.2, is_quiet c = true := by
  have h : (xplay_maybe_init_font_texture vid font gen).2.2.all is_quiet = true := by
    unfold xplay_maybe_init_font_texture xplay_init_texture
    simp only
    split_ifs <;> rfl
  exact List.all_eq_true.mp h

/-- The calls of a layer draw: one layer event with the texture of the record,
in the blending state of entry, when the stored size is positive; nothing
otherwise. -/
theorem draw_framebuf_segment (prog : xplay_framebuf_program) (tex : xplay_framebuf_texture)
    (integer_scale : Bool) (alpha : Rat) (tex1 : xplay_framebuf_texture) (calls : List gl_call)
    (h : xplay_draw_framebuf prog tex integer_scale alpha = some (tex1, calls)) (b : Bool) :
    segment calls b
      (if 1 ≤ tex.width ∧ 1 ≤ tex.height then [(composition_event.draw_layer tex.handle, b)]
        else []) b := by
  unfold xplay_draw_framebuf at h
  split_ifs at h with hg
  · simp only [Option.some.injEq, Prod.mk.injEq] at h
    obtain ⟨_, rfl⟩ := h
    rw [if_neg (by omega)]
    exact segment_nil b
  · split at h
    · exact absurd h (by simp)
    · simp only [Option.some.injEq, Prod.mk.injEq] at h
      obtain ⟨_, rfl⟩ := h
      rw [if_pos (by omega)]
      exact fun _ => ⟨rfl, rfl⟩

/-- The calls of a completed `xplay_render_msg` hold one text event, in the
blending state of entry, exactly when a font is active and the atlas texture is
available afterwards. -/
theorem render_msg_segment (vid : xplay_video) (font : font_renderer) (gen : Nat)
    (msg : List Nat) (width height : Nat) (px py : Rat) (v : xplay_video) (f : font_renderer)
    (c : List gl_call)
    (h : xplay_render_msg vid font gen msg width height px py = some (v, f, c)) (b : Bool) :
    segment c b
      (if v.font = true ∧ v.font_atlas_tex ≠ 0 then [(composition_event.draw_text, b)]
        else []) b := by
  obtain ⟨_, hf1, _⟩ := maybe_init_font_texture_text vid font gen
  have hq := maybe_init_font_texture_quiet vid font gen
  rcases render_msg_cases _ _ _ _ _ _ _ _ _ _ _ h with
    ⟨hf, rfl, rfl⟩ | ⟨_, ha, rfl, rfl⟩ | ⟨hf, ha, x0, y0, pw, ph, _, _, hl, _, rfl⟩
  · rw [if_neg (fun hc => by rw [hf] at hc; exact absurd hc.1 (by simp))]
    exact segment_nil b
  · rw [if_neg (fun hc => hc.2 ha)]
    exact segment_quiet _ b hq
  · obtain ⟨e1, e2⟩ := only_text_changed_font _ _ (layout_glyphs_changed _ _ _ _ _ _ _ _ hl)
    simp only at e1 e2
    rw [if_pos ⟨by rw [e1, hf1, hf], by rw [e2]; exact ha⟩]
    show segment (_ ++ _) b ([] ++ [(composition_event.draw_text, b)]) b
    exact segment_append _ _ _ _ _ _ _ (segment_quiet _ b hq) (fun _ => ⟨rfl, rfl⟩)

theorem frame_format_ne_none (frame_rgb32 use_rgba : Bool) :
    frame_format frame_rgb32 use_rgba ≠ xplay_framebuf_format.PF_NONE := by
  cases frame_rgb32 <;> cases use_rgba <;> simp [frame_format]

theorem to_unsigned_pos (i : Int) (n : Nat) (hr : int_range i) (h1 : 1 ≤ n)
    (h2 : n < 2147483648) (he : to_unsigned i = n) : 1 ≤ i := by
  unfold int_range at hr
  unfold to_unsigned at he
  omega

theorem text_stage_layers (vid4 : xplay_video) (msg : Option (List Nat))
    (vi : video_frame_info) (env : frame_env) (r : frame_result) (c_text : List gl_call)
    (h : text_stage vid4 msg vi env r c_text) : same_layers vid4 r.vid := by
  rcases h with ⟨_, hv, _⟩ | ⟨m, c, _, hm, _⟩
  · rw [hv]
    exact same_layers_refl _
  · exact render_msg_layers _ _ _ _ _ _ _ _ _ _ _ hm

theorem maybe_init_font_texture_fields (vid vid1 : xplay_video) (font : font_renderer)
    (gen : Nat) (hf : vid1.font = vid.font) (ht : vid1.font_atlas_tex = vid.font_atlas_tex)
    (hw : vid1.font_atlas_width = vid.font_atlas_width)
    (hh : vid1.font_atlas_height = vid.font_atlas_height) :
    (xplay_maybe_init_font_texture vid1 font gen).1.font_atlas_tex
        = (xplay_maybe_init_font_texture vid font gen).1.font_atlas_tex ∧
      (xplay_maybe_init_font_texture vid1 font gen).1.font_atlas_width
        = (xplay_maybe_init_font_texture vid font gen).1.font_atlas_width ∧
      (xplay_maybe_init_font_texture vid1 font gen).1.font_atlas_height
        = (xplay_maybe_init_font_texture vid font gen).1.font_atlas_height := by
  cases vid
  cases vid1
  simp only at hf ht hw hh
  subst hf ht hw hh
  unfold xplay_maybe_init_font_texture
  simp only
  split_ifs <;> exact ⟨rfl, rfl, rfl⟩

theorem text_in_range_fields (vid vid1 : xplay_video) (font : font_renderer) (gen : Nat)
    (msg : List Nat) (width height : Nat) (px py : Rat) (hf : vid1.font = vid.font)
    (ht : vid1.font_atlas_tex = vid.font_atlas_tex)
    (hw : vid1.font_atlas_width = vid.font_atlas_width)
    (hh : vid1.font_atlas_height = vid.font_atlas_height)
    (h : text_in_range vid font gen msg width height px py) :
    text_in_range vid1 font gen msg width height px py := by
  obtain ⟨e1, e2, e3⟩ := maybe_init_font_texture_fields vid vid1 font gen hf ht hw hh
  unfold text_in_range text_dims_ok at h ⊢
  rw [hf, e1, e2, e3]
  exact h

/-- From a state satisfying the loop invariant, `xplay_render_msg` completes
whenever its arithmetic stays in range. -/
theorem render_msg_defined (vid : xplay_video) (font : font_renderer) (gen : Nat)
    (msg : List Nat) (width height : Nat) (px py : Rat) (hok : text_loop_ok vid)
    (hr : text_in_range vid font gen msg width height px py) :
    xplay_render_msg vid font gen msg width height px py ≠ none := by
  by_cases hfont : vid.font = true
  · by_cases hatlas : (xplay_maybe_init_font_texture vid font gen).1.font_atlas_tex = 0
    · unfold xplay_render_msg
      simp only [hfont, Bool.not_true, Bool.false_eq_true, if_false]
      generalize xplay_maybe_init_font_texture vid font gen = p at hatlas
      obtain ⟨vid1, font1, c1⟩ := p
      simp only at hatlas ⊢
      rw [if_pos hatlas]
      exact Option.some_ne_none _
    · obtain ⟨hd, x0, y0, hx, hy, hpen, hlen⟩ := hr hfont hatlas
      obtain ⟨v, f, c, l, h, _⟩ := render_msg_ok vid font gen msg width height px py x0 y0
        hok.1 hfont hatlas hd hx hy hpen (by unfold TEXT_FLOATS_MAX at hlen; omega)
      rw [h]
      exact Option.some_ne_none _
  · unfold xplay_render_msg
    simp [hfont]

/-- The text section of a frame call: blending is switched on before and off
after the text renderer, so one text event with blending on when a message is
given, a font is active and the atlas texture is available; no event otherwise. -/
theorem text_stage_segment (vid4 : xplay_video) (msg : Option (List Nat))
    (vi : video_frame_info) (env : frame_env) (r : frame_result) (c_text : List gl_call)
    (h : text_stage vid4 msg vi env r c_text) :
    segment c_text false
      (if msg.isSome = true ∧ r.vid.font = true ∧ r.vid.font_atlas_tex ≠ 0
        then [(composition_event.draw_text, true)] else []) false := by
  rcases h with ⟨hm, _, hc⟩ | ⟨m, c, hm, hr, hc⟩
  · rw [hm, hc, if_neg (fun hx => absurd hx.1 (by simp))]
    exact segment_nil false
  · have hseg := render_msg_segment _ _ _ _ _ _ _ _ _ _ _ hr
    have h1 : segment [gl_call.glEnable_BLEND] false [] true := fun _ => ⟨rfl, rfl⟩
    have h3 : segment [gl_call.glDisable_BLEND] true [] false := fun _ => ⟨rfl, rfl⟩
    have h123 := segment_append _ _ _ _ _ _ _ (segment_append _ _ _ _ _ _ _ h1 (hseg true)) h3
    rw [hc, hm]
    by_cases hd : r.vid.font = true ∧ r.vid.font_atlas_tex ≠ 0
    · rw [if_pos hd] at h123
      rw [if_pos ⟨rfl, hd⟩]
      exact h123
    · rw [if_neg hd] at h123
      rw [if_neg (fun hx => hd hx.2)]
      exact h123

/-- The menu section of a frame call entered with blending off: one layer event
with the current menu texture and blending on when the menu is alive and that
texture has a positive size; blending is off afterwards. -/
theorem draw_menu_segment (vid : xplay_video) (integer_scale menu_is_alive : Bool)
    (env : frame_env) (vid1 : xplay_video) (calls : List gl_call)
    (h : draw_menu vid integer_scale menu_is_alive env = some (vid1, calls))
    (mt : xplay_framebuf_texture)
    (hmt : slot_get vid1.menu_tex vid1.menu_tex_index = some mt) :
    segment calls false
      (if menu_is_alive = true ∧ 1 ≤ mt.width ∧ 1 ≤ mt.height
        then [(composition_event.draw_layer mt.handle, true)] else []) false := by
  obtain ⟨vidu, cu, hu, _, hdead, halive⟩ := draw_menu_inv _ _ _ _ _ _ h
  have hq := segment_quiet cu false (run_texture_frames_quiet _ _ _ _ _ hu)
  cases hm : menu_is_alive with
  | false =>
    rw [(hdead hm).2, if_neg (fun hx => absurd hx.1 (by simp))]
    exact hq
  | true =>
    obtain ⟨menu_tex, prog, t1, c2, hslot, _, hdraw, hv, hc⟩ := halive hm
    obtain ⟨hi0, hi1⟩ := slot_get_some_lt _ _ _ hslot
    rw [hv] at hmt
    simp only at hmt
    rw [slot_get_set_same _ _ _ hi0 hi1] at hmt
    simp only [Option.some.injEq] at hmt
    subst hmt
    obtain ⟨f1, f2, f3, _⟩ := draw_framebuf_fields _ _ _ _ _ _ hdraw
    have hd := draw_framebuf_segment _ _ _ _ _ _ hdraw true
    have h1 : segment [gl_call.glEnable_BLEND] false [] true := fun _ => ⟨rfl, rfl⟩
    have h3 : segment [gl_call.glDisable_BLEND] true [] false := fun _ => ⟨rfl, rfl⟩
    have hall := segment_append _ _ _ _ _ _ _
      (segment_append _ _ _ _ _ _ _ (segment_append _ _ _ _ _ _ _ hq h1) hd) h3
    rw [hc, f1, f2, f3]
    by_cases hp : 1 ≤ menu_tex.width ∧ 1 ≤ menu_tex.height
    · rw [if_pos hp] at hall
      rw [if_pos ⟨rfl, hp⟩]
      exact hall
    · rw [if_neg hp] at hall
      rw [if_neg (fun hx => hp hx.2)]
      exact hall


/-- The frame slots after a completed frame call with a non-null buffer: the
rotated slot holds the uploaded and drawn texture record. -/
theorem frame_slots_after (vid : xplay_video) (mem : Nat → Nat) (width height pitch : Nat)
    (msg : Option (List Nat)) (vi : video_frame_info) (st : settings_t) (env : frame_env)
    (r : frame_result)
    (h : xplay_gfx_frame vid (some mem) width height pitch msg vi st env = some r) :
    ∃ tex tex1 c_blit prog tex2 c_draw,
      slot_get vid.frame_tex (Int.tmod (vid.frame_tex_index + 1) XPLAY_FRAMEBUF_COUNT) = some tex ∧
      xplay_blit_framebuf tex mem width height pitch (frame_format vid.frame_rgb32 vi.use_rgba)
        = some (tex1, c_blit) ∧
      xplay_draw_framebuf prog tex1 st.video_scale_integer 1 = some (tex2, c_draw) ∧
      r.vid.frame_tex_index = Int.tmod (vid.frame_tex_index + 1) XPLAY_FRAMEBUF_COUNT ∧
      r.vid.frame_tex = slot_set (slot_set vid.frame_tex
          (Int.tmod (vid.frame_tex_index + 1) XPLAY_FRAMEBUF_COUNT) tex1)
          (Int.tmod (vid.frame_tex_index + 1) XPLAY_FRAMEBUF_COUNT) tex2 := by
  obtain ⟨tex, tex1, c_blit, prog, tex2, c_draw, vid4, c_menu, c_text,
    htex, hblit, _, hdraw, hmenu, htext, _, _⟩ := frame_some_inv_full _ _ _ _ _ _ _ _ _ _ h
  obtain ⟨l1, l2, _⟩ := text_stage_layers _ _ _ _ _ _ htext
  obtain ⟨m1, m2, _⟩ := draw_menu_fields _ _ _ _ _ _ hmenu
  exact ⟨tex, tex1, c_blit, prog, tex2, c_draw, htex, hblit, hdraw, l2.trans m2, l1.trans m1⟩

theorem driver_step_frame_sizes (vid vid1 : xplay_video) (hs : frame_sizes_ok vid)
    (s : driver_step vid vid1) : frame_sizes_ok vid1 := by
  cases s with
  | frame frame width height pitch msg video_info settings env r h =>
    cases frame with
    | none =>
      rw [frame_null] at h
      simp only [Option.some.injEq] at h
      subst h
      exact hs
    | some mem =>
      obtain ⟨tex, tex1, c_blit, prog, tex2, c_draw, htex, hblit, hdraw, _, hf⟩ :=
        frame_slots_after _ _ _ _ _ _ _ _ _ _ h
      have h1 := (blit_quiet _ _ _ _ _ _ _ _ hblit).2 (hs tex (slot_get_mem _ _ _ htex))
      obtain ⟨_, f2, f3, _⟩ := draw_framebuf_fields _ _ _ _ _ _ hdraw
      unfold frame_sizes_ok
      rw [hf]
      refine slot_set_forall
        (fun t : xplay_framebuf_texture => int_range t.width ∧ int_range t.height) _ _ _ ?_ ?_
      · exact slot_set_forall
          (fun t : xplay_framebuf_texture => int_range t.width ∧ int_range t.height)
          vid.frame_tex _ _ hs h1
      · show int_range tex2.width ∧ int_range tex2.height
        rw [f2, f3]
        exact h1
  | texture_frame supports_rgba a _ calls h =>
    unfold frame_sizes_ok
    rw [(set_texture_frame_fields _ _ _ _ _ h).1]
    exact hs

/-- In every reachable driver state the stored frame sizes are `int` values. -/
theorem reachable_frame_sizes (vid : xplay_video) (h : reachable vid) : frame_sizes_ok vid := by
  induction h with
  | init vid hi =>
    obtain ⟨⟨a, b, hf⟩, _⟩ := hi
    unfold frame_sizes_ok
    rw [hf]
    intro t ht
    simp only [List.mem_cons, List.mem_singleton, List.not_mem_nil, or_false] at ht
    rcases ht with rfl | rfl <;> simp [int_range, fresh_texture]
  | step vid vid1 _ s ih => exact driver_step_frame_sizes vid vid1 ih s

/-- A frame call on the direct upload path, with a source of positive size and
no overlay activity, completes without a message, and with a message whose
text arithmetic stays in range. -/
theorem frame_direct_defined_msg (vid : xplay_video) (hs : slots_ok vid)
    (hok : text_loop_ok vid) (mem : Nat → Nat)
    (width height : Nat) (msg : Option (List Nat)) (vi : video_frame_info) (st : settings_t)
    (env : frame_env)
    (hw : 1 ≤ width) (hw2 : width < 2147483648) (hh : 1 ≤ height) (hh2 : height < 2147483648)
    (halive : vi.menu_is_alive = false) (hup : env.menu_uploads = [])
    (hmsg : ∀ m, msg = some m → text_in_range vid env.font env.gen_texture m
      SCREEN_WIDTH.toNat SCREEN_HEIGHT.toNat vi.font_msg_pos_x vi.font_msg_pos_y) :
    ∃ r, xplay_gfx_frame vid (some mem) width height
      (umul (texel_size (frame_format vid.frame_rgb32 vi.use_rgba)) width) msg vi st env
        = some r := by
  obtain ⟨h1, _, h3, _⟩ := hs
  have hidx := tmod_two_range _ h3
  obtain ⟨tex, htex⟩ := slot_get_defined vid.frame_tex
    (Int.tmod (vid.frame_tex_index + 1) XPLAY_FRAMEBUF_COUNT) (by omega) (by omega)
  obtain ⟨⟨tex1, c_blit⟩, hblit⟩ := blit_direct_defined tex mem width height
    (frame_format vid.frame_rgb32 vi.use_rgba)
  unfold xplay_gfx_frame
  simp only
  rw [htex]
  simp only
  rw [hblit]
  simp only
  obtain ⟨prog, hprog⟩ := framebuf_program_defined
    { vid with
      frame_tex_index := Int.tmod (vid.frame_tex_index + 1) XPLAY_FRAMEBUF_COUNT,
      frame_tex := slot_set vid.frame_tex
        (Int.tmod (vid.frame_tex_index + 1) XPLAY_FRAMEBUF_COUNT) tex1 }
    vid.frame_rgb32 (to_int width) (to_int height)
    (st.video_scale_integer && st.video_notch_write_over_enable)
    (by rw [to_int_small width hw2]; omega) (by rw [to_int_small height hh2]; omega)
  rw [hprog]
  simp only
  obtain ⟨⟨tex2, c_draw⟩, hdraw⟩ := draw_framebuf_defined prog tex1 st.video_scale_integer 1
  rw [hdraw]
  simp only
  unfold draw_menu
  rw [hup, halive]
  simp only [run_texture_frames, Bool.false_eq_true, if_false]
  cases msg with
  | none => exact ⟨_, rfl⟩
  | some m =>
    simp only
    generalize hg : xplay_render_msg _ env.font env.gen_texture m _ _ _ _ = res
    cases res with
    | none =>
      refine absurd hg (render_msg_defined _ _ _ _ _ _ _ _ ?_ ?_)
      · exact hok
      · exact text_in_range_fields vid _ _ _ _ _ _ _ _ rfl rfl rfl rfl (hmsg m rfl)
    | some p => exact ⟨_, rfl⟩


/-- A frame call on the direct upload path, with the menu not alive and no
overlay upload, that does not complete: the message `AA` with the font whose
glyph for `A` advances the pen by `INT_MAX` overflows the `int` pen position in
`xplay_render_msg`. -/
theorem frame_pen_overflow_undefined :
    sample_info.menu_is_alive = false ∧ wide_env.menu_uploads = [] ∧
    (xplay_gfx_frame text_video (some (fun i => i)) 2 2
      (umul (texel_size (frame_format text_video.frame_rgb32 sample_info.use_rgba)) 2)
      (some [65, 65]) sample_info sample_settings wide_env).isNone = true :=
  ⟨rfl, rfl, by decide!⟩

/-- C15: a frame call from a reachable state with a non-null buffer of width and
height between 1 and `2 ^ 31 - 1`, entered with blending disabled. If it
completes, its composition events are, in order: the clear and the draw of the
frame texture of the rotated slot, both with blending disabled; the draw of the
current menu texture with blending enabled, present exactly when the menu is
alive and that texture has a positive size; the text draw with blending enabled,
present exactly when a message is given, a font is active and the atlas texture
is available; the presentation with blending disabled, present exactly when the
context has a swap function. Blending is disabled when the call returns. On the
direct upload path without overlay activity the call completes, provided the
text arithmetic of a given message stays in range. -/
theorem frame_composition_sequence (vid : xplay_video) (hr : reachable vid) (mem : Nat → Nat)
    (width height pitch : Nat) (msg : Option (List Nat)) (vi : video_frame_info)
    (st : settings_t) (env : frame_env)
    (hw : 1 ≤ width) (hw2 : width < 2147483648) (hh : 1 ≤ height) (hh2 : height < 2147483648) :
    (∀ r, xplay_gfx_frame vid (some mem) width height pitch msg vi st env = some r →
      ∃ base overlay,
        slot_get r.vid.frame_tex r.vid.frame_tex_index = some base ∧
        slot_get r.vid.menu_tex r.vid.menu_tex_index = some overlay ∧
        ∀ t0 : Nat,
          composition_events (false, t0) r.calls =
            [(composition_event.clear, false),
              (composition_event.draw_layer base.handle, false)] ++
            (if vi.menu_is_alive = true ∧ 1 ≤ overlay.width ∧ 1 ≤ overlay.height
              then [(composition_event.draw_layer overlay.handle, true)] else []) ++
            (if msg.isSome = true ∧ r.vid.font = true ∧ r.vid.font_atlas_tex ≠ 0
              then [(composition_event.draw_text, true)] else []) ++
            (if r.vid.has_swap_buffers = true
              then [(composition_event.present, false)] else []) ∧
          (final_state (false, t0) r.calls).1 = false) ∧
    (vi.menu_is_alive = false → env.menu_uploads = [] →
      (∀ m, msg = some m → text_in_range vid env.font env.gen_texture m
        SCREEN_WIDTH.toNat SCREEN_HEIGHT.toNat vi.font_msg_pos_x vi.font_msg_pos_y) →
      ∃ r, xplay_gfx_frame vid (some mem) width height
        (umul (texel_size (frame_format vid.frame_rgb32 vi.use_rgba)) width) msg vi st env
          = some r) := by
  have hs := reachable_slots_ok vid hr
  have hsz := reachable_frame_sizes vid hr
  have hok := reachable_text_ok vid hr
  constructor
  · intro r h
    obtain ⟨_, m2, _, m4⟩ := driver_step_slots_ok vid r.vid hs
      (driver_step.frame vid (some mem) width height pitch msg vi st env r h)
    obtain ⟨overlay, hov⟩ := slot_get_defined r.vid.menu_tex r.vid.menu_tex_index
      (by omega) (by omega)
    obtain ⟨tex, tex1, c_blit, prog, tex2, c_draw, vid4, c_menu, c_text,
      htex, hblit, _, hdraw, hmenu, htext, _, hcalls⟩ := frame_some_inv_full _ _ _ _ _ _ _ _ _ _ h
    obtain ⟨l1, l2, _, l4, l5, _⟩ := text_stage_layers _ _ _ _ _ _ htext
    obtain ⟨d1, d2, _⟩ := draw_menu_fields _ _ _ _ _ _ hmenu
    have hok4 : text_loop_ok vid4 := by
      have h3 := draw_menu_text _ _ _ _ _ _ hmenu
      exact text_loop_ok_same _ _ h3 hok
    obtain ⟨hi0, hi1⟩ := slot_get_some_lt _ _ _ htex
    obtain ⟨f1, f2, f3, _⟩ := draw_framebuf_fields _ _ _ _ _ _ hdraw
    have hfmt := frame_format_ne_none vid.frame_rgb32 vi.use_rgba
    obtain ⟨_, _, hst, b4, _, _⟩ := blit_shape tex mem width height pitch _ hfmt
      (by omega) (by omega) tex1 c_blit hblit
    have hrange := (blit_quiet _ _ _ _ _ _ _ _ hblit).2 (hsz tex (slot_get_mem _ _ _ htex))
    have e1 : to_unsigned tex1.width = width := by
      by_contra hc
      exact hst (Or.inl hc)
    have e2 : to_unsigned tex1.height = height := by
      by_contra hc
      exact hst (Or.inr (Or.inl hc))
    have hpos : 1 ≤ tex1.width ∧ 1 ≤ tex1.height :=
      ⟨to_unsigned_pos _ width hrange.1 hw hw2 e1, to_unsigned_pos _ height hrange.2 hh hh2 e2⟩
    have hbase : slot_get r.vid.frame_tex r.vid.frame_tex_index = some tex2 := by
      rw [l1, l2, d1, d2]
      exact slot_get_set_same _ _ _ hi0 (by rw [slot_set_length]; exact hi1)
    have hov4 : slot_get vid4.menu_tex vid4.menu_tex_index = some overlay := by
      rw [← l4, ← l5]
      exact hov
    have s1 : segment [gl_call.glClear] false [(composition_event.clear, false)] false :=
      fun _ => ⟨rfl, rfl⟩
    have s2 := segment_quiet c_blit false (blit_quiet _ _ _ _ _ _ _ _ hblit).1
    have s3 := draw_framebuf_segment _ _ _ _ _ _ hdraw false
    rw [if_pos hpos, ← f1] at s3
    have s4 := draw_menu_segment _ _ _ _ _ _ hmenu overlay hov4
    have s5 := text_stage_segment _ _ _ _ _ _ htext
    have s6 : segment (if r.vid.has_swap_buffers = true then [gl_call.swap_buffers] else [])
        false (if r.vid.has_swap_buffers = true
          then [(composition_event.present, false)] else []) false := by
      split_ifs
      · exact fun _ => ⟨rfl, rfl⟩
      · exact segment_nil false
    have hall := segment_append _ _ _ _ _ _ _ (segment_append _ _ _ _ _ _ _
      (segment_append _ _ _ _ _ _ _ (segment_append _ _ _ _ _ _ _
        (segment_append _ _ _ _ _ _ _ s1 s2) s3) s4) s5) s6
    rw [← hcalls] at hall
    refine ⟨tex2, overlay, hbase, hov, fun t0 => ?_⟩
    have ht := hall t0
    simp only [List.append_nil, List.singleton_append, List.cons_append, List.nil_append,
      List.append_assoc] at ht ⊢
    exact ht
  · intro halive hup hmsg
    exact frame_direct_defined_msg vid hs hok mem width height msg vi st env hw hw2 hh hh2
      halive hup hmsg


/-- C15 counterexample: a 2x2 frame with the message `A` on the initial example
state, which has no font, entered with blending disabled. The events are the
clear, the base draw and the presentation: no text is drawn although a message
is present. -/
theorem message_without_font_counterexample :
    (xplay_gfx_frame sample_video (some (fun i => i)) 2 2 4 (some [65]) sample_info
        sample_settings sample_env).map (fun r => composition_events (false, 0) r.calls)
      = some [(composition_event.clear, false), (composition_event.draw_layer 4, false),
          (composition_event.present, false)] := by
  decide

/-- The sequence of C15 on a 2x2 frame with the message `?`, a font, the menu
alive and one overlay upload during the call: clear, base draw of texture 4,
overlay draw of texture 3, text draw, presentation. -/
theorem frame_composition_sequence_witness :
    reachable text_video ∧
    (xplay_gfx_frame text_video (some (fun i => i)) 2 2 4 (some [63]) sample_menu_info
        sample_settings text_env).map (fun r => composition_events (false, 0) r.calls)
      = some [(composition_event.clear, false), (composition_event.draw_layer 4, false),
          (composition_event.draw_layer 3, true), (composition_event.draw_text, true),
          (composition_event.present, false)] ∧
    (∀ r, xplay_gfx_frame text_video (some (fun i => i)) 2 2 4 (some [63])
        sample_menu_info sample_settings text_env = some r →
      ∃ base overlay,
        slot_get r.vid.frame_tex r.vid.frame_tex_index = some base ∧
        slot_get r.vid.menu_tex r.vid.menu_tex_index = some overlay ∧
        ∀ t0 : Nat, (final_state (false, t0) r.calls).1 = false) := by
  have hinit : is_initial text_video :=
    ⟨⟨2, 4, rfl⟩, ⟨1, 3, rfl⟩, rfl, rfl, rfl, rfl, rfl, rfl, rfl⟩
  refine ⟨reachable.init _ hinit, by decide!, fun r h => ?_⟩
  obtain ⟨base, overlay, hb, ho, hev⟩ :=
    (frame_composition_sequence text_video (reachable.init _ hinit) (fun i => i) 2 2 4
      (some [63]) sample_menu_info sample_settings text_env
      (by decide) (by decide) (by decide) (by decide)).1 r h
  exact ⟨base, overlay, hb, ho, fun t0 => (hev t0).2⟩


end XPlay
